import Mathlib

/-!
A verification development for `neuralnet`.

A one-hidden-layer feed-forward network trained by full-batch gradient descent
(`internal/neuralnets/neural_networks.go`) and its CSV data loader
(`internal/config/settings.go`).

Modelling conventions.

* `float64` is idealised: the code is embedded over an arbitrary linearly ordered
  field `α` (the theorems about the exponential take `α = ℝ`), so rounding, overflow
  and NaN are outside the model.  `math.Exp` is the parameter `exp`.  The exception is
  `Sigmoid`, which is embedded a second time over a model of binary64 (`F64`).
* `Validate` and `test` are embedded a second time over a heap of matrices (`Mem`), with
  the pointers of the source, to account for what a call writes.
* A Go panic (raised by the matrix library, by `make`, or by slice indexing) is the
  `Except.error` side of the monad `Go`; a returned Go `error` value is an ordinary
  component of the returned tuple (`Option GoError`, `none` being `nil`).
* `*mat.Dense` fields of the network are `Option (Dense α)` (`none` being `nil`); matrix
  arguments of `Train`, `test` and `Validate` are taken to be non-nil.
* A method that writes into its receiver takes the receiver's old value as first
  argument and returns the new value.
* The global `rand` source is the stream `rnd`, `rnd k` being the `k`-th draw of the call.
* Go `int` values are `Int`; the two products that size the weight slices are wrapped to
  64 bits (`wrapInt64`), and the `int32` indices of the loader to 32 bits (`wrapInt32`).
* The CSV reader and `strconv.ParseFloat` are parameters of the loader.
-/

namespace NeuralNet

/-! ## Run-time failures -/

/-- Panics that the embedded code can raise. -/
inductive Panic where
  | errShape
  | errZeroLength
  | errNegativeDimension
  | errRowAccess
  | errColAccess
  | indexOutOfRange
  | makeLenOutOfRange
  | zeroLengthMax
  | nilDereference
  deriving DecidableEq

/-- Error values of `libs.altipla.consulting/errors`: `errors.Errorf` and `errors.Trace`. -/
inductive GoError where
  | errorf (msg : String)
  | trace (inner : GoError)
  deriving DecidableEq

/-- A Go computation: it either panics or yields its returned values. -/
abbrev Go (β : Type) := Except Panic β

/-- Sequential evaluation of a panicking function over a slice, left to right. -/
def mapGo {β γ : Type} (f : β → Go γ) : List β → Go (List γ)
  | [] => pure []
  | b :: bs => do
    let c ← f b
    let cs ← mapGo f bs
    pure (c :: cs)

/-- Two's-complement wrap of an integer to the range of a 64-bit Go `int`. -/
def wrapInt64 (x : Int) : Int := (x + 2 ^ 63) % 2 ^ 64 - 2 ^ 63

/-- Go `make([]float64, n)`: a zeroed slice, or a panic for a negative length. -/
def makeSlice {α : Type} [Zero α] (n : Int) : Go (List α) :=
  if n < 0 then throw Panic.makeLenOutOfRange else pure (List.replicate n.toNat 0)

/-! ## The matrix library (gonum `mat`, `floats`) -/

/-- Model of `mat.Dense`: dimensions and row-major backing data (stride = `cols`). -/
structure Dense (α : Type) where
  rows : Nat
  cols : Nat
  data : List α
  deriving DecidableEq

/-- Model of the `mat.Matrix` interface: dimensions and element access. -/
structure GoMatrix (α : Type) where
  rows : Nat
  cols : Nat
  elem : Nat → Nat → Go α

section Lib

variable {α : Type}

/-- The zero value `new(mat.Dense)`. -/
def Dense.empty : Dense α := ⟨0, 0, []⟩

/-- Model of `(*Dense).IsEmpty`: the stride is zero. -/
def Dense.IsEmpty (m : Dense α) : Bool := m.cols == 0

/-- Unchecked element access `m.mat.Data[i*m.mat.Stride+j]` (Go bounds-checks the slice). -/
def Dense.elem (m : Dense α) (i j : Nat) : Go α :=
  match m.data[i * m.cols + j]? with
  | some v => pure v
  | none => throw Panic.indexOutOfRange

/-- Model of `(*Dense).At`: bounds-checked element access. -/
def Dense.At (m : Dense α) (i j : Nat) : Go α :=
  if m.rows ≤ i then throw Panic.errRowAccess
  else if m.cols ≤ j then throw Panic.errColAccess
  else m.elem i j

/-- A `*Dense` used where a `mat.Matrix` is expected. -/
def Dense.asMatrix (m : Dense α) : GoMatrix α := ⟨m.rows, m.cols, m.elem⟩

/-- Model of `(*Dense).T`: the transposed view, no data is copied. -/
def Dense.T (m : Dense α) : GoMatrix α := ⟨m.cols, m.rows, fun i j => m.elem j i⟩

/-- Model of `reuseAsNonZeroed`: the receiver must be empty or already of the wanted shape. -/
def Dense.reuseAs (recv : Dense α) (r c : Nat) : Go Unit :=
  if r = 0 ∨ c = 0 then throw Panic.errZeroLength
  else if recv.IsEmpty then pure ()
  else if r ≠ recv.rows ∨ c ≠ recv.cols then throw Panic.errShape
  else pure ()

/-- Fill an `r × c` matrix entry by entry in row-major order. -/
def Dense.fill (r c : Nat) (f : Nat → Nat → Go α) : Go (Dense α) := do
  let data ← mapGo (fun n => f (n / c) (n % c)) (List.range (r * c))
  pure ⟨r, c, data⟩

/-- Model of `floats.Sum`: left-to-right sum of a slice. -/
def floats.Sum [Add α] [Zero α] (s : List α) : α := s.foldl (fun sum v => sum + v) 0

/-- Model of `floats.Max`: panics on an empty slice, otherwise the largest value. -/
def floats.Max [LT α] [DecidableRel (fun (a b : α) => a < b)] : List α → Go α
  | [] => throw Panic.zeroLengthMax
  | x :: xs => pure (xs.foldl (fun max v => if max < v then v else max) x)

/-- Model of `mat.NewDense` with non-nil backing data. -/
def NewDense (r c : Int) (data : List α) : Go (Dense α) :=
  if r ≤ 0 ∨ c ≤ 0 then
    if r = 0 ∨ c = 0 then throw Panic.errZeroLength else throw Panic.errNegativeDimension
  else if wrapInt64 (r * c) ≠ data.length then throw Panic.errShape
  else pure ⟨r.toNat, c.toNat, data⟩

/-- Model of `mat.Row(nil, i, a)`. -/
def matRow (i : Nat) (a : GoMatrix α) : Go (List α) :=
  if a.rows ≤ i then throw Panic.errRowAccess
  else mapGo (fun j => a.elem i j) (List.range a.cols)

/-- Model of `mat.Col(nil, j, a)`. -/
def matCol (j : Nat) (a : GoMatrix α) : Go (List α) :=
  if a.cols ≤ j then throw Panic.errColAccess
  else mapGo (fun i => a.elem i j) (List.range a.rows)

variable [Field α]

/-- Model of `(*Dense).Mul`. -/
def Dense.Mul (recv : Dense α) (a b : GoMatrix α) : Go (Dense α) := do
  if a.cols ≠ b.rows then throw Panic.errShape
  recv.reuseAs a.rows b.cols
  Dense.fill a.rows b.cols (fun i j => do
    let terms ← mapGo (fun k => do pure ((← a.elem i k) * (← b.elem k j))) (List.range a.cols)
    pure (floats.Sum terms))

/-- Model of `(*Dense).Apply`. -/
def Dense.Apply (recv : Dense α) (fn : Nat → Nat → α → Go α) (a : GoMatrix α) : Go (Dense α) := do
  recv.reuseAs a.rows a.cols
  Dense.fill a.rows a.cols (fun i j => do fn i j (← a.elem i j))

/-- Shared shape of the elementwise binary operations `Add`, `Sub`, `MulElem`. -/
def Dense.elementwise (op : α → α → α) (recv : Dense α) (a b : GoMatrix α) : Go (Dense α) := do
  if a.rows ≠ b.rows ∨ a.cols ≠ b.cols then throw Panic.errShape
  recv.reuseAs a.rows a.cols
  Dense.fill a.rows a.cols (fun i j => do pure (op (← a.elem i j) (← b.elem i j)))

/-- Model of `(*Dense).Add`. -/
def Dense.Add (recv : Dense α) (a b : GoMatrix α) : Go (Dense α) :=
  Dense.elementwise (fun x y => x + y) recv a b

/-- Model of `(*Dense).Sub`. -/
def Dense.Sub (recv : Dense α) (a b : GoMatrix α) : Go (Dense α) :=
  Dense.elementwise (fun x y => x - y) recv a b

/-- Model of `(*Dense).MulElem`. -/
def Dense.MulElem (recv : Dense α) (a b : GoMatrix α) : Go (Dense α) :=
  Dense.elementwise (fun x y => x * y) recv a b

/-- Model of `(*Dense).Scale`. -/
def Dense.Scale (recv : Dense α) (f : α) (a : GoMatrix α) : Go (Dense α) := do
  recv.reuseAs a.rows a.cols
  Dense.fill a.rows a.cols (fun i j => do pure (f * (← a.elem i j)))

end Lib

/-! ## `internal/neuralnets/neural_networks.go` -/

/-- Source type `NeuralNetworkSettings`. -/
structure NeuralNetworkSettings (α : Type) where
  InputNeurons : Int
  OutputNeurons : Int
  HiddenNeurons : Int
  Epochs : Int
  LearningRate : α

/-- Source type `NeuralNetwork`. -/
structure NeuralNetwork (α : Type) where
  Settings : NeuralNetworkSettings α
  WeightsHidden : Option (Dense α)
  BiasesHidden : Option (Dense α)
  WeightsOut : Option (Dense α)
  BiasesOut : Option (Dense α)

section Net

variable {α : Type} [LinearOrderedField α]

/-- Source `Sigmoid`: `1.0 / (1.0 + math.Exp(-x))`. -/
def Sigmoid (exp : α → α) (x : α) : α := 1 / (1 + exp (-x))

/-- Source `SigmoidPrime`: `x * (1.0 - x)`. -/
def SigmoidPrime (x : α) : α := x * (1 - x)

/-- Source `NewNetwork`. -/
def NewNetwork (settings : NeuralNetworkSettings α) : NeuralNetwork α :=
  ⟨settings, none, none, none, none⟩

/-- Source `sumCols`. -/
def sumCols (m : Dense α) : Go (Dense α × Option GoError) := do
  let nCols := m.cols
  let data ← mapGo (fun i => do pure (floats.Sum (← matCol i m.asMatrix))) (List.range nCols)
  let output ← NewDense 1 nCols data
  pure (output, none)

/-- Source `test`: the inference forward pass. -/
def NeuralNetwork.test (exp : α → α) (network : NeuralNetwork α) (features : Dense α) :
    Go (Option (Dense α) × Option GoError) :=
  match network.WeightsHidden, network.WeightsOut, network.BiasesHidden, network.BiasesOut with
  | some weightsHidden, some weightsOut, some biasesHidden, some biasesOut => do
    let hiddenLayerInput ← Dense.empty.Mul features.asMatrix weightsHidden.asMatrix
    let addBiasesHidden := fun (_ col : Nat) (v : α) => do pure (v + (← biasesHidden.At 0 col))
    let hiddenLayerInput ← hiddenLayerInput.Apply addBiasesHidden hiddenLayerInput.asMatrix
    let applySigmoid := fun (_ _ : Nat) (v : α) => (pure (Sigmoid exp v) : Go α)
    let hiddenLayerActivations ← Dense.empty.Apply applySigmoid hiddenLayerInput.asMatrix
    let outputLayerInput ← Dense.empty.Mul hiddenLayerActivations.asMatrix weightsOut.asMatrix
    let addBiasesOut := fun (_ col : Nat) (v : α) => do pure (v + (← biasesOut.At 0 col))
    let outputLayerInput ← outputLayerInput.Apply addBiasesOut outputLayerInput.asMatrix
    let output ← Dense.empty.Apply applySigmoid outputLayerInput.asMatrix
    pure (some output, none)
  | _, _, _, _ =>
    pure (none, some (GoError.errorf "los pesos y desplamientos deben estar inicializados"))

/-- The inner loop of `Validate`: the first column holding `1.0`, else the old `classes`. -/
def scanLabels : List α → Nat → Nat → Nat
  | [], _, classes => classes
  | label :: rest, j, classes => if label = 1 then j else scanLabels rest (j + 1) classes

/-- The row loop of `Validate`, over the remaining row indices, threading `hits` and
`classes`. -/
def validateRows (predictions TestLabels : Dense α) : List Nat → Nat × Nat → Go (Nat × Nat)
  | [], st => pure st
  | i :: rest, (hits, classes) => do
    let labelRow ← matRow i TestLabels.asMatrix
    let classes := scanLabels labelRow 0 classes
    let p ← predictions.At i classes
    let max ← floats.Max (← matRow i predictions.asMatrix)
    let hits := if p = max then hits + 1 else hits
    validateRows predictions TestLabels rest (hits, classes)

/-- Source `Validate`; the globals `config.TestFeatures` and `config.TestLabels` are
parameters. -/
def NeuralNetwork.Validate (exp : α → α) (network : NeuralNetwork α)
    (TestFeatures TestLabels : Dense α) : Go (α × Option GoError) := do
  let (predictions, err) ← network.test exp TestFeatures
  match err, predictions with
  | some e, _ => pure (-1, some (GoError.trace e))
  | none, none => throw Panic.nilDereference
  | none, some predictions =>
    let rows := predictions.rows
    let (hits, _) ← validateRows predictions TestLabels (List.range rows) (0, 0)
    let accuracy := (hits : α) / (rows : α)
    pure (accuracy, none)

/-- The local matrices of `Train` that live across iterations of the epoch loop. -/
structure TrainState (α : Type) where
  weightsHidden : Dense α
  biasesHidden : Dense α
  weightsOut : Dense α
  biasesOut : Dense α
  output : Dense α

/-- The body of the epoch loop of `Train`; `Except.error` is the early `return` of an
error value. -/
def NeuralNetwork.epoch (exp : α → α) (network : NeuralNetwork α) (features labels : Dense α)
    (st : TrainState α) : Go (Except GoError (TrainState α)) := do
  let hiddenLayerInput ← Dense.empty.Mul features.asMatrix st.weightsHidden.asMatrix
  let addBiasesHidden := fun (_ col : Nat) (v : α) => do pure (v + (← st.biasesHidden.At 0 col))
  let hiddenLayerInput ← hiddenLayerInput.Apply addBiasesHidden hiddenLayerInput.asMatrix
  let applySigmoid := fun (_ _ : Nat) (v : α) => (pure (Sigmoid exp v) : Go α)
  let hiddenLayerActivations ← Dense.empty.Apply applySigmoid hiddenLayerInput.asMatrix
  let outputLayerInput ← Dense.empty.Mul hiddenLayerActivations.asMatrix st.weightsOut.asMatrix
  let addBiasesOut := fun (_ col : Nat) (v : α) => do pure (v + (← st.biasesOut.At 0 col))
  let outputLayerInput ← outputLayerInput.Apply addBiasesOut outputLayerInput.asMatrix
  let output ← st.output.Apply applySigmoid outputLayerInput.asMatrix
  let networkError ← Dense.empty.Sub labels.asMatrix output.asMatrix
  let applySigmoidPrime := fun (_ _ : Nat) (v : α) => (pure (SigmoidPrime v) : Go α)
  let spOutputLayer ← Dense.empty.Apply applySigmoidPrime output.asMatrix
  let spHiddenLayer ← Dense.empty.Apply applySigmoidPrime hiddenLayerActivations.asMatrix
  let deltasOutput ← Dense.empty.MulElem networkError.asMatrix spOutputLayer.asMatrix
  let errorsHiddenLayer ← Dense.empty.Mul deltasOutput.asMatrix st.weightsOut.T
  let deltasHiddenLayer ← Dense.empty.MulElem errorsHiddenLayer.asMatrix spHiddenLayer.asMatrix
  let nablasWeightsOut ← Dense.empty.Mul hiddenLayerActivations.T deltasOutput.asMatrix
  let nablasWeightsOut ←
    nablasWeightsOut.Scale network.Settings.LearningRate nablasWeightsOut.asMatrix
  let weightsOut ← st.weightsOut.Add st.weightsOut.asMatrix nablasWeightsOut.asMatrix
  let (nablasBiasesOut, err) ← sumCols deltasOutput
  match err with
  | some e => pure (Except.error (GoError.trace e))
  | none =>
    let nablasBiasesOut ←
      nablasBiasesOut.Scale network.Settings.LearningRate nablasBiasesOut.asMatrix
    let biasesOut ← st.biasesOut.Add st.biasesOut.asMatrix nablasBiasesOut.asMatrix
    let nablasWeightsHidden ← Dense.empty.Mul features.T deltasHiddenLayer.asMatrix
    let nablasWeightsHidden ←
      nablasWeightsHidden.Scale network.Settings.LearningRate nablasWeightsHidden.asMatrix
    let weightsHidden ← st.weightsHidden.Add st.weightsHidden.asMatrix nablasWeightsHidden.asMatrix
    let (nablasBiasesHidden, err) ← sumCols deltasHiddenLayer
    match err with
    | some e => pure (Except.error (GoError.trace e))
    | none =>
      let nablasBiasesHidden ←
        nablasBiasesHidden.Scale network.Settings.LearningRate nablasBiasesHidden.asMatrix
      let biasesHidden ← st.biasesHidden.Add st.biasesHidden.asMatrix nablasBiasesHidden.asMatrix
      pure (Except.ok ⟨weightsHidden, biasesHidden, weightsOut, biasesOut, output⟩)

/-- The epoch loop of `Train` with `n` iterations left. -/
def NeuralNetwork.epochs (exp : α → α) (network : NeuralNetwork α) (features labels : Dense α) :
    Nat → TrainState α → Go (Except GoError (TrainState α))
  | 0, st => pure (Except.ok st)
  | n + 1, st => do
    match ← network.epoch exp features labels st with
    | Except.error e => pure (Except.error e)
    | Except.ok st => NeuralNetwork.epochs exp network features labels n st

/-- The random fill `values[i] = rand.Float64()` of a slice, starting at draw `start`. -/
def fillRandom (rnd : Nat → α) (start : Nat) (values : List α) : List α :=
  (List.range values.length).map (fun i => rnd (start + i))

/-- Source `Train`: it returns the updated network and the returned error value. -/
def NeuralNetwork.Train (exp : α → α) (network : NeuralNetwork α) (rnd : Nat → α)
    (features labels : Dense α) : Go (NeuralNetwork α × Option GoError) := do
  let dataWeightsHidden ← makeSlice
    (wrapInt64 (network.Settings.HiddenNeurons * network.Settings.InputNeurons))
  let dataBiasesHidden ← makeSlice network.Settings.HiddenNeurons
  let dataWeightsOut ← makeSlice
    (wrapInt64 (network.Settings.OutputNeurons * network.Settings.HiddenNeurons))
  let dataBiasesOut ← makeSlice network.Settings.OutputNeurons
  let dataWeightsHidden := fillRandom rnd 0 dataWeightsHidden
  let dataBiasesHidden := fillRandom rnd dataWeightsHidden.length dataBiasesHidden
  let dataWeightsOut :=
    fillRandom rnd (dataWeightsHidden.length + dataBiasesHidden.length) dataWeightsOut
  let dataBiasesOut := fillRandom rnd
    (dataWeightsHidden.length + dataBiasesHidden.length + dataWeightsOut.length) dataBiasesOut
  let weightsHidden ←
    NewDense network.Settings.InputNeurons network.Settings.HiddenNeurons dataWeightsHidden
  let biasesHidden ← NewDense 1 network.Settings.HiddenNeurons dataBiasesHidden
  let weightsOut ←
    NewDense network.Settings.HiddenNeurons network.Settings.OutputNeurons dataWeightsOut
  let biasesOut ← NewDense 1 network.Settings.OutputNeurons dataBiasesOut
  let output : Dense α := Dense.empty
  match ← network.epochs exp features labels network.Settings.Epochs.toNat
      ⟨weightsHidden, biasesHidden, weightsOut, biasesOut, output⟩ with
  | Except.error e => pure (network, some e)
  | Except.ok st =>
    pure ({ network with
            WeightsHidden := some st.weightsHidden
            BiasesHidden := some st.biasesHidden
            WeightsOut := some st.weightsOut
            BiasesOut := some st.biasesOut }, none)

/-- The feed-forward part of the body of the epoch loop of `Train` (its first six matrix
statements): the hidden activations and the new value of the reused `output` matrix. -/
def NeuralNetwork.epochForward (exp : α → α) (_network : NeuralNetwork α) (features : Dense α)
    (st : TrainState α) : Go (Dense α × Dense α) := do
  let hiddenLayerInput ← Dense.empty.Mul features.asMatrix st.weightsHidden.asMatrix
  let addBiasesHidden := fun (_ col : Nat) (v : α) => do pure (v + (← st.biasesHidden.At 0 col))
  let hiddenLayerInput ← hiddenLayerInput.Apply addBiasesHidden hiddenLayerInput.asMatrix
  let applySigmoid := fun (_ _ : Nat) (v : α) => (pure (Sigmoid exp v) : Go α)
  let hiddenLayerActivations ← Dense.empty.Apply applySigmoid hiddenLayerInput.asMatrix
  let outputLayerInput ← Dense.empty.Mul hiddenLayerActivations.asMatrix st.weightsOut.asMatrix
  let addBiasesOut := fun (_ col : Nat) (v : α) => do pure (v + (← st.biasesOut.At 0 col))
  let outputLayerInput ← outputLayerInput.Apply addBiasesOut outputLayerInput.asMatrix
  let output ← st.output.Apply applySigmoid outputLayerInput.asMatrix
  pure (hiddenLayerActivations, output)

end Net

/-! ## `Sigmoid` in `float64` arithmetic

The rest of the development computes over an exact field.  For `Sigmoid` the rounding of
`float64` matters, so it is embedded a second time over a model of binary64: round to
nearest, ties to even, with subnormals, overflow to the infinities, and NaN. -/

/-- Model of a `float64` value: a finite value, kept as the rational number it denotes (so
zero has no sign), the two infinities, and NaN.  The arithmetic below rounds every finite
result to a representable value; an argument may be any rational, so what is proved for all
`F64` values holds in particular for the binary64 ones. -/
inductive F64 where
  | finite (q : ℚ)
  | posInf
  | negInf
  | nan
  deriving DecidableEq

/-- Rounding of a rational to the nearest integer, ties to the even one. -/
def F64.roundHalfEven (t : ℚ) : Int :=
  if t - ⌊t⌋ < 1 / 2 then ⌊t⌋
  else if 1 / 2 < t - ⌊t⌋ then ⌊t⌋ + 1
  else if ⌊t⌋ % 2 = 0 then ⌊t⌋ else ⌊t⌋ + 1

/-- Rounding of a rational to 53 significant bits (fewer below `2^-1022`, the subnormal
range), the exponent being unbounded above. -/
def F64.roundToPrecision (q : ℚ) : ℚ :=
  let e : Int := max (Int.log 2 |q|) (-1022)
  let ulp : ℚ := 2 ^ (e - 52)
  (F64.roundHalfEven (q / ulp) : ℚ) * ulp

/-- Rounding of a rational to binary64: to nearest, ties to even, overflow to the
infinities. -/
def F64.round (q : ℚ) : F64 :=
  if q = 0 then F64.finite 0
  else if 2 ^ 1024 ≤ F64.roundToPrecision q then F64.posInf
  else if F64.roundToPrecision q ≤ -2 ^ 1024 then F64.negInf
  else F64.finite (F64.roundToPrecision q)

/-- Go unary `-x` on `float64`. -/
def F64.neg : F64 → F64
  | F64.finite q => F64.finite (-q)
  | F64.posInf => F64.negInf
  | F64.negInf => F64.posInf
  | F64.nan => F64.nan

/-- Go `a + b` on `float64`. -/
def F64.add : F64 → F64 → F64
  | F64.finite a, F64.finite b => F64.round (a + b)
  | F64.nan, _ => F64.nan
  | _, F64.nan => F64.nan
  | F64.posInf, F64.negInf => F64.nan
  | F64.negInf, F64.posInf => F64.nan
  | F64.posInf, _ => F64.posInf
  | _, F64.posInf => F64.posInf
  | F64.negInf, _ => F64.negInf
  | _, F64.negInf => F64.negInf

/-- Go `a / b` on `float64` (a zero divisor counts as `+0`). -/
def F64.div : F64 → F64 → F64
  | F64.nan, _ => F64.nan
  | _, F64.nan => F64.nan
  | F64.finite a, F64.finite b =>
    if b = 0 then (if a = 0 then F64.nan else if 0 < a then F64.posInf else F64.negInf)
    else F64.round (a / b)
  | F64.finite _, _ => F64.finite 0
  | F64.posInf, F64.finite b => if 0 ≤ b then F64.posInf else F64.negInf
  | F64.negInf, F64.finite b => if 0 ≤ b then F64.negInf else F64.posInf
  | _, _ => F64.nan

/-- Source `Sigmoid` on `float64` values: `1.0 / (1.0 + math.Exp(-x))`, with `math.Exp` the
parameter `exp`. -/
def F64.Sigmoid (exp : F64 → F64) (x : F64) : F64 :=
  F64.div (F64.finite 1) (F64.add (F64.finite 1) (exp (F64.neg x)))

/-! ## `Validate` and `test` over pointers and a heap

The embedding above passes matrices by value.  Here the same two functions are embedded with
the pointers of the source: a `*mat.Dense` is an address into a heap of matrices, the
network struct holds four such pointers, and the package-level variables of `config` hold
four more.  `new(mat.Dense)` allocates, and a matrix method overwrites the matrix its
receiver points to; every other matrix is reached only through the heap. -/

/-- A `*mat.Dense`: `none` is `nil`, `some a` is the address `a` on the heap. -/
abbrev Ptr := Option Nat

/-- Source type `NeuralNetwork`, its four `*mat.Dense` fields being pointers. -/
structure Mem.NeuralNetwork (α : Type) where
  Settings : NeuralNetworkSettings α
  WeightsHidden : Ptr
  BiasesHidden : Ptr
  WeightsOut : Ptr
  BiasesOut : Ptr

/-- The program state: the heap of matrices (address `a` is position `a`), the struct the
receiver `network` points to, and the variables `Features`, `Labels`, `TestFeatures`,
`TestLabels` of package `config`. -/
structure Mem.State (α : Type) where
  heap : List (Dense α)
  network : Mem.NeuralNetwork α
  Features : Ptr
  Labels : Ptr
  TestFeatures : Ptr
  TestLabels : Ptr

section Heap

variable {α : Type}

/-- Reading through a pointer: a panic for `nil` (and for an address that is not allocated). -/
def Mem.State.deref (s : Mem.State α) : Ptr → Go (Dense α)
  | none => throw Panic.nilDereference
  | some a =>
    match s.heap[a]? with
    | some m => pure m
    | none => throw Panic.nilDereference

/-- Go `new(mat.Dense)`: a fresh address holding the zero value. -/
def Mem.State.alloc (s : Mem.State α) : Ptr × Mem.State α :=
  (some s.heap.length, { s with heap := s.heap ++ [Dense.empty] })

/-- Overwriting the matrix a non-nil pointer points to. -/
def Mem.State.store (s : Mem.State α) (p : Ptr) (m : Dense α) : Mem.State α :=
  match p with
  | none => s
  | some a => { s with heap := s.heap.set a m }

variable [LinearOrderedField α]

/-- The call `recv.Mul(a, b)` on pointers: it reads the three matrices and overwrites the
one `recv` points to. -/
def Mem.Mul (s : Mem.State α) (recv a b : Ptr) : Go (Mem.State α) := do
  let A ← s.deref a
  let B ← s.deref b
  let R ← s.deref recv
  let m ← R.Mul A.asMatrix B.asMatrix
  pure (s.store recv m)

/-- The call `recv.Apply(fn, a)` on pointers: it reads the two matrices, runs the callback
(which may read the state, as it is when the method is entered) and overwrites the matrix
`recv` points to. -/
def Mem.Apply (s : Mem.State α) (recv : Ptr) (fn : Mem.State α → Nat → Nat → α → Go α)
    (a : Ptr) : Go (Mem.State α) := do
  let A ← s.deref a
  let R ← s.deref recv
  let m ← R.Apply (fn s) A.asMatrix
  pure (s.store recv m)

/-- Source `test` over the heap: the returned pointer and error value, and the state after
the call. -/
def Mem.test (exp : α → α) (s : Mem.State α) (features : Ptr) :
    Go ((Ptr × Option GoError) × Mem.State α) :=
  if s.network.WeightsHidden = none ∨ s.network.WeightsOut = none ∨
      s.network.BiasesHidden = none ∨ s.network.BiasesOut = none then
    pure ((none, some (GoError.errorf "los pesos y desplamientos deben estar inicializados")), s)
  else do
    let (hiddenLayerInput, s) := s.alloc
    let s ← Mem.Mul s hiddenLayerInput features s.network.WeightsHidden
    let addBiasesHidden := fun (s : Mem.State α) (_ col : Nat) (v : α) => do
      pure (v + (← (← s.deref s.network.BiasesHidden).At 0 col))
    let s ← Mem.Apply s hiddenLayerInput addBiasesHidden hiddenLayerInput
    let (hiddenLayerActivations, s) := s.alloc
    let applySigmoid := fun (_ : Mem.State α) (_ _ : Nat) (v : α) =>
      (pure (Sigmoid exp v) : Go α)
    let s ← Mem.Apply s hiddenLayerActivations applySigmoid hiddenLayerInput
    let (outputLayerInput, s) := s.alloc
    let s ← Mem.Mul s outputLayerInput hiddenLayerActivations s.network.WeightsOut
    let addBiasesOut := fun (s : Mem.State α) (_ col : Nat) (v : α) => do
      pure (v + (← (← s.deref s.network.BiasesOut).At 0 col))
    let s ← Mem.Apply s outputLayerInput addBiasesOut outputLayerInput
    let (output, s) := s.alloc
    let s ← Mem.Apply s output applySigmoid outputLayerInput
    pure ((output, none), s)

/-- The row loop of `Validate` over the heap: `config.TestLabels` and `predictions` are read
through their pointers in every iteration; the loop calls no method that writes. -/
def Mem.validateRows (s : Mem.State α) (predictions : Ptr) :
    List Nat → Nat × Nat → Go (Nat × Nat)
  | [], st => pure st
  | i :: rest, (hits, classes) => do
    let labelRow ← matRow i (← s.deref s.TestLabels).asMatrix
    let classes := scanLabels labelRow 0 classes
    let p ← (← s.deref predictions).At i classes
    let max ← floats.Max (← matRow i (← s.deref predictions).asMatrix)
    let hits := if p = max then hits + 1 else hits
    Mem.validateRows s predictions rest (hits, classes)

/-- Source `Validate` over the heap: the returned accuracy and error value, and the state
after the call. -/
def Mem.Validate (exp : α → α) (s : Mem.State α) :
    Go ((α × Option GoError) × Mem.State α) := do
  let ((predictions, err), s) ← Mem.test exp s s.TestFeatures
  match err with
  | some e => pure ((-1, some (GoError.trace e)), s)
  | none =>
    let rows := (← s.deref predictions).rows
    let (hits, _) ← Mem.validateRows s predictions (List.range rows) (0, 0)
    let accuracy := (hits : α) / (rows : α)
    pure ((accuracy, none), s)

end Heap


/-! ## `internal/config/settings.go`

The CSV reader and `strconv.ParseFloat` are library code: the records the reader tokenises
from the file (or its read failure) are the argument `file`, and `ParseFloat` is the
parameter `parseFloat`. -/

section Config

variable {α : Type} [Zero α]

/-- Two's-complement wrap of an integer to the range of a Go `int32`. -/
def wrapInt32 (x : Int) : Int := (x + 2 ^ 31) % 2 ^ 32 - 2 ^ 31

/-- Go slice assignment `s[i] = v`: a panic when the index is out of range. -/
def sliceSet (s : List α) (i : Int) (v : α) : Go (List α) :=
  if 0 ≤ i ∧ i.toNat < s.length then pure (s.set i.toNat v) else throw Panic.indexOutOfRange

/-- Model of `(*csv.Reader).ReadAll` with `FieldsPerRecord` set to a positive count: every
record must have exactly that many fields, otherwise no records and an error. -/
def csvReadAll (fieldsPerRecord : Nat) (file : Except GoError (List (List String))) :
    List (List String) × Option GoError :=
  match file with
  | Except.error e => ([], some e)
  | Except.ok records =>
    if records.all (fun record => record.length == fieldsPerRecord) then (records, none)
    else ([], some (GoError.errorf "wrong number of fields"))

/-- The local variables of `loadDataFromCSV` that its loops update. -/
structure LoadState (α : Type) where
  featuresData : List α
  labelsData : List α
  featuresIndex : Int
  labelsIndex : Int

/-- The inner loop of `loadDataFromCSV` over the remaining fields of one record, `j` being
the index of the next field; `Except.error` is the early `return` of an error value. -/
def loadRecord (parseFloat : String → Except GoError α) :
    List String → Nat → LoadState α → Go (Except GoError (LoadState α))
  | [], _, st => pure (Except.ok st)
  | entry :: rest, j, st =>
    match parseFloat entry with
    | Except.error err => pure (Except.error (GoError.trace err))
    | Except.ok parsed =>
      if 4 ≤ j ∧ j ≤ 6 then do
        let labelsData ← sliceSet st.labelsData st.labelsIndex parsed
        loadRecord parseFloat rest (j + 1)
          ⟨st.featuresData, labelsData, st.featuresIndex, wrapInt32 (st.labelsIndex + 1)⟩
      else do
        let featuresData ← sliceSet st.featuresData st.featuresIndex parsed
        loadRecord parseFloat rest (j + 1)
          ⟨featuresData, st.labelsData, wrapInt32 (st.featuresIndex + 1), st.labelsIndex⟩

/-- The outer loop of `loadDataFromCSV` over the remaining records, `i` being the index of
the next record; record 0 is skipped. -/
def loadRecords (parseFloat : String → Except GoError α) :
    List (List String) → Nat → LoadState α → Go (Except GoError (LoadState α))
  | [], _, st => pure (Except.ok st)
  | record :: rest, i, st =>
    if i = 0 then loadRecords parseFloat rest (i + 1) st
    else do
      match ← loadRecord parseFloat record 0 st with
      | Except.error e => pure (Except.error e)
      | Except.ok st => loadRecords parseFloat rest (i + 1) st

/-- Source `loadDataFromCSV`: the features matrix, the labels matrix and the error. -/
def loadDataFromCSV (parseFloat : String → Except GoError α)
    (file : Except GoError (List (List String))) :
    Go (Option (Dense α) × Option (Dense α) × Option GoError) :=
  match csvReadAll 7 file with
  | (_, some err) => pure (none, none, some (GoError.trace err))
  | (rawData, none) => do
    let featuresData ← makeSlice (wrapInt64 (4 * (rawData.length : Int)))
    let labelsData ← makeSlice (wrapInt64 (3 * (rawData.length : Int)))
    match ← loadRecords parseFloat rawData 0 ⟨featuresData, labelsData, 0, 0⟩ with
    | Except.error e => pure (none, none, some e)
    | Except.ok st => do
      let features ← NewDense (rawData.length : Int) 4 st.featuresData
      let labels ← NewDense (rawData.length : Int) 3 st.labelsData
      pure (some features, some labels, none)

end Config

/-! ## Specification-level definitions

Matrices given entry by entry, the forward pass, the deltas of back-propagation, the
update step and the loss, written from the formulas of the specification; the theorems
below relate the embedded code to them. -/

section SpecGeneric

variable {α : Type}

/-- The matrix with `r` rows and `c` columns whose entry `(i, j)` is `g i j`. -/
def Dense.tabulate (r c : Nat) (g : Nat → Nat → α) : Dense α :=
  ⟨r, c, (List.range (r * c)).map (fun n => g (n / c) (n % c))⟩

/-- Entry `(i, j)` of the backing data, `0` outside of it. -/
def Dense.entry [Zero α] (m : Dense α) (i j : Nat) : α := m.data.getD (i * m.cols + j) 0

/-- The backing data has exactly `rows * cols` elements. -/
def Dense.WF (m : Dense α) : Prop := m.data.length = m.rows * m.cols

/-- The view `A` is an `r × c` matrix whose entries are given by `a`. -/
def GoMatrix.Is (A : GoMatrix α) (r c : Nat) (a : Nat → Nat → α) : Prop :=
  A.rows = r ∧ A.cols = c ∧ ∀ i, i < r → ∀ j, j < c → A.elem i j = Except.ok (a i j)

/-- The matrix `m` is well formed with `r` rows and `c` columns. -/
def Dense.HasShape (m : Dense α) (r c : Nat) : Prop := m.WF ∧ m.rows = r ∧ m.cols = c

/-- The data records `recs` parse, field by field, to the numeric rows `vals`, every row
having 7 values. -/
def ParsedRecords (parseFloat : String → Except GoError α) (recs : List (List String))
    (vals : List (List α)) : Prop :=
  List.Forall₂ (fun record xs => xs.length = 7 ∧
    List.Forall₂ (fun s x => parseFloat s = Except.ok x) record xs) recs vals

end SpecGeneric

section SpecField

variable {α : Type} [LinearOrderedField α]

/-- Hidden activation `sigmoid (sum_p x[i][p] * wh[p][j] + bh[0][j])` of row `i`, unit `j`. -/
def hiddenAt (exp : α → α) (I : Nat) (x wh bh : Nat → Nat → α) (i j : Nat) : α :=
  Sigmoid exp (∑ p in Finset.range I, x i p * wh p j + bh 0 j)

/-- Network output `sigmoid (sum_j hidden[i][j] * wo[j][k] + bo[0][k])` of row `i`, class `k`. -/
def outputAt (exp : α → α) (I H : Nat) (x wh bh wo bo : Nat → Nat → α) (i k : Nat) : α :=
  Sigmoid exp (∑ j in Finset.range H, hiddenAt exp I x wh bh i j * wo j k + bo 0 k)

/-- The network has at least one nil parameter tensor. -/
def NeuralNetwork.hasNil (network : NeuralNetwork α) : Prop :=
  network.WeightsHidden = none ∨ network.BiasesHidden = none ∨
    network.WeightsOut = none ∨ network.BiasesOut = none

/-- Row `i` is a hit for true class `c i`: the output at the true class is at least
every output of the row, that is, it equals the row maximum. -/
def isHit (O : Nat) (out : Nat → Nat → α) (c : Nat → Nat) (i : Nat) : Prop :=
  ∀ k, k < O → out i k ≤ out i (c i)

instance isHit.decidable (O : Nat) (out : Nat → Nat → α) (c : Nat → Nat) (i : Nat) :
    Decidable (isHit O out c i) := by
  unfold isHit
  infer_instance

/-- The four parameter tensors as entry functions (row index, column index). -/
structure Params (α : Type) where
  wh : Nat → Nat → α
  bh : Nat → Nat → α
  wo : Nat → Nat → α
  bo : Nat → Nat → α

/-- Output delta `dO = (Y - O) .* (O .* (1 - O))` at row `i`, class `k`. -/
def deltaOutAt (exp : α → α) (I H : Nat) (x y : Nat → Nat → α) (P : Params α) (i k : Nat) : α :=
  (y i k - outputAt exp I H x P.wh P.bh P.wo P.bo i k) *
    SigmoidPrime (outputAt exp I H x P.wh P.bh P.wo P.bo i k)

/-- Hidden delta `dH = (dO * Wo^T) .* (A .* (1 - A))` at row `i`, unit `j`, with `Wo` the
output weights of `P`. -/
def deltaHiddenAt (exp : α → α) (I H O : Nat) (x y : Nat → Nat → α) (P : Params α)
    (i j : Nat) : α :=
  (∑ k in Finset.range O, deltaOutAt exp I H x y P i k * P.wo j k) *
    SigmoidPrime (hiddenAt exp I x P.wh P.bh i j)

/-- The parameters after one additive update step with learning rate `lr` on the batch
`x`, `y` of `N` examples:
`Wh + lr * X^T * dH`, `bh + lr * colsum dH`, `Wo + lr * A^T * dO`, `bo + lr * colsum dO`. -/
def stepParams (exp : α → α) (lr : α) (N I H O : Nat) (x y : Nat → Nat → α) (P : Params α) :
    Params α where
  wh := fun p q => P.wh p q + lr * ∑ i in Finset.range N, x i p * deltaHiddenAt exp I H O x y P i q
  bh := fun z q => P.bh z q + lr * ∑ i in Finset.range N, deltaHiddenAt exp I H O x y P i q
  wo := fun j k => P.wo j k +
    lr * ∑ i in Finset.range N, hiddenAt exp I x P.wh P.bh i j * deltaOutAt exp I H x y P i k
  bo := fun z k => P.bo z k + lr * ∑ i in Finset.range N, deltaOutAt exp I H x y P i k

/-- The loop state of `Train` holding the parameters `P` and the reused `output` matrix. -/
def TrainState.ofParams (I H O : Nat) (P : Params α) (output : Dense α) : TrainState α :=
  ⟨Dense.tabulate I H P.wh, Dense.tabulate 1 H P.bh, Dense.tabulate H O P.wo,
    Dense.tabulate 1 O P.bo, output⟩

/-- The parameters `Train` draws before the first epoch: the draws fill `WeightsHidden`
(row-major), then `BiasesHidden`, then `WeightsOut` (row-major), then `BiasesOut`. -/
def initParams (rnd : Nat → α) (I H O : Nat) : Params α where
  wh := fun p q => rnd (p * H + q)
  bh := fun _ q => rnd (H * I + q)
  wo := fun j k => rnd (H * I + H + (j * O + k))
  bo := fun _ k => rnd (H * I + H + O * H + k)

/-- The loss `E = 1/2 * sum_i sum_k (Y[i][k] - output[i][k])^2` as a function of the
parameters `P`, the output being that of the forward pass. -/
def lossAt (exp : α → α) (N I H O : Nat) (x y : Nat → Nat → α) (P : Params α) : α :=
  1 / 2 * ∑ i in Finset.range N, ∑ k in Finset.range O,
    (y i k - outputAt exp I H x P.wh P.bh P.wo P.bo i k) ^ 2

/-- The class index `c i` that the row loop of `Validate` uses for row `i` of labels `tl`
with `O` columns: the first column holding `1.0` if there is one, otherwise the index
carried over from row `i - 1` (`0` before the first row). -/
def CarriedClass (N O : Nat) (tl : Nat → Nat → α) (c : Nat → Nat) : Prop :=
  ∀ i, i < N →
    (c i < O ∧ tl i (c i) = 1 ∧ ∀ j, j < c i → tl i j ≠ 1) ∨
    ((∀ j, j < O → tl i j ≠ 1) ∧ c i = if i = 0 then 0 else c (i - 1))

/-- The values, at the return of `test`, of the four matrices it allocates:
`hiddenLayerInput`, `hiddenLayerActivations`, `outputLayerInput` and `output`. -/
def forwardTrace (exp : α → α) (features weightsHidden biasesHidden weightsOut biasesOut : Dense α) :
    Go (Dense α × Dense α × Dense α × Dense α) := do
  let hiddenLayerInput ← Dense.empty.Mul features.asMatrix weightsHidden.asMatrix
  let addBiasesHidden := fun (_ col : Nat) (v : α) => do pure (v + (← biasesHidden.At 0 col))
  let hiddenLayerInput ← hiddenLayerInput.Apply addBiasesHidden hiddenLayerInput.asMatrix
  let applySigmoid := fun (_ _ : Nat) (v : α) => (pure (Sigmoid exp v) : Go α)
  let hiddenLayerActivations ← Dense.empty.Apply applySigmoid hiddenLayerInput.asMatrix
  let outputLayerInput ← Dense.empty.Mul hiddenLayerActivations.asMatrix weightsOut.asMatrix
  let addBiasesOut := fun (_ col : Nat) (v : α) => do pure (v + (← biasesOut.At 0 col))
  let outputLayerInput ← outputLayerInput.Apply addBiasesOut outputLayerInput.asMatrix
  let output ← Dense.empty.Apply applySigmoid outputLayerInput.asMatrix
  pure (hiddenLayerInput, hiddenLayerActivations, outputLayerInput, output)

/-- The pointer is nil or an address below `n`. -/
def Ptr.allocated (n : Nat) : Ptr → Bool
  | none => true
  | some a => decide (a < n)

/-- Every pointer held by the network struct and by the variables of `config` is nil or the
address of a matrix on the heap (Go has no dangling pointers). -/
def Mem.State.Valid (s : Mem.State α) : Prop :=
  Ptr.allocated s.heap.length s.network.WeightsHidden = true ∧
  Ptr.allocated s.heap.length s.network.BiasesHidden = true ∧
  Ptr.allocated s.heap.length s.network.WeightsOut = true ∧
  Ptr.allocated s.heap.length s.network.BiasesOut = true ∧
  Ptr.allocated s.heap.length s.Features = true ∧
  Ptr.allocated s.heap.length s.Labels = true ∧
  Ptr.allocated s.heap.length s.TestFeatures = true ∧
  Ptr.allocated s.heap.length s.TestLabels = true

/-- The by-value network a state holds: each pointer field replaced by the matrix it
points to. -/
def Mem.State.view (s : Mem.State α) : NeuralNet.NeuralNetwork α :=
  let read : Nat → Option (Dense α) := fun a => s.heap[a]?
  ⟨s.network.Settings, s.network.WeightsHidden.bind read, s.network.BiasesHidden.bind read,
    s.network.WeightsOut.bind read, s.network.BiasesOut.bind read⟩

end SpecField

section SpecReal

/-- The entry function `w` with entry `(p, q)` replaced by `t`. -/
def updateEntry (w : Nat → Nat → ℝ) (p q : Nat) (t : ℝ) : Nat → Nat → ℝ :=
  fun a b => if a = p ∧ b = q then t else w a b

/-- Go `a <= b` on `float64` values; NaN is comparable with nothing. -/
def F64.le : F64 → F64 → Prop
  | F64.nan, _ => False
  | _, F64.nan => False
  | F64.negInf, _ => True
  | _, F64.posInf => True
  | F64.finite a, F64.finite b => a ≤ b
  | _, _ => False

/-- What is assumed of the library function `math.Exp`, after its documentation: it is exact
at `0`, at NaN and at the infinities; on a finite `x` it returns `+Inf` only on overflow
(`x ≥ 709`), and otherwise a finite non-negative value within one unit in the last place of
`e^x` (at most `2^-51` relative, or `2^-1074` absolute in the subnormal range). -/
structure F64.ExpContract (exp : F64 → F64) : Prop where
  exp_zero : exp (F64.finite 0) = F64.finite 1
  exp_nan : exp F64.nan = F64.nan
  exp_posInf : exp F64.posInf = F64.posInf
  exp_negInf : exp F64.negInf = F64.finite 0
  exp_finite : ∀ x : ℚ, (exp (F64.finite x) = F64.posInf ∧ 709 ≤ x) ∨
    ∃ y : ℚ, exp (F64.finite x) = F64.finite y ∧ 0 ≤ y ∧
      |(y : ℝ) - Real.exp x| ≤ Real.exp x * 2 ^ (-51 : ℤ) + 2 ^ (-1074 : ℤ)

/-- The function `exp` is non-decreasing on the finite values. -/
def F64.ExpMonotone (exp : F64 → F64) : Prop :=
  ∀ a b : ℚ, a ≤ b → F64.le (exp (F64.finite a)) (exp (F64.finite b))

end SpecReal

/-! ## Pure descriptions of the matrix operations -/

section LibLemmas

variable {α : Type}

theorem bind_eq_ok {β γ : Type} {x : Go β} {f : β → Go γ} {r : γ}
    (h : (x >>= f) = Except.ok r) : ∃ a, x = Except.ok a ∧ f a = Except.ok r := by
  cases x with
  | error e => simp [bind, Except.bind] at h
  | ok a => exact ⟨a, rfl, h⟩

theorem mapGo_ok {β γ : Type} (f : β → Go γ) (g : β → γ) :
    ∀ l : List β, (∀ b ∈ l, f b = Except.ok (g b)) → mapGo f l = Except.ok (l.map g)
  | [], _ => rfl
  | b :: bs, h => by
    have hb := h b (List.mem_cons_self _ _)
    have ih := mapGo_ok f g bs (fun x hx => h x (List.mem_cons_of_mem _ hx))
    simp [mapGo, hb, ih, bind, Except.bind, pure, Except.pure]

theorem mapGo_length {β γ : Type} (f : β → Go γ) :
    ∀ (l : List β) (l2 : List γ), mapGo f l = Except.ok l2 → l2.length = l.length
  | [], l2, h => by
    simp [mapGo, pure, Except.pure] at h
    subst h
    rfl
  | b :: bs, l2, h => by
    unfold mapGo at h
    obtain ⟨c, _, h⟩ := bind_eq_ok h
    obtain ⟨cs, hcs, h⟩ := bind_eq_ok h
    simp [pure, Except.pure] at h
    subst h
    simp [mapGo_length f bs cs hcs]

theorem mul_add_lt {r c i j : Nat} (hi : i < r) (hj : j < c) : i * c + j < r * c := by
  calc i * c + j < i * c + c := by omega
    _ = (i + 1) * c := by ring
    _ ≤ r * c := Nat.mul_le_mul_right c hi

theorem mul_add_div {c i j : Nat} (hj : j < c) : (i * c + j) / c = i := by
  have hc : 0 < c := by omega
  rw [Nat.mul_comm, Nat.mul_add_div hc, Nat.div_eq_of_lt hj, Nat.add_zero]

theorem mul_add_mod {c i j : Nat} (hj : j < c) : (i * c + j) % c = j := by
  rw [Nat.mul_comm, Nat.mul_add_mod, Nat.mod_eq_of_lt hj]

theorem Dense.tabulate_elem (r c : Nat) (g : Nat → Nat → α) {i j : Nat}
    (hi : i < r) (hj : j < c) : (Dense.tabulate r c g).elem i j = Except.ok (g i j) := by
  have hlt := mul_add_lt hi hj
  simp [Dense.elem, Dense.tabulate, List.getElem?_map, List.getElem?_range hlt,
    mul_add_div hj, mul_add_mod hj, pure, Except.pure]

theorem Dense.tabulate_asMatrix (r c : Nat) (g : Nat → Nat → α) :
    (Dense.tabulate r c g).asMatrix.Is r c g :=
  ⟨rfl, rfl, fun _ hi _ hj => Dense.tabulate_elem r c g hi hj⟩

theorem Dense.tabulate_T (r c : Nat) (g : Nat → Nat → α) :
    (Dense.tabulate r c g).T.Is c r (fun i j => g j i) :=
  ⟨rfl, rfl, fun _ hi _ hj => Dense.tabulate_elem r c g hj hi⟩

theorem Dense.tabulate_congr (r c : Nat) (g g2 : Nat → Nat → α)
    (h : ∀ i, i < r → ∀ j, j < c → g i j = g2 i j) :
    Dense.tabulate r c g = Dense.tabulate r c g2 := by
  unfold Dense.tabulate
  congr 1
  apply List.map_congr_left
  intro n hn
  have hn2 : n < r * c := List.mem_range.mp hn
  have hc : 0 < c := by
    rcases Nat.eq_zero_or_pos c with h0 | h0
    · subst h0
      simp at hn2
    · exact h0
  apply h
  · exact Nat.div_lt_of_lt_mul (by rwa [Nat.mul_comm] at hn2)
  · exact Nat.mod_lt _ hc

theorem Dense.tabulate_entry [Zero α] (r c : Nat) (g : Nat → Nat → α) {i j : Nat}
    (hi : i < r) (hj : j < c) : (Dense.tabulate r c g).entry i j = g i j := by
  have hlt := mul_add_lt hi hj
  simp [Dense.entry, Dense.tabulate, List.getD_eq_getElem?_getD, List.getElem?_map,
    List.getElem?_range hlt, mul_add_div hj, mul_add_mod hj]

theorem Dense.WF.eq_tabulate [Zero α] {m : Dense α} (h : m.WF) :
    m = Dense.tabulate m.rows m.cols m.entry := by
  obtain ⟨r, c, data⟩ := m
  simp only [Dense.WF] at h
  simp only [Dense.tabulate, Dense.mk.injEq, true_and]
  apply List.ext_getElem
  · simp [h]
  · intro n h1 h2
    have hn : n < r * c := by simpa using h2
    have hc : 0 < c := by
      rcases Nat.eq_zero_or_pos c with h0 | h0
      · subst h0
        simp at hn
      · exact h0
    simp [Dense.entry, List.getD_eq_getElem?_getD, Nat.div_add_mod', List.getElem?_eq_getElem h1]

theorem Dense.eq_tabulate_of [Zero α] {m : Dense α} {r c : Nat} (h : m.WF)
    (hr : m.rows = r) (hc : m.cols = c) : m = Dense.tabulate r c m.entry := by
  subst hr hc
  exact h.eq_tabulate

theorem Dense.tabulate_WF (r c : Nat) (g : Nat → Nat → α) : (Dense.tabulate r c g).WF := by
  simp [Dense.WF, Dense.tabulate]

theorem Dense.fill_ok (r c : Nat) (f : Nat → Nat → Go α) (g : Nat → Nat → α)
    (h : ∀ i, i < r → ∀ j, j < c → f i j = Except.ok (g i j)) :
    Dense.fill r c f = Except.ok (Dense.tabulate r c g) := by
  unfold Dense.fill
  have hm := mapGo_ok (fun n => f (n / c) (n % c)) (fun n => g (n / c) (n % c))
    (List.range (r * c)) (by
      intro n hn
      have hn2 : n < r * c := List.mem_range.mp hn
      have hc : 0 < c := by
        rcases Nat.eq_zero_or_pos c with h0 | h0
        · subst h0
          simp at hn2
        · exact h0
      apply h
      · exact Nat.div_lt_of_lt_mul (by rwa [Nat.mul_comm] at hn2)
      · exact Nat.mod_lt _ hc)
  simp [hm, bind, Except.bind, pure, Except.pure, Dense.tabulate]

theorem Dense.fill_dims {r c : Nat} {f : Nat → Nat → Go α} {m : Dense α}
    (h : Dense.fill r c f = Except.ok m) : m.rows = r ∧ m.cols = c ∧ m.WF := by
  unfold Dense.fill at h
  obtain ⟨data, hd, h⟩ := bind_eq_ok h
  simp [pure, Except.pure] at h
  subst h
  have := mapGo_length _ _ _ hd
  simp [Dense.WF, this]

theorem Dense.reuseAs_ok (recv : Dense α) {r c : Nat} (hr : 0 < r) (hc : 0 < c)
    (h : recv.cols = 0 ∨ (recv.rows = r ∧ recv.cols = c)) :
    recv.reuseAs r c = Except.ok () := by
  unfold Dense.reuseAs
  have h1 : ¬ (r = 0 ∨ c = 0) := by omega
  rw [if_neg h1]
  rcases h with h | ⟨h2, h3⟩
  · simp [Dense.IsEmpty, h, pure, Except.pure]
  · have : ¬ (r ≠ recv.rows ∨ c ≠ recv.cols) := by omega
    simp [this, pure, Except.pure]

theorem Dense.reuseAs_pos {recv : Dense α} {r c : Nat} {u : Unit}
    (h : recv.reuseAs r c = Except.ok u) : 0 < r ∧ 0 < c := by
  unfold Dense.reuseAs at h
  by_cases h1 : r = 0 ∨ c = 0
  · simp [h1, throw, throwThe, MonadExceptOf.throw] at h
  · omega

section FieldOps

variable [Field α]

theorem floats.Sum_eq_sum (s : List α) : floats.Sum s = s.sum := by
  unfold floats.Sum
  rw [List.sum_eq_foldl]

theorem floats.Sum_map_range (n : Nat) (t : Nat → α) :
    floats.Sum ((List.range n).map t) = ∑ k in Finset.range n, t k := by
  rw [floats.Sum_eq_sum]
  induction n with
  | zero => simp
  | succ n ih => simp [List.range_succ, Finset.sum_range_succ, ih]

theorem Dense.Mul_ok (recv : Dense α) {A B : GoMatrix α} {r n c : Nat} {a b : Nat → Nat → α}
    (hA : A.Is r n a) (hB : B.Is n c b) (hr : 0 < r) (hc : 0 < c)
    (hrecv : recv.cols = 0 ∨ (recv.rows = r ∧ recv.cols = c)) :
    recv.Mul A B =
      Except.ok (Dense.tabulate r c (fun i j => ∑ k in Finset.range n, a i k * b k j)) := by
  obtain ⟨hAr, hAc, ha⟩ := hA
  obtain ⟨hBr, hBc, hb⟩ := hB
  unfold Dense.Mul
  rw [hAr, hAc, hBr, hBc]
  simp only [ne_eq, not_true_eq_false, ↓reduceIte, Dense.reuseAs_ok recv hr hc hrecv]
  simp only [bind, Except.bind, pure, Except.pure]
  apply Dense.fill_ok
  intro i hi j hj
  rw [mapGo_ok _ (fun k => a i k * b k j)]
  · simp only [floats.Sum_map_range]
  · intro k hk
    have hk2 : k < n := List.mem_range.mp hk
    simp [ha i hi k hk2, hb k hk2 j hj, bind, Except.bind, pure, Except.pure]

theorem Dense.Mul_dims {recv : Dense α} {A B : GoMatrix α} {m : Dense α}
    (h : recv.Mul A B = Except.ok m) :
    A.cols = B.rows ∧ m.rows = A.rows ∧ m.cols = B.cols ∧ m.WF ∧ 0 < m.rows ∧ 0 < m.cols := by
  unfold Dense.Mul at h
  by_cases hs : A.cols = B.rows
  · simp only [hs, ne_eq, not_true_eq_false, ↓reduceIte] at h
    obtain ⟨_, _, h⟩ := bind_eq_ok h
    obtain ⟨u, hu, h⟩ := bind_eq_ok h
    have hp := Dense.reuseAs_pos hu
    have hd := Dense.fill_dims h
    refine ⟨hs, hd.1, hd.2.1, hd.2.2, ?_, ?_⟩ <;> omega
  · simp [hs, throw, throwThe, MonadExceptOf.throw, bind, Except.bind] at h

omit [Field α] in
theorem Dense.Apply_ok (recv : Dense α) (fn : Nat → Nat → α → Go α) {A : GoMatrix α}
    {r c : Nat} {a : Nat → Nat → α} (g : Nat → Nat → α) (hA : A.Is r c a)
    (hfn : ∀ i, i < r → ∀ j, j < c → fn i j (a i j) = Except.ok (g i j))
    (hr : 0 < r) (hc : 0 < c) (hrecv : recv.cols = 0 ∨ (recv.rows = r ∧ recv.cols = c)) :
    recv.Apply fn A = Except.ok (Dense.tabulate r c g) := by
  obtain ⟨hAr, hAc, ha⟩ := hA
  unfold Dense.Apply
  rw [hAr, hAc]
  simp only [Dense.reuseAs_ok recv hr hc hrecv, bind, Except.bind]
  apply Dense.fill_ok
  intro i hi j hj
  simp [ha i hi j hj, hfn i hi j hj]

omit [Field α] in
theorem Dense.Apply_dims {recv : Dense α} {fn : Nat → Nat → α → Go α} {A : GoMatrix α}
    {m : Dense α} (h : recv.Apply fn A = Except.ok m) :
    m.rows = A.rows ∧ m.cols = A.cols ∧ m.WF ∧ 0 < m.rows ∧ 0 < m.cols := by
  unfold Dense.Apply at h
  obtain ⟨u, hu, h⟩ := bind_eq_ok h
  have hp := Dense.reuseAs_pos hu
  have hd := Dense.fill_dims h
  refine ⟨hd.1, hd.2.1, hd.2.2, ?_, ?_⟩ <;> omega

omit [Field α] in
theorem Dense.elementwise_ok (op : α → α → α) (recv : Dense α) {A B : GoMatrix α}
    {r c : Nat} {a b : Nat → Nat → α} (hA : A.Is r c a) (hB : B.Is r c b)
    (hr : 0 < r) (hc : 0 < c) (hrecv : recv.cols = 0 ∨ (recv.rows = r ∧ recv.cols = c)) :
    Dense.elementwise op recv A B =
      Except.ok (Dense.tabulate r c (fun i j => op (a i j) (b i j))) := by
  obtain ⟨hAr, hAc, ha⟩ := hA
  obtain ⟨hBr, hBc, hb⟩ := hB
  unfold Dense.elementwise
  rw [hAr, hAc, hBr, hBc]
  simp only [ne_eq, not_true_eq_false, or_self, ↓reduceIte, Dense.reuseAs_ok recv hr hc hrecv]
  simp only [bind, Except.bind, pure, Except.pure]
  apply Dense.fill_ok
  intro i hi j hj
  simp [ha i hi j hj, hb i hi j hj]

omit [Field α] in
theorem Dense.elementwise_dims {op : α → α → α} {recv : Dense α} {A B : GoMatrix α}
    {m : Dense α} (h : Dense.elementwise op recv A B = Except.ok m) :
    A.rows = B.rows ∧ A.cols = B.cols ∧ m.rows = A.rows ∧ m.cols = A.cols ∧ m.WF := by
  unfold Dense.elementwise at h
  by_cases hs : A.rows ≠ B.rows ∨ A.cols ≠ B.cols
  · simp [hs, throw, throwThe, MonadExceptOf.throw, bind, Except.bind] at h
  · simp only [hs, ↓reduceIte] at h
    obtain ⟨_, _, h⟩ := bind_eq_ok h
    obtain ⟨u, _, h⟩ := bind_eq_ok h
    have hd := Dense.fill_dims h
    refine ⟨?_, ?_, hd.1, hd.2.1, hd.2.2⟩ <;> omega

theorem Dense.Scale_ok (recv : Dense α) (f : α) {A : GoMatrix α}
    {r c : Nat} {a : Nat → Nat → α} (hA : A.Is r c a)
    (hr : 0 < r) (hc : 0 < c) (hrecv : recv.cols = 0 ∨ (recv.rows = r ∧ recv.cols = c)) :
    recv.Scale f A = Except.ok (Dense.tabulate r c (fun i j => f * a i j)) := by
  obtain ⟨hAr, hAc, ha⟩ := hA
  unfold Dense.Scale
  rw [hAr, hAc]
  simp only [Dense.reuseAs_ok recv hr hc hrecv, bind, Except.bind]
  apply Dense.fill_ok
  intro i hi j hj
  simp [ha i hi j hj, pure, Except.pure]

end FieldOps

end LibLemmas

/-! ## The forward pass, entry by entry -/

section Forward

variable {α : Type} [LinearOrderedField α]

omit [LinearOrderedField α] in
theorem Dense.tabulate_At (r c : Nat) (g : Nat → Nat → α) {i j : Nat}
    (hi : i < r) (hj : j < c) : (Dense.tabulate r c g).At i j = Except.ok (g i j) := by
  unfold Dense.At
  have h1 : ¬ (Dense.tabulate r c g).rows ≤ i := by simp [Dense.tabulate, hi]
  have h2 : ¬ (Dense.tabulate r c g).cols ≤ j := by simp [Dense.tabulate, hj]
  rw [if_neg h1, if_neg h2]
  exact Dense.tabulate_elem r c g hi hj

theorem test_tabulate (exp : α → α) (settings : NeuralNetworkSettings α) {N I H O : Nat}
    (x wh bh wo bo : Nat → Nat → α) (hN : 0 < N) (hH : 0 < H) (hO : 0 < O) :
    NeuralNetwork.test exp
      ⟨settings, some (Dense.tabulate I H wh), some (Dense.tabulate 1 H bh),
        some (Dense.tabulate H O wo), some (Dense.tabulate 1 O bo)⟩ (Dense.tabulate N I x) =
      Except.ok (some (Dense.tabulate N O (outputAt exp I H x wh bh wo bo)), none) := by
  unfold NeuralNetwork.test
  simp only
  rw [Dense.Mul_ok Dense.empty (Dense.tabulate_asMatrix N I x) (Dense.tabulate_asMatrix I H wh)
    hN hH (Or.inl rfl)]
  simp only [bind, Except.bind]
  rw [Dense.Apply_ok _ _ (fun i j => ∑ p in Finset.range I, x i p * wh p j + bh 0 j)
    (Dense.tabulate_asMatrix N H _)
    (by
      intro i hi j hj
      simp [Dense.tabulate_At 1 H bh Nat.one_pos hj, pure, Except.pure])
    hN hH (Or.inr ⟨rfl, rfl⟩)]
  simp only
  rw [Dense.Apply_ok Dense.empty _ (hiddenAt exp I x wh bh) (Dense.tabulate_asMatrix N H _)
    (by
      intro i hi j hj
      rfl)
    hN hH (Or.inl rfl)]
  simp only
  rw [Dense.Mul_ok Dense.empty (Dense.tabulate_asMatrix N H _) (Dense.tabulate_asMatrix H O wo)
    hN hO (Or.inl rfl)]
  simp only
  rw [Dense.Apply_ok _ _
    (fun i k => ∑ j in Finset.range H, hiddenAt exp I x wh bh i j * wo j k + bo 0 k)
    (Dense.tabulate_asMatrix N O _)
    (by
      intro i hi j hj
      simp [Dense.tabulate_At 1 O bo Nat.one_pos hj, pure, Except.pure])
    hN hO (Or.inr ⟨rfl, rfl⟩)]
  simp only
  rw [Dense.Apply_ok Dense.empty _ (outputAt exp I H x wh bh wo bo)
    (Dense.tabulate_asMatrix N O _)
    (by
      intro i hi j hj
      rfl)
    hN hO (Or.inl rfl)]
  rfl

theorem test_of_hasNil (exp : α → α) (network : NeuralNetwork α) (features : Dense α)
    (h : network.hasNil) :
    network.test exp features = Except.ok
      (none, some (GoError.errorf "los pesos y desplamientos deben estar inicializados")) := by
  obtain ⟨settings, WH, BH, WO, BO⟩ := network
  unfold NeuralNetwork.hasNil at h
  simp only at h
  unfold NeuralNetwork.test
  cases WH <;> cases BH <;> cases WO <;> cases BO <;> simp_all <;> rfl

theorem test_of_not_hasNil (exp : α → α) (network : NeuralNetwork α) (features : Dense α)
    (h : ¬ network.hasNil) (r : Option (Dense α) × Option GoError)
    (hr : network.test exp features = Except.ok r) :
    ∃ out : Dense α, r = (some out, none) ∧ 0 < out.rows := by
  obtain ⟨settings, WH, BH, WO, BO⟩ := network
  unfold NeuralNetwork.hasNil at h
  simp only at h
  unfold NeuralNetwork.test at hr
  cases WH <;> cases BH <;> cases WO <;> cases BO <;> simp_all
  obtain ⟨_, _, hr⟩ := bind_eq_ok hr
  obtain ⟨_, _, hr⟩ := bind_eq_ok hr
  obtain ⟨_, _, hr⟩ := bind_eq_ok hr
  obtain ⟨_, _, hr⟩ := bind_eq_ok hr
  obtain ⟨_, _, hr⟩ := bind_eq_ok hr
  obtain ⟨out, ho, hr⟩ := bind_eq_ok hr
  simp only [pure, Except.pure, Except.ok.injEq] at hr
  exact ⟨out, hr.symm, (Dense.Apply_dims ho).2.2.2.1⟩

theorem Validate_of_hasNil (exp : α → α) (network : NeuralNetwork α)
    (TestFeatures TestLabels : Dense α) (h : network.hasNil) :
    network.Validate exp TestFeatures TestLabels = Except.ok (-1, some (GoError.trace
      (GoError.errorf "los pesos y desplamientos deben estar inicializados"))) := by
  unfold NeuralNetwork.Validate
  rw [test_of_hasNil exp network TestFeatures h]
  rfl

theorem Validate_of_not_hasNil (exp : α → α) (network : NeuralNetwork α)
    (TestFeatures TestLabels : Dense α) (h : ¬ network.hasNil) (a : α) (e : Option GoError)
    (hv : network.Validate exp TestFeatures TestLabels = Except.ok (a, e)) : e = none := by
  unfold NeuralNetwork.Validate at hv
  obtain ⟨r, hr, hv⟩ := bind_eq_ok hv
  obtain ⟨out, rfl, _⟩ := test_of_not_hasNil exp network TestFeatures h r hr
  simp only at hv
  obtain ⟨_, _, hv⟩ := bind_eq_ok hv
  simp only [pure, Except.pure, Except.ok.injEq, Prod.mk.injEq] at hv
  exact hv.2.symm

/-! ### The evaluation loop -/

theorem floats.Max_spec : ∀ l : List α, l ≠ [] →
    ∃ m, floats.Max l = Except.ok m ∧ m ∈ l ∧ ∀ y ∈ l, y ≤ m
  | [], h => absurd rfl h
  | x :: xs, _ => by
    refine ⟨_, rfl, ?_⟩
    induction xs generalizing x with
    | nil => simp
    | cons z zs ih =>
      simp only [List.foldl_cons]
      obtain ⟨hmem, hle⟩ := ih (if x < z then z else x) (List.cons_ne_nil _ _)
      constructor
      · rcases List.mem_cons.mp hmem with h | h
        · rw [h]
          split
          · simp
          · simp
        · exact List.mem_cons_of_mem _ (List.mem_cons_of_mem _ h)
      · intro y hy
        rcases List.mem_cons.mp hy with h | h
        · have h1 := hle (if x < z then z else x) (List.mem_cons_self _ _)
          refine le_trans ?_ h1
          rw [h]
          split
          · exact le_of_lt (by assumption)
          · exact le_refl _
        · rcases List.mem_cons.mp h with h2 | h2
          · have h1 := hle (if x < z then z else x) (List.mem_cons_self _ _)
            refine le_trans ?_ h1
            rw [h2]
            split
            · exact le_refl _
            · exact not_lt.mp (by assumption)
          · exact hle y (List.mem_cons_of_mem _ h2)

theorem scanLabels_first (l : List α) (j classes k : Nat) (hk : k < l.length)
    (h1 : l.getD k 0 = 1) (hfirst : ∀ q, q < k → l.getD q 0 ≠ 1) :
    scanLabels l j classes = j + k := by
  induction l generalizing j k with
  | nil => simp at hk
  | cons a as ih =>
    unfold scanLabels
    cases k with
    | zero =>
      simp only [List.getD_cons_zero] at h1
      simp [h1]
    | succ k =>
      have ha : a ≠ 1 := by
        have := hfirst 0 (Nat.succ_pos k)
        simpa using this
      rw [if_neg ha]
      have hk2 : k < as.length := by simpa using hk
      rw [ih (j + 1) k hk2 (by simpa using h1)
        (fun q hq => by simpa using hfirst (q + 1) (Nat.succ_lt_succ hq))]
      omega

omit [LinearOrderedField α] in
theorem matRow_tabulate (r c : Nat) (g : Nat → Nat → α) {i : Nat} (hi : i < r) :
    matRow i (Dense.tabulate r c g).asMatrix = Except.ok ((List.range c).map (g i)) := by
  unfold matRow
  have h1 : ¬ (Dense.tabulate r c g).asMatrix.rows ≤ i := by
    simp [Dense.tabulate, Dense.asMatrix, hi]
  rw [if_neg h1]
  apply mapGo_ok
  intro j hj
  exact Dense.tabulate_elem r c g hi (List.mem_range.mp hj)

omit [LinearOrderedField α] in
theorem matRow_length {i : Nat} {A : GoMatrix α} {l : List α}
    (h : matRow i A = Except.ok l) : l.length = A.cols := by
  unfold matRow at h
  by_cases h1 : A.rows ≤ i
  · simp [h1, throw, throwThe, MonadExceptOf.throw] at h
  · rw [if_neg h1] at h
    simpa using mapGo_length _ _ _ h

theorem validateRows_count {N O : Nat} (out tl : Nat → Nat → α) (c : Nat → Nat)
    (hc : ∀ i, i < N → c i < O ∧ tl i (c i) = 1 ∧ ∀ j, j < c i → tl i j ≠ 1) :
    ∀ (rest : List Nat) (hits classes : Nat), (∀ i ∈ rest, i < N) →
      ∃ cls, validateRows (Dense.tabulate N O out) (Dense.tabulate N O tl) rest (hits, classes) =
        Except.ok (hits + rest.countP (fun i => decide (isHit O out c i)), cls)
  | [], hits, classes, _ => ⟨classes, rfl⟩
  | i :: rest, hits, classes, hN => by
    have hi : i < N := hN i (List.mem_cons_self _ _)
    obtain ⟨hcO, hc1, hcf⟩ := hc i hi
    have hO : 0 < O := by omega
    unfold validateRows
    rw [matRow_tabulate N O tl hi]
    simp only [bind, Except.bind]
    have hscan : scanLabels ((List.range O).map (tl i)) 0 classes = c i := by
      rw [scanLabels_first _ 0 classes (c i) (by simpa using hcO)
        (by simpa [List.getD_eq_getElem?_getD, List.getElem?_range hcO] using hc1)
        (fun q hq => by
          have hqO : q < O := by omega
          simpa [List.getD_eq_getElem?_getD, List.getElem?_range hqO] using hcf q hq)]
      omega
    rw [hscan, Dense.tabulate_At N O out hi hcO, matRow_tabulate N O out hi]
    simp only
    have hne : (List.range O).map (out i) ≠ [] := by
      intro h
      have := congrArg List.length h
      simp at this
      omega
    obtain ⟨m, hm, hmem, hle⟩ := floats.Max_spec _ hne
    rw [hm]
    simp only
    have hiff : out i (c i) = m ↔ isHit O out c i := by
      constructor
      · intro h k hk
        rw [h]
        exact hle _ (List.mem_map.mpr ⟨k, List.mem_range.mpr hk, rfl⟩)
      · intro h
        obtain ⟨k, hk, hkm⟩ := List.mem_map.mp hmem
        apply le_antisymm
        · exact hle _ (List.mem_map.mpr ⟨c i, List.mem_range.mpr hcO, rfl⟩)
        · rw [← hkm]
          exact h k (List.mem_range.mp hk)
    obtain ⟨cls, hrec⟩ := validateRows_count out tl c hc rest
      (if out i (c i) = m then hits + 1 else hits) (c i)
      (fun q hq => hN q (List.mem_cons_of_mem _ hq))
    refine ⟨cls, ?_⟩
    rw [hrec]
    by_cases hh : isHit O out c i
    · simp [hh, hiff.mpr hh]
      omega
    · have : ¬ out i (c i) = m := fun h => hh (hiff.mp h)
      simp [hh, this]

theorem validateRows_bound (predictions TestLabels : Dense α) :
    ∀ (rest : List Nat) (hits classes hits2 cls2 : Nat),
      validateRows predictions TestLabels rest (hits, classes) = Except.ok (hits2, cls2) →
      hits ≤ hits2 ∧ hits2 ≤ hits + rest.length
  | [], hits, classes, hits2, cls2, h => by
    simp only [validateRows, pure, Except.pure, Except.ok.injEq, Prod.mk.injEq] at h
    simp [h.1]
  | i :: rest, hits, classes, hits2, cls2, h => by
    unfold validateRows at h
    obtain ⟨labelRow, _, h⟩ := bind_eq_ok h
    obtain ⟨p, _, h⟩ := bind_eq_ok h
    obtain ⟨row, _, h⟩ := bind_eq_ok h
    obtain ⟨m, _, h⟩ := bind_eq_ok h
    have ih := validateRows_bound predictions TestLabels rest _ _ hits2 cls2 h
    simp only [List.length_cons]
    split at ih <;> omega

theorem countP_range_eq_card (N : Nat) (p : Nat → Prop) [DecidablePred p] :
    (List.range N).countP (fun i => decide (p i)) = ((Finset.range N).filter p).card := by
  rw [Finset.card_def, Finset.filter_val, Finset.range_val, ← Multiset.countP_eq_card_filter]
  rfl

theorem Validate_tabulate (exp : α → α) (settings : NeuralNetworkSettings α) {N I H O : Nat}
    (x tl wh bh wo bo : Nat → Nat → α) (c : Nat → Nat) (hN : 0 < N) (hH : 0 < H) (hO : 0 < O)
    (hc : ∀ i, i < N → c i < O ∧ tl i (c i) = 1 ∧ ∀ j, j < c i → tl i j ≠ 1) :
    NeuralNetwork.Validate exp
      ⟨settings, some (Dense.tabulate I H wh), some (Dense.tabulate 1 H bh),
        some (Dense.tabulate H O wo), some (Dense.tabulate 1 O bo)⟩
      (Dense.tabulate N I x) (Dense.tabulate N O tl) =
      Except.ok ((((Finset.range N).filter
        (isHit O (outputAt exp I H x wh bh wo bo) c)).card : α) / (N : α), none) := by
  unfold NeuralNetwork.Validate
  rw [test_tabulate exp settings x wh bh wo bo hN hH hO]
  simp only [bind, Except.bind]
  obtain ⟨cls, hv⟩ := validateRows_count (outputAt exp I H x wh bh wo bo) tl c hc
    (List.range N) 0 0 (fun i hi => List.mem_range.mp hi)
  have hrows : (Dense.tabulate N O (outputAt exp I H x wh bh wo bo)).rows = N := rfl
  rw [hrows, hv]
  simp only [pure, Except.pure, Nat.zero_add, countP_range_eq_card]

theorem Validate_ok_bounds (exp : α → α) (network : NeuralNetwork α)
    (TestFeatures TestLabels : Dense α) (a : α)
    (h : network.Validate exp TestFeatures TestLabels = Except.ok (a, none)) :
    ∃ hits rows : Nat, 0 < rows ∧ hits ≤ rows ∧ a = (hits : α) / (rows : α) := by
  by_cases hn : network.hasNil
  · rw [Validate_of_hasNil exp network TestFeatures TestLabels hn] at h
    simp at h
  · unfold NeuralNetwork.Validate at h
    obtain ⟨r, hr, h⟩ := bind_eq_ok h
    obtain ⟨out, rfl, hpos⟩ := test_of_not_hasNil exp network TestFeatures hn r hr
    simp only at h
    obtain ⟨⟨hits, cls⟩, hv, h⟩ := bind_eq_ok h
    simp only [pure, Except.pure, Except.ok.injEq, Prod.mk.injEq, and_true] at h
    have hb := validateRows_bound out TestLabels _ 0 0 hits cls hv
    refine ⟨hits, out.rows, hpos, ?_, h.symm⟩
    simpa using hb.2

/-! ### The class index carried from row to row -/

omit [LinearOrderedField α] in
theorem range_map_getD (O : Nat) (r : Nat → α) (z : α) {q : Nat} (hq : q < O) :
    ((List.range O).map r).getD q z = r q := by
  simp [List.getD_eq_getElem?_getD, List.getElem?_range hq]

theorem scanLabels_none (l : List α) (j classes : Nat) (h : ∀ v ∈ l, v ≠ 1) :
    scanLabels l j classes = classes := by
  induction l generalizing j with
  | nil => rfl
  | cons a rest ih =>
    unfold scanLabels
    rw [if_neg (h a (List.mem_cons_self _ _))]
    exact ih (j + 1) (fun v hv => h v (List.mem_cons_of_mem _ hv))

omit [LinearOrderedField α] in
theorem CarriedClass.lt [One α] {N O : Nat} {tl : Nat → Nat → α} {c : Nat → Nat}
    (hc : ∀ i, i < N →
      (c i < O ∧ tl i (c i) = 1 ∧ ∀ j, j < c i → tl i j ≠ 1) ∨
      ((∀ j, j < O → tl i j ≠ 1) ∧ c i = if i = 0 then 0 else c (i - 1)))
    (hO : 0 < O) : ∀ i, i < N → c i < O := by
  intro i
  induction i with
  | zero =>
    intro h0
    rcases hc 0 h0 with h | h
    · exact h.1
    · rw [h.2]
      simpa using hO
  | succ i ih =>
    intro hi
    rcases hc (i + 1) hi with h | h
    · exact h.1
    · rw [h.2]
      simpa using ih (by omega)

theorem validateRows_carried {N O : Nat} (out tl : Nat → Nat → α) (c : Nat → Nat)
    (hO : 0 < O) (hc : CarriedClass N O tl c) :
    ∀ (n s hits : Nat), s + n ≤ N →
      validateRows (Dense.tabulate N O out) (Dense.tabulate N O tl) (List.range' s n)
          (hits, if s = 0 then 0 else c (s - 1)) =
        Except.ok (hits + (List.range' s n).countP (fun i => decide (isHit O out c i)),
          if s + n = 0 then 0 else c (s + n - 1))
  | 0, s, hits, _ => by
    simp [validateRows, pure, Except.pure]
  | n + 1, s, hits, hN => by
    have hs : s < N := by omega
    have hcs : c s < O := CarriedClass.lt hc hO s hs
    rw [List.range'_succ]
    unfold validateRows
    rw [matRow_tabulate N O tl hs]
    simp only [bind, Except.bind]
    have hscan : scanLabels ((List.range O).map (tl s)) 0
        (if s = 0 then 0 else c (s - 1)) = c s := by
      rcases hc s hs with h | h
      · rw [scanLabels_first _ 0 _ (c s) (by simpa using h.1)
          (by rw [range_map_getD O (tl s) 0 h.1]; exact h.2.1)
          (fun q hq => by
            rw [range_map_getD O (tl s) 0 (lt_trans hq h.1)]
            exact h.2.2 q hq)]
        omega
      · rw [scanLabels_none _ 0 _ (by
          intro v hv
          obtain ⟨j, hj, rfl⟩ := List.mem_map.mp hv
          exact h.1 j (List.mem_range.mp hj))]
        exact h.2.symm
    rw [hscan, Dense.tabulate_At N O out hs hcs, matRow_tabulate N O out hs]
    simp only
    have hne : (List.range O).map (out s) ≠ [] := by
      intro h
      have := congrArg List.length h
      simp at this
      omega
    obtain ⟨m, hm, hmem, hle⟩ := floats.Max_spec _ hne
    rw [hm]
    simp only
    have hiff : out s (c s) = m ↔ isHit O out c s := by
      constructor
      · intro h k hk
        rw [h]
        exact hle _ (List.mem_map.mpr ⟨k, List.mem_range.mpr hk, rfl⟩)
      · intro h
        obtain ⟨k, hk, hkm⟩ := List.mem_map.mp hmem
        apply le_antisymm
        · exact hle _ (List.mem_map.mpr ⟨c s, List.mem_range.mpr hcs, rfl⟩)
        · rw [← hkm]
          exact h k (List.mem_range.mp hk)
    have hrec := validateRows_carried out tl c hO hc n (s + 1)
      (if out s (c s) = m then hits + 1 else hits) (by omega)
    simp only [Nat.add_one_ne_zero, ↓reduceIte, Nat.add_sub_cancel] at hrec
    rw [hrec]
    have hidx : s + 1 + n = s + (n + 1) := by omega
    by_cases hh : isHit O out c s
    · simp [hh, hiff.mpr hh, hidx]
      omega
    · have : ¬ out s (c s) = m := fun h => hh (hiff.mp h)
      simp [hh, this, hidx]

theorem Validate_carried (exp : α → α) (settings : NeuralNetworkSettings α) {N I H O : Nat}
    (x tl wh bh wo bo : Nat → Nat → α) (c : Nat → Nat) (hN : 0 < N) (hH : 0 < H) (hO : 0 < O)
    (hc : CarriedClass N O tl c) :
    NeuralNetwork.Validate exp
      ⟨settings, some (Dense.tabulate I H wh), some (Dense.tabulate 1 H bh),
        some (Dense.tabulate H O wo), some (Dense.tabulate 1 O bo)⟩
      (Dense.tabulate N I x) (Dense.tabulate N O tl) =
      Except.ok ((((Finset.range N).filter
        (isHit O (outputAt exp I H x wh bh wo bo) c)).card : α) / (N : α), none) := by
  unfold NeuralNetwork.Validate
  rw [test_tabulate exp settings x wh bh wo bo hN hH hO]
  simp only [bind, Except.bind]
  have hv := validateRows_carried (outputAt exp I H x wh bh wo bo) tl c hO hc N 0 0
    (by omega)
  simp only [↓reduceIte, ← List.range_eq_range'] at hv
  have hrows : (Dense.tabulate N O (outputAt exp I H x wh bh wo bo)).rows = N := rfl
  rw [hrows, hv]
  simp only [pure, Except.pure, Nat.zero_add, countP_range_eq_card]

/-! ### One epoch of training, entry by entry -/

theorem wrapInt64_of_lt {n : Int} (h0 : 0 ≤ n) (h : n < 2 ^ 63) : wrapInt64 n = n := by
  unfold wrapInt64
  omega

omit [LinearOrderedField α] in
theorem matCol_tabulate (r c : Nat) (g : Nat → Nat → α) {j : Nat} (hj : j < c) :
    matCol j (Dense.tabulate r c g).asMatrix =
      Except.ok ((List.range r).map (fun i => g i j)) := by
  unfold matCol
  have h1 : ¬ (Dense.tabulate r c g).asMatrix.cols ≤ j := by
    simp [Dense.tabulate, Dense.asMatrix, hj]
  rw [if_neg h1]
  apply mapGo_ok
  intro i hi
  exact Dense.tabulate_elem r c g (List.mem_range.mp hi) hj

omit [LinearOrderedField α] in
theorem NewDense_row (c : Nat) (g : Nat → α) (hc : 0 < c) (hc63 : (c : Int) < 2 ^ 63) :
    NewDense 1 (c : Int) ((List.range c).map g) =
      Except.ok (Dense.tabulate 1 c (fun _ j => g j)) := by
  unfold NewDense
  have h1 : ¬ ((1 : Int) ≤ 0 ∨ (c : Int) ≤ 0) := by omega
  rw [if_neg h1]
  have h2 : ¬ (wrapInt64 (1 * (c : Int)) ≠ (((List.range c).map g).length : Int)) := by
    rw [wrapInt64_of_lt (by omega) (by omega)]
    simp
  rw [if_neg h2]
  simp only [pure, Except.pure, Dense.tabulate, Int.toNat_one, Int.toNat_ofNat, Nat.one_mul,
    Except.ok.injEq, Dense.mk.injEq, true_and]
  apply List.map_congr_left
  intro n hn
  rw [Nat.mod_eq_of_lt (List.mem_range.mp hn)]

theorem sumCols_tabulate (r c : Nat) (g : Nat → Nat → α) (hc : 0 < c)
    (hc63 : (c : Int) < 2 ^ 63) :
    sumCols (Dense.tabulate r c g) =
      Except.ok (Dense.tabulate 1 c (fun _ j => ∑ i in Finset.range r, g i j), none) := by
  unfold sumCols
  have hcols : (Dense.tabulate r c g).cols = c := rfl
  simp only [hcols]
  rw [mapGo_ok _ (fun j => ∑ i in Finset.range r, g i j)]
  · simp only [bind, Except.bind]
    rw [NewDense_row c _ hc hc63]
    rfl
  · intro j hj
    rw [matCol_tabulate r c g (List.mem_range.mp hj)]
    simp only [bind, Except.bind, pure, Except.pure, floats.Sum_map_range]

theorem epoch_tabulate (exp : α → α) (network : NeuralNetwork α) {N I H O : Nat}
    (x y : Nat → Nat → α) (P : Params α) (out0 : Dense α)
    (hN : 0 < N) (hI : 0 < I) (hH : 0 < H) (hO : 0 < O)
    (hH63 : (H : Int) < 2 ^ 63) (hO63 : (O : Int) < 2 ^ 63)
    (hout : out0.cols = 0 ∨ (out0.rows = N ∧ out0.cols = O)) :
    network.epoch exp (Dense.tabulate N I x) (Dense.tabulate N O y)
        (TrainState.ofParams I H O P out0) =
      Except.ok (Except.ok (TrainState.ofParams I H O
        (stepParams exp network.Settings.LearningRate N I H O x y P)
        (Dense.tabulate N O (outputAt exp I H x P.wh P.bh P.wo P.bo)))) := by
  unfold NeuralNetwork.epoch TrainState.ofParams
  simp only [Dense.Sub, Dense.Add, Dense.MulElem]
  rw [Dense.Mul_ok Dense.empty (Dense.tabulate_asMatrix N I x) (Dense.tabulate_asMatrix I H P.wh)
    hN hH (Or.inl rfl)]
  simp only [bind, Except.bind]
  rw [Dense.Apply_ok _ _ (fun i j => ∑ p in Finset.range I, x i p * P.wh p j + P.bh 0 j)
    (Dense.tabulate_asMatrix N H _)
    (by
      intro i hi j hj
      simp [Dense.tabulate_At 1 H P.bh Nat.one_pos hj, pure, Except.pure])
    hN hH (Or.inr ⟨rfl, rfl⟩)]
  simp only
  rw [Dense.Apply_ok Dense.empty _ (hiddenAt exp I x P.wh P.bh) (Dense.tabulate_asMatrix N H _)
    (by
      intro i hi j hj
      rfl)
    hN hH (Or.inl rfl)]
  simp only
  rw [Dense.Mul_ok Dense.empty (Dense.tabulate_asMatrix N H _)
    (Dense.tabulate_asMatrix H O P.wo) hN hO (Or.inl rfl)]
  simp only
  rw [Dense.Apply_ok _ _
    (fun i k => ∑ j in Finset.range H, hiddenAt exp I x P.wh P.bh i j * P.wo j k + P.bo 0 k)
    (Dense.tabulate_asMatrix N O _)
    (by
      intro i hi j hj
      simp [Dense.tabulate_At 1 O P.bo Nat.one_pos hj, pure, Except.pure])
    hN hO (Or.inr ⟨rfl, rfl⟩)]
  simp only
  rw [Dense.Apply_ok out0 _ (outputAt exp I H x P.wh P.bh P.wo P.bo)
    (Dense.tabulate_asMatrix N O _)
    (by
      intro i hi j hj
      rfl)
    hN hO hout]
  simp only
  rw [Dense.elementwise_ok _ Dense.empty (Dense.tabulate_asMatrix N O y)
    (Dense.tabulate_asMatrix N O _) hN hO (Or.inl rfl)]
  simp only
  rw [Dense.Apply_ok Dense.empty _
    (fun i k => SigmoidPrime (outputAt exp I H x P.wh P.bh P.wo P.bo i k))
    (Dense.tabulate_asMatrix N O _)
    (by
      intro i hi j hj
      rfl)
    hN hO (Or.inl rfl)]
  simp only
  rw [Dense.Apply_ok Dense.empty _ (fun i j => SigmoidPrime (hiddenAt exp I x P.wh P.bh i j))
    (Dense.tabulate_asMatrix N H _)
    (by
      intro i hi j hj
      rfl)
    hN hH (Or.inl rfl)]
  simp only
  rw [Dense.elementwise_ok _ Dense.empty (Dense.tabulate_asMatrix N O _)
    (Dense.tabulate_asMatrix N O _) hN hO (Or.inl rfl)]
  simp only
  rw [Dense.Mul_ok Dense.empty (Dense.tabulate_asMatrix N O _) (Dense.tabulate_T H O P.wo)
    hN hH (Or.inl rfl)]
  simp only
  rw [Dense.elementwise_ok _ Dense.empty (Dense.tabulate_asMatrix N H _)
    (Dense.tabulate_asMatrix N H _) hN hH (Or.inl rfl)]
  simp only
  rw [Dense.Mul_ok Dense.empty (Dense.tabulate_T N H _) (Dense.tabulate_asMatrix N O _)
    hH hO (Or.inl rfl)]
  simp only
  rw [Dense.Scale_ok _ _ (Dense.tabulate_asMatrix H O _) hH hO (Or.inr ⟨rfl, rfl⟩)]
  simp only
  rw [Dense.elementwise_ok _ _ (Dense.tabulate_asMatrix H O P.wo)
    (Dense.tabulate_asMatrix H O _) hH hO (Or.inr ⟨rfl, rfl⟩)]
  simp only
  rw [sumCols_tabulate N O _ hO hO63]
  simp only
  rw [Dense.Scale_ok _ _ (Dense.tabulate_asMatrix 1 O _) Nat.one_pos hO (Or.inr ⟨rfl, rfl⟩)]
  simp only
  rw [Dense.elementwise_ok _ _ (Dense.tabulate_asMatrix 1 O P.bo)
    (Dense.tabulate_asMatrix 1 O _) Nat.one_pos hO (Or.inr ⟨rfl, rfl⟩)]
  simp only
  rw [Dense.Mul_ok Dense.empty (Dense.tabulate_T N I x) (Dense.tabulate_asMatrix N H _)
    hI hH (Or.inl rfl)]
  simp only
  rw [Dense.Scale_ok _ _ (Dense.tabulate_asMatrix I H _) hI hH (Or.inr ⟨rfl, rfl⟩)]
  simp only
  rw [Dense.elementwise_ok _ _ (Dense.tabulate_asMatrix I H P.wh)
    (Dense.tabulate_asMatrix I H _) hI hH (Or.inr ⟨rfl, rfl⟩)]
  simp only
  rw [sumCols_tabulate N H _ hH hH63]
  simp only
  rw [Dense.Scale_ok _ _ (Dense.tabulate_asMatrix 1 H _) Nat.one_pos hH (Or.inr ⟨rfl, rfl⟩)]
  simp only
  rw [Dense.elementwise_ok _ _ (Dense.tabulate_asMatrix 1 H P.bh)
    (Dense.tabulate_asMatrix 1 H _) Nat.one_pos hH (Or.inr ⟨rfl, rfl⟩)]
  rfl

theorem epochs_tabulate (exp : α → α) (network : NeuralNetwork α) {N I H O : Nat}
    (x y : Nat → Nat → α) (hN : 0 < N) (hI : 0 < I) (hH : 0 < H) (hO : 0 < O)
    (hH63 : (H : Int) < 2 ^ 63) (hO63 : (O : Int) < 2 ^ 63) :
    ∀ (n : Nat) (P : Params α) (out0 : Dense α),
      (out0.cols = 0 ∨ (out0.rows = N ∧ out0.cols = O)) →
      ∃ out, network.epochs exp (Dense.tabulate N I x) (Dense.tabulate N O y) n
          (TrainState.ofParams I H O P out0) =
        Except.ok (Except.ok (TrainState.ofParams I H O
          ((stepParams exp network.Settings.LearningRate N I H O x y)^[n] P) out))
  | 0, P, out0, _ => ⟨out0, rfl⟩
  | n + 1, P, out0, hout => by
    obtain ⟨out, ih⟩ := epochs_tabulate exp network x y hN hI hH hO hH63 hO63 n
      (stepParams exp network.Settings.LearningRate N I H O x y P)
      (Dense.tabulate N O (outputAt exp I H x P.wh P.bh P.wo P.bo)) (Or.inr ⟨rfl, rfl⟩)
    refine ⟨out, ?_⟩
    unfold NeuralNetwork.epochs
    rw [epoch_tabulate exp network x y P out0 hN hI hH hO hH63 hO63 hout]
    simp only [bind, Except.bind, Function.iterate_succ, Function.comp_apply]
    exact ih

omit [LinearOrderedField α] in
theorem fillRandom_length (rnd : Nat → α) (start : Nat) (values : List α) :
    (fillRandom rnd start values).length = values.length := by
  simp [fillRandom]

theorem NewDense_fill (rnd : Nat → α) (start r c len : Nat) (g : Nat → Nat → α)
    (hr : 0 < r) (hc : 0 < c) (hlen : len = r * c) (h63 : ((r * c : Nat) : Int) < 2 ^ 63)
    (hg : ∀ i, i < r → ∀ j, j < c → g i j = rnd (start + (i * c + j))) :
    NewDense (r : Int) (c : Int) (fillRandom rnd start (List.replicate len 0)) =
      Except.ok (Dense.tabulate r c g) := by
  unfold NewDense
  have h1 : ¬ ((r : Int) ≤ 0 ∨ (c : Int) ≤ 0) := by omega
  rw [if_neg h1]
  have h2 : ¬ (wrapInt64 ((r : Int) * (c : Int)) ≠
      ((fillRandom rnd start (List.replicate len (0 : α))).length : Int)) := by
    have hcast : (r : Int) * (c : Int) = ((r * c : Nat) : Int) := by push_cast; rfl
    rw [hcast, wrapInt64_of_lt (by omega) h63]
    simp [fillRandom, hlen]
  rw [if_neg h2]
  simp only [pure, Except.pure, Dense.tabulate, Int.toNat_ofNat, Except.ok.injEq,
    Dense.mk.injEq, true_and, fillRandom, List.length_replicate, hlen]
  apply List.map_congr_left
  intro n hn
  have hn2 : n < r * c := List.mem_range.mp hn
  rw [hg (n / c) (Nat.div_lt_of_lt_mul (by rwa [Nat.mul_comm] at hn2)) (n % c)
    (Nat.mod_lt _ hc), Nat.div_add_mod']

theorem Train_tabulate (exp : α → α) (network : NeuralNetwork α) (rnd : Nat → α)
    {N I H O : Nat} (x y : Nat → Nat → α)
    (hsI : network.Settings.InputNeurons = I) (hsH : network.Settings.HiddenNeurons = H)
    (hsO : network.Settings.OutputNeurons = O)
    (hN : 0 < N) (hI : 0 < I) (hH : 0 < H) (hO : 0 < O)
    (hIH : ((I * H : Nat) : Int) < 2 ^ 63) (hHO : ((H * O : Nat) : Int) < 2 ^ 63) :
    network.Train exp rnd (Dense.tabulate N I x) (Dense.tabulate N O y) =
      Except.ok
        (⟨network.Settings,
          some (Dense.tabulate I H ((stepParams exp network.Settings.LearningRate N I H O x y)^[
            network.Settings.Epochs.toNat] (initParams rnd I H O)).wh),
          some (Dense.tabulate 1 H ((stepParams exp network.Settings.LearningRate N I H O x y)^[
            network.Settings.Epochs.toNat] (initParams rnd I H O)).bh),
          some (Dense.tabulate H O ((stepParams exp network.Settings.LearningRate N I H O x y)^[
            network.Settings.Epochs.toNat] (initParams rnd I H O)).wo),
          some (Dense.tabulate 1 O ((stepParams exp network.Settings.LearningRate N I H O x y)^[
            network.Settings.Epochs.toNat] (initParams rnd I H O)).bo)⟩, none) := by
  have hH63 : (H : Int) < 2 ^ 63 := by
    have : H ≤ I * H := Nat.le_mul_of_pos_left H hI
    omega
  have hO63 : (O : Int) < 2 ^ 63 := by
    have : O ≤ H * O := Nat.le_mul_of_pos_left O hH
    omega
  have hHI : ((H * I : Nat) : Int) < 2 ^ 63 := by
    rw [Nat.mul_comm]
    exact hIH
  have hOH : ((O * H : Nat) : Int) < 2 ^ 63 := by
    rw [Nat.mul_comm]
    exact hHO
  unfold NeuralNetwork.Train
  rw [hsI, hsH, hsO]
  have hw1 : wrapInt64 ((H : Int) * (I : Int)) = ((H * I : Nat) : Int) := by
    have hcast : (H : Int) * (I : Int) = ((H * I : Nat) : Int) := by push_cast; rfl
    rw [hcast, wrapInt64_of_lt (by omega) hHI]
  have hw2 : wrapInt64 ((O : Int) * (H : Int)) = ((O * H : Nat) : Int) := by
    have hcast : (O : Int) * (H : Int) = ((O * H : Nat) : Int) := by push_cast; rfl
    rw [hcast, wrapInt64_of_lt (by omega) hOH]
  rw [hw1, hw2]
  have hm : ∀ n : Nat, (makeSlice (n : Int) : Go (List α)) =
      Except.ok (List.replicate n 0) := by
    intro n
    unfold makeSlice
    have : ¬ ((n : Int) < 0) := by omega
    rw [if_neg this]
    simp [pure, Except.pure]
  rw [hm (H * I), hm H, hm (O * H), hm O]
  simp only [bind, Except.bind, fillRandom_length, List.length_replicate]
  rw [NewDense_fill rnd 0 I H (H * I) (initParams rnd I H O).wh hI hH
    (Nat.mul_comm H I) hIH (by intro i _ j _; simp [initParams])]
  simp only
  rw [show ((1 : Int) = ((1 : Nat) : Int)) from rfl,
    NewDense_fill rnd (H * I) 1 H H (initParams rnd I H O).bh Nat.one_pos hH
    (by simp) (by simpa using hH63) (by
      intro i hi j _
      have hi0 : i = 0 := by omega
      subst hi0
      simp [initParams])]
  simp only
  rw [NewDense_fill rnd (H * I + H) H O (O * H) (initParams rnd I H O).wo hH hO
    (Nat.mul_comm O H) hHO (by intro i _ j _; simp [initParams])]
  simp only
  rw [NewDense_fill rnd (H * I + H + O * H) 1 O O (initParams rnd I H O).bo Nat.one_pos
    hO (by simp) (by simpa using hO63) (by
      intro i hi j _
      have hi0 : i = 0 := by omega
      subst hi0
      simp [initParams])]
  simp only
  obtain ⟨out, he⟩ := epochs_tabulate exp network x y hN hI hH hO hH63 hO63
    network.Settings.Epochs.toNat (initParams rnd I H O) Dense.empty (Or.inl rfl)
  unfold TrainState.ofParams at he
  rw [he]
  rfl

theorem epoch_WF (exp : α → α) (network : NeuralNetwork α) (features labels : Dense α)
    (st : TrainState α) (N I H O : Nat)
    (hX : features.WF ∧ features.rows = N ∧ features.cols = I)
    (hY : labels.WF ∧ labels.rows = N ∧ labels.cols = O)
    (hWH : st.weightsHidden.WF ∧ st.weightsHidden.rows = I ∧ st.weightsHidden.cols = H)
    (hBH : st.biasesHidden.WF ∧ st.biasesHidden.rows = 1 ∧ st.biasesHidden.cols = H)
    (hWO : st.weightsOut.WF ∧ st.weightsOut.rows = H ∧ st.weightsOut.cols = O)
    (hBO : st.biasesOut.WF ∧ st.biasesOut.rows = 1 ∧ st.biasesOut.cols = O)
    (hout : st.output.cols = 0 ∨ (st.output.rows = N ∧ st.output.cols = O))
    (hN : 0 < N) (hI : 0 < I) (hH : 0 < H) (hO : 0 < O)
    (hH63 : (H : Int) < 2 ^ 63) (hO63 : (O : Int) < 2 ^ 63) :
    network.epoch exp features labels st =
      Except.ok (Except.ok (TrainState.ofParams I H O
        (stepParams exp network.Settings.LearningRate N I H O features.entry labels.entry
          ⟨st.weightsHidden.entry, st.biasesHidden.entry, st.weightsOut.entry,
            st.biasesOut.entry⟩)
        (Dense.tabulate N O (outputAt exp I H features.entry st.weightsHidden.entry
          st.biasesHidden.entry st.weightsOut.entry st.biasesOut.entry)))) := by
  have e := epoch_tabulate exp network (N := N) (I := I) (H := H) (O := O)
    features.entry labels.entry
    ⟨st.weightsHidden.entry, st.biasesHidden.entry, st.weightsOut.entry, st.biasesOut.entry⟩
    st.output hN hI hH hO hH63 hO63 hout
  unfold TrainState.ofParams at e
  simp only at e
  rw [← Dense.eq_tabulate_of hX.1 hX.2.1 hX.2.2, ← Dense.eq_tabulate_of hY.1 hY.2.1 hY.2.2,
    ← Dense.eq_tabulate_of hWH.1 hWH.2.1 hWH.2.2, ← Dense.eq_tabulate_of hBH.1 hBH.2.1 hBH.2.2,
    ← Dense.eq_tabulate_of hWO.1 hWO.2.1 hWO.2.2,
    ← Dense.eq_tabulate_of hBO.1 hBO.2.1 hBO.2.2] at e
  exact e

/-! ### Shapes that `Train` cannot get past -/

theorem epoch_ok_rows (exp : α → α) (network : NeuralNetwork α) (features labels : Dense α)
    (st : TrainState α) (r : Except GoError (TrainState α))
    (h : network.epoch exp features labels st = Except.ok r) :
    labels.rows = features.rows := by
  unfold NeuralNetwork.epoch at h
  obtain ⟨m1, h1, h⟩ := bind_eq_ok h
  obtain ⟨m2, h2, h⟩ := bind_eq_ok h
  obtain ⟨m3, h3, h⟩ := bind_eq_ok h
  obtain ⟨m4, h4, h⟩ := bind_eq_ok h
  obtain ⟨m5, h5, h⟩ := bind_eq_ok h
  obtain ⟨m6, h6, h⟩ := bind_eq_ok h
  obtain ⟨m7, h7, h⟩ := bind_eq_ok h
  have d1 := (Dense.Mul_dims h1).2.1
  have d2 := (Dense.Apply_dims h2).1
  have d3 := (Dense.Apply_dims h3).1
  have d4 := (Dense.Mul_dims h4).2.1
  have d5 := (Dense.Apply_dims h5).1
  have d6 := (Dense.Apply_dims h6).1
  have d7 := (Dense.elementwise_dims h7).1
  simp only [Dense.asMatrix] at d1 d2 d3 d4 d5 d6 d7
  omega

theorem epochs_succ_ok_rows (exp : α → α) (network : NeuralNetwork α)
    (features labels : Dense α) (n : Nat) (st : TrainState α)
    (r : Except GoError (TrainState α))
    (h : network.epochs exp features labels (n + 1) st = Except.ok r) :
    labels.rows = features.rows := by
  unfold NeuralNetwork.epochs at h
  obtain ⟨e, he, _⟩ := bind_eq_ok h
  exact epoch_ok_rows exp network features labels st e he

theorem Train_panics_of_rows_ne (exp : α → α) (network : NeuralNetwork α) (rnd : Nat → α)
    (features labels : Dense α) (hrows : features.rows ≠ labels.rows)
    (hep : 0 < network.Settings.Epochs) :
    ∃ p : Panic, network.Train exp rnd features labels = Except.error p := by
  cases hT : network.Train exp rnd features labels with
  | error p => exact ⟨p, rfl⟩
  | ok r =>
    exfalso
    unfold NeuralNetwork.Train at hT
    obtain ⟨_, _, hT⟩ := bind_eq_ok hT
    obtain ⟨_, _, hT⟩ := bind_eq_ok hT
    obtain ⟨_, _, hT⟩ := bind_eq_ok hT
    obtain ⟨_, _, hT⟩ := bind_eq_ok hT
    obtain ⟨_, _, hT⟩ := bind_eq_ok hT
    obtain ⟨_, _, hT⟩ := bind_eq_ok hT
    obtain ⟨_, _, hT⟩ := bind_eq_ok hT
    obtain ⟨_, _, hT⟩ := bind_eq_ok hT
    obtain ⟨e, he, _⟩ := bind_eq_ok hT
    obtain ⟨n, hn⟩ : ∃ n, network.Settings.Epochs.toNat = n + 1 :=
      ⟨network.Settings.Epochs.toNat - 1, by omega⟩
    rw [hn] at he
    exact hrows (epochs_succ_ok_rows exp network features labels n _ e he).symm

/-! ### The error value of `sumCols` and of `Train` -/

theorem sumCols_nil_error (m d : Dense α) (e : Option GoError)
    (h : sumCols m = Except.ok (d, e)) : e = none := by
  unfold sumCols at h
  simp only at h
  obtain ⟨_, _, h⟩ := bind_eq_ok h
  obtain ⟨_, _, h⟩ := bind_eq_ok h
  simp only [pure, Except.pure, Except.ok.injEq, Prod.mk.injEq] at h
  exact h.2.symm

theorem epoch_not_error (exp : α → α) (network : NeuralNetwork α) (features labels : Dense α)
    (st : TrainState α) (r : Except GoError (TrainState α))
    (h : network.epoch exp features labels st = Except.ok r) :
    ∃ st2, r = Except.ok st2 := by
  unfold NeuralNetwork.epoch at h
  obtain ⟨_, _, h⟩ := bind_eq_ok h
  obtain ⟨_, _, h⟩ := bind_eq_ok h
  obtain ⟨_, _, h⟩ := bind_eq_ok h
  obtain ⟨_, _, h⟩ := bind_eq_ok h
  obtain ⟨_, _, h⟩ := bind_eq_ok h
  obtain ⟨_, _, h⟩ := bind_eq_ok h
  obtain ⟨_, _, h⟩ := bind_eq_ok h
  obtain ⟨_, _, h⟩ := bind_eq_ok h
  obtain ⟨_, _, h⟩ := bind_eq_ok h
  obtain ⟨_, _, h⟩ := bind_eq_ok h
  obtain ⟨_, _, h⟩ := bind_eq_ok h
  obtain ⟨_, _, h⟩ := bind_eq_ok h
  obtain ⟨_, _, h⟩ := bind_eq_ok h
  obtain ⟨_, _, h⟩ := bind_eq_ok h
  obtain ⟨_, _, h⟩ := bind_eq_ok h
  obtain ⟨⟨nb, err⟩, hs, h⟩ := bind_eq_ok h
  have he := sumCols_nil_error _ _ _ hs
  subst he
  simp only at h
  obtain ⟨_, _, h⟩ := bind_eq_ok h
  obtain ⟨_, _, h⟩ := bind_eq_ok h
  obtain ⟨_, _, h⟩ := bind_eq_ok h
  obtain ⟨_, _, h⟩ := bind_eq_ok h
  obtain ⟨_, _, h⟩ := bind_eq_ok h
  obtain ⟨⟨nb2, err2⟩, hs2, h⟩ := bind_eq_ok h
  have he2 := sumCols_nil_error _ _ _ hs2
  subst he2
  simp only at h
  obtain ⟨_, _, h⟩ := bind_eq_ok h
  obtain ⟨_, _, h⟩ := bind_eq_ok h
  simp only [pure, Except.pure, Except.ok.injEq] at h
  exact ⟨_, h.symm⟩

theorem epochs_not_error (exp : α → α) (network : NeuralNetwork α) (features labels : Dense α) :
    ∀ (n : Nat) (st : TrainState α) (r : Except GoError (TrainState α)),
      network.epochs exp features labels n st = Except.ok r → ∃ st2, r = Except.ok st2
  | 0, st, r, h => by
    simp only [NeuralNetwork.epochs, pure, Except.pure, Except.ok.injEq] at h
    exact ⟨st, h.symm⟩
  | n + 1, st, r, h => by
    unfold NeuralNetwork.epochs at h
    obtain ⟨e, he, h⟩ := bind_eq_ok h
    obtain ⟨st1, rfl⟩ := epoch_not_error exp network features labels st e he
    simp only at h
    exact epochs_not_error exp network features labels n st1 r h

theorem Train_nil_error (exp : α → α) (network : NeuralNetwork α) (rnd : Nat → α)
    (features labels : Dense α) (net : NeuralNetwork α) (e : Option GoError)
    (h : network.Train exp rnd features labels = Except.ok (net, e)) : e = none := by
  unfold NeuralNetwork.Train at h
  obtain ⟨_, _, h⟩ := bind_eq_ok h
  obtain ⟨_, _, h⟩ := bind_eq_ok h
  obtain ⟨_, _, h⟩ := bind_eq_ok h
  obtain ⟨_, _, h⟩ := bind_eq_ok h
  obtain ⟨_, _, h⟩ := bind_eq_ok h
  obtain ⟨_, _, h⟩ := bind_eq_ok h
  obtain ⟨_, _, h⟩ := bind_eq_ok h
  obtain ⟨_, _, h⟩ := bind_eq_ok h
  obtain ⟨r, hr, h⟩ := bind_eq_ok h
  obtain ⟨st2, rfl⟩ := epochs_not_error exp network features labels _ _ r hr
  simp only [pure, Except.pure, Except.ok.injEq, Prod.mk.injEq] at h
  exact h.2.symm

theorem ok_bind {β γ : Type} (a : β) (f : β → Go γ) : (Except.ok a >>= f) = f a := rfl

theorem bind_congr_ok {β γ : Type} {x : Go β} {f g : β → Go γ}
    (h : ∀ a, x = Except.ok a → f a = g a) : (x >>= f) = (x >>= g) := by
  cases x with
  | error e => rfl
  | ok a => exact h a rfl

theorem epoch_congr_settings (exp : α → α) (n1 n2 : NeuralNetwork α)
    (h : n1.Settings = n2.Settings) (features labels : Dense α) (st : TrainState α) :
    n1.epoch exp features labels st = n2.epoch exp features labels st := by
  unfold NeuralNetwork.epoch
  rw [h]

theorem epochs_congr_settings (exp : α → α) (n1 n2 : NeuralNetwork α)
    (h : n1.Settings = n2.Settings) (features labels : Dense α) :
    ∀ (n : Nat) (st : TrainState α),
      n1.epochs exp features labels n st = n2.epochs exp features labels n st
  | 0, _ => rfl
  | n + 1, st => by
    unfold NeuralNetwork.epochs
    rw [epoch_congr_settings exp n1 n2 h]
    apply bind_congr_ok
    intro r _
    cases r with
    | error e => rfl
    | ok st1 => exact epochs_congr_settings exp n1 n2 h features labels n st1

theorem Train_congr_settings (exp : α → α) (n1 n2 : NeuralNetwork α) (rnd : Nat → α)
    (features labels : Dense α) (h : n1.Settings = n2.Settings) :
    n1.Train exp rnd features labels = n2.Train exp rnd features labels := by
  unfold NeuralNetwork.Train
  rw [h]
  apply bind_congr_ok
  intro a1 _
  apply bind_congr_ok
  intro a2 _
  apply bind_congr_ok
  intro a3 _
  apply bind_congr_ok
  intro a4 _
  apply bind_congr_ok
  intro m1 _
  apply bind_congr_ok
  intro m2 _
  apply bind_congr_ok
  intro m3 _
  apply bind_congr_ok
  intro m4 _
  simp only [epochs_congr_settings exp n1 n2 h]
  apply bind_congr_ok
  intro r hr
  obtain ⟨st2, rfl⟩ := epochs_not_error exp n2 features labels _ _ r hr
  rfl

theorem sumCols_WF (m : Dense α) (hwf : m.WF) (hc : 0 < m.cols)
    (hc63 : (m.cols : Int) < 2 ^ 63) :
    sumCols m = Except.ok
      (Dense.tabulate 1 m.cols (fun _ j => ∑ i in Finset.range m.rows, m.entry i j), none) := by
  have h := sumCols_tabulate m.rows m.cols m.entry hc hc63
  rw [← hwf.eq_tabulate] at h
  exact h

/-! ### The initial parameters -/

theorem Train_from_init (exp : α → α) (network : NeuralNetwork α) (rnd : Nat → α)
    {I H O : Nat} (features labels : Dense α)
    (hsI : network.Settings.InputNeurons = I) (hsH : network.Settings.HiddenNeurons = H)
    (hsO : network.Settings.OutputNeurons = O)
    (hI : 0 < I) (hH : 0 < H) (hO : 0 < O)
    (hIH : ((I * H : Nat) : Int) < 2 ^ 63) (hHO : ((H * O : Nat) : Int) < 2 ^ 63) :
    network.Train exp rnd features labels =
      (network.epochs exp features labels network.Settings.Epochs.toNat
          (TrainState.ofParams I H O (initParams rnd I H O) Dense.empty) >>= fun r =>
        match r with
        | Except.error e => pure (network, some e)
        | Except.ok st =>
          pure (⟨network.Settings, some st.weightsHidden, some st.biasesHidden,
            some st.weightsOut, some st.biasesOut⟩, none)) := by
  have hH63 : (H : Int) < 2 ^ 63 := by
    have : H ≤ I * H := Nat.le_mul_of_pos_left H hI
    omega
  have hO63 : (O : Int) < 2 ^ 63 := by
    have : O ≤ H * O := Nat.le_mul_of_pos_left O hH
    omega
  have hHI : ((H * I : Nat) : Int) < 2 ^ 63 := by
    rw [Nat.mul_comm]
    exact hIH
  have hOH : ((O * H : Nat) : Int) < 2 ^ 63 := by
    rw [Nat.mul_comm]
    exact hHO
  unfold NeuralNetwork.Train
  rw [hsI, hsH, hsO]
  have hw1 : wrapInt64 ((H : Int) * (I : Int)) = ((H * I : Nat) : Int) := by
    have hcast : (H : Int) * (I : Int) = ((H * I : Nat) : Int) := by push_cast; rfl
    rw [hcast, wrapInt64_of_lt (by omega) hHI]
  have hw2 : wrapInt64 ((O : Int) * (H : Int)) = ((O * H : Nat) : Int) := by
    have hcast : (O : Int) * (H : Int) = ((O * H : Nat) : Int) := by push_cast; rfl
    rw [hcast, wrapInt64_of_lt (by omega) hOH]
  rw [hw1, hw2]
  have hm : ∀ n : Nat, (makeSlice (n : Int) : Go (List α)) =
      Except.ok (List.replicate n 0) := by
    intro n
    unfold makeSlice
    have : ¬ ((n : Int) < 0) := by omega
    rw [if_neg this]
    simp [pure, Except.pure]
  rw [hm (H * I), hm H, hm (O * H), hm O]
  simp only [bind, Except.bind, fillRandom_length, List.length_replicate]
  rw [NewDense_fill rnd 0 I H (H * I) (initParams rnd I H O).wh hI hH
    (Nat.mul_comm H I) hIH (by intro i _ j _; simp [initParams])]
  simp only
  rw [show ((1 : Int) = ((1 : Nat) : Int)) from rfl,
    NewDense_fill rnd (H * I) 1 H H (initParams rnd I H O).bh Nat.one_pos hH
    (by simp) (by simpa using hH63) (by
      intro i hi j _
      have hi0 : i = 0 := by omega
      subst hi0
      simp [initParams])]
  simp only
  rw [NewDense_fill rnd (H * I + H) H O (O * H) (initParams rnd I H O).wo hH hO
    (Nat.mul_comm O H) hHO (by intro i _ j _; simp [initParams])]
  simp only
  rw [NewDense_fill rnd (H * I + H + O * H) 1 O O (initParams rnd I H O).bo Nat.one_pos
    hO (by simp) (by simpa using hO63) (by
      intro i hi j _
      have hi0 : i = 0 := by omega
      subst hi0
      simp [initParams])]
  rfl

omit [LinearOrderedField α] in
theorem tabulate_data_of_index (r c start : Nat) (rnd : Nat → α) (g : Nat → Nat → α)
    (hc : 0 < c) (hg : ∀ i, i < r → ∀ j, j < c → g i j = rnd (start + (i * c + j))) :
    (Dense.tabulate r c g).data = (List.range (r * c)).map (fun n => rnd (start + n)) := by
  unfold Dense.tabulate
  simp only
  apply List.map_congr_left
  intro n hn
  have hn2 : n < r * c := List.mem_range.mp hn
  rw [hg (n / c) (Nat.div_lt_of_lt_mul (by rwa [Nat.mul_comm] at hn2)) (n % c)
    (Nat.mod_lt _ hc), Nat.div_add_mod']

omit [LinearOrderedField α] in
theorem initParams_data (rnd : Nat → α) (I H O : Nat) (hH : 0 < H) (hO : 0 < O) :
    (Dense.tabulate I H (initParams rnd I H O).wh).data ++
      (Dense.tabulate 1 H (initParams rnd I H O).bh).data ++
      (Dense.tabulate H O (initParams rnd I H O).wo).data ++
      (Dense.tabulate 1 O (initParams rnd I H O).bo).data =
    (List.range (I * H + H + H * O + O)).map rnd := by
  rw [tabulate_data_of_index I H 0 rnd _ hH (by intro i _ j _; simp [initParams]),
    tabulate_data_of_index 1 H (I * H) rnd _ hH (by
      intro i hi j _
      have hi0 : i = 0 := by omega
      subst hi0
      simp [initParams, Nat.mul_comm]),
    tabulate_data_of_index H O (I * H + H) rnd _ hO (by
      intro i _ j _
      simp [initParams, Nat.mul_comm]),
    tabulate_data_of_index 1 O (I * H + H + H * O) rnd _ hO (by
      intro i hi j _
      have hi0 : i = 0 := by omega
      subst hi0
      simp [initParams, Nat.mul_comm])]
  simp only [Nat.one_mul, Nat.zero_add]
  rw [List.range_add, List.range_add, List.range_add]
  simp only [List.map_append, List.map_map]
  rfl

omit [LinearOrderedField α] in
theorem Dense.tabulate_HasShape (r c : Nat) (g : Nat → Nat → α) :
    (Dense.tabulate r c g).HasShape r c :=
  ⟨Dense.tabulate_WF r c g, rfl, rfl⟩

/-! ### The forward pass of `Train` and of `test` -/

omit [LinearOrderedField α] in
theorem Dense.Apply_empty_of_ok {recv : Dense α} {fn : Nat → Nat → α → Go α} {A : GoMatrix α}
    {m : Dense α} (h : recv.Apply fn A = Except.ok m) :
    Dense.empty.Apply fn A = Except.ok m := by
  unfold Dense.Apply at h ⊢
  obtain ⟨u, hu, h⟩ := bind_eq_ok h
  have hp := Dense.reuseAs_pos hu
  rw [Dense.reuseAs_ok Dense.empty hp.1 hp.2 (Or.inl rfl)]
  exact h

omit [LinearOrderedField α] in
theorem Dense.Apply_recv_conforming (recv : Dense α) (fn : Nat → Nat → α → Go α)
    (A : GoMatrix α) (h : recv.cols = 0 ∨ (recv.rows = A.rows ∧ recv.cols = A.cols)) :
    recv.Apply fn A = Dense.empty.Apply fn A := by
  unfold Dense.Apply
  by_cases hz : A.rows = 0 ∨ A.cols = 0
  · simp [Dense.reuseAs, hz]
  · have hr : 0 < A.rows := by omega
    have hc : 0 < A.cols := by omega
    rw [Dense.reuseAs_ok recv hr hc h, Dense.reuseAs_ok Dense.empty hr hc (Or.inl rfl)]

theorem test_eq_epochForward (exp : α → α) (network : NeuralNetwork α) (features : Dense α)
    (st : TrainState α)
    (hrecv : st.output.cols = 0 ∨
      (st.output.rows = features.rows ∧ st.output.cols = st.weightsOut.cols)) :
    NeuralNetwork.test exp ⟨network.Settings, some st.weightsHidden, some st.biasesHidden,
        some st.weightsOut, some st.biasesOut⟩ features =
      (network.epochForward exp features st >>= fun r => pure (some r.2, none)) := by
  unfold NeuralNetwork.test NeuralNetwork.epochForward
  simp only [bind_assoc, pure_bind]
  apply bind_congr_ok
  intro m1 h1
  apply bind_congr_ok
  intro m2 h2
  apply bind_congr_ok
  intro m3 h3
  apply bind_congr_ok
  intro m4 h4
  apply bind_congr_ok
  intro m5 h5
  have d1 := Dense.Mul_dims h1
  have d2 := Dense.Apply_dims h2
  have d3 := Dense.Apply_dims h3
  have d4 := Dense.Mul_dims h4
  have d5 := Dense.Apply_dims h5
  simp only [Dense.asMatrix] at d1 d2 d3 d4 d5
  rw [Dense.Apply_recv_conforming st.output _ m5.asMatrix (by
    simp only [Dense.asMatrix]
    rcases hrecv with h | ⟨ha, hb⟩
    · exact Or.inl h
    · right
      constructor <;> omega)]

theorem epoch_ok_epochForward (exp : α → α) (network : NeuralNetwork α)
    (features labels : Dense α) (st st2 : TrainState α)
    (h : network.epoch exp features labels st = Except.ok (Except.ok st2)) :
    ∃ A, network.epochForward exp features st = Except.ok (A, st2.output) := by
  unfold NeuralNetwork.epoch at h
  obtain ⟨m1, h1, h⟩ := bind_eq_ok h
  obtain ⟨m2, h2, h⟩ := bind_eq_ok h
  obtain ⟨m3, h3, h⟩ := bind_eq_ok h
  obtain ⟨m4, h4, h⟩ := bind_eq_ok h
  obtain ⟨m5, h5, h⟩ := bind_eq_ok h
  obtain ⟨m6, h6, h⟩ := bind_eq_ok h
  obtain ⟨_, _, h⟩ := bind_eq_ok h
  obtain ⟨_, _, h⟩ := bind_eq_ok h
  obtain ⟨_, _, h⟩ := bind_eq_ok h
  obtain ⟨_, _, h⟩ := bind_eq_ok h
  obtain ⟨_, _, h⟩ := bind_eq_ok h
  obtain ⟨_, _, h⟩ := bind_eq_ok h
  obtain ⟨_, _, h⟩ := bind_eq_ok h
  obtain ⟨_, _, h⟩ := bind_eq_ok h
  obtain ⟨_, _, h⟩ := bind_eq_ok h
  obtain ⟨⟨nb, err⟩, hs, h⟩ := bind_eq_ok h
  have he := sumCols_nil_error _ _ _ hs
  subst he
  simp only at h
  obtain ⟨_, _, h⟩ := bind_eq_ok h
  obtain ⟨_, _, h⟩ := bind_eq_ok h
  obtain ⟨_, _, h⟩ := bind_eq_ok h
  obtain ⟨_, _, h⟩ := bind_eq_ok h
  obtain ⟨_, _, h⟩ := bind_eq_ok h
  obtain ⟨⟨nb2, err2⟩, hs2, h⟩ := bind_eq_ok h
  have he2 := sumCols_nil_error _ _ _ hs2
  subst he2
  simp only at h
  obtain ⟨_, _, h⟩ := bind_eq_ok h
  obtain ⟨_, _, h⟩ := bind_eq_ok h
  simp only [pure, Except.pure, Except.ok.injEq] at h
  subst h
  refine ⟨m3, ?_⟩
  unfold NeuralNetwork.epochForward
  simp only [h1, h2, h3, h4, h5, h6, ok_bind]
  rfl

theorem epoch_ok_test (exp : α → α) (network : NeuralNetwork α)
    (features labels : Dense α) (st st2 : TrainState α)
    (h : network.epoch exp features labels st = Except.ok (Except.ok st2)) :
    NeuralNetwork.test exp ⟨network.Settings, some st.weightsHidden, some st.biasesHidden,
        some st.weightsOut, some st.biasesOut⟩ features =
      Except.ok (some st2.output, none) := by
  obtain ⟨A, hf⟩ := epoch_ok_epochForward exp network features labels st st2 h
  unfold NeuralNetwork.epochForward at hf
  obtain ⟨m1, h1, hf⟩ := bind_eq_ok hf
  obtain ⟨m2, h2, hf⟩ := bind_eq_ok hf
  obtain ⟨m3, h3, hf⟩ := bind_eq_ok hf
  obtain ⟨m4, h4, hf⟩ := bind_eq_ok hf
  obtain ⟨m5, h5, hf⟩ := bind_eq_ok hf
  obtain ⟨m6, h6, hf⟩ := bind_eq_ok hf
  simp only [pure, Except.pure, Except.ok.injEq, Prod.mk.injEq] at hf
  unfold NeuralNetwork.test
  simp only [h1, h2, h3, h4, h5, Dense.Apply_empty_of_ok h6, hf.2, ok_bind]
  rfl

/-! ### The panic of `Train` on labels with another row count -/

theorem epochForward_tabulate (exp : α → α) (network : NeuralNetwork α) {N I H O : Nat}
    (x : Nat → Nat → α) (P : Params α) (out0 : Dense α)
    (hN : 0 < N) (hH : 0 < H) (hO : 0 < O)
    (hout : out0.cols = 0 ∨ (out0.rows = N ∧ out0.cols = O)) :
    network.epochForward exp (Dense.tabulate N I x) (TrainState.ofParams I H O P out0) =
      Except.ok (Dense.tabulate N H (hiddenAt exp I x P.wh P.bh),
        Dense.tabulate N O (outputAt exp I H x P.wh P.bh P.wo P.bo)) := by
  unfold NeuralNetwork.epochForward TrainState.ofParams
  simp only
  rw [Dense.Mul_ok Dense.empty (Dense.tabulate_asMatrix N I x) (Dense.tabulate_asMatrix I H P.wh)
    hN hH (Or.inl rfl)]
  simp only [bind, Except.bind]
  rw [Dense.Apply_ok _ _ (fun i j => ∑ p in Finset.range I, x i p * P.wh p j + P.bh 0 j)
    (Dense.tabulate_asMatrix N H _)
    (by
      intro i hi j hj
      simp [Dense.tabulate_At 1 H P.bh Nat.one_pos hj, pure, Except.pure])
    hN hH (Or.inr ⟨rfl, rfl⟩)]
  simp only
  rw [Dense.Apply_ok Dense.empty _ (hiddenAt exp I x P.wh P.bh) (Dense.tabulate_asMatrix N H _)
    (by
      intro i hi j hj
      rfl)
    hN hH (Or.inl rfl)]
  simp only
  rw [Dense.Mul_ok Dense.empty (Dense.tabulate_asMatrix N H _)
    (Dense.tabulate_asMatrix H O P.wo) hN hO (Or.inl rfl)]
  simp only
  rw [Dense.Apply_ok _ _
    (fun i k => ∑ j in Finset.range H, hiddenAt exp I x P.wh P.bh i j * P.wo j k + P.bo 0 k)
    (Dense.tabulate_asMatrix N O _)
    (by
      intro i hi j hj
      simp [Dense.tabulate_At 1 O P.bo Nat.one_pos hj, pure, Except.pure])
    hN hO (Or.inr ⟨rfl, rfl⟩)]
  simp only
  rw [Dense.Apply_ok out0 _ (outputAt exp I H x P.wh P.bh P.wo P.bo)
    (Dense.tabulate_asMatrix N O _)
    (by
      intro i hi j hj
      rfl)
    hN hO hout]
  rfl

omit [LinearOrderedField α] in
theorem Sub_rows_mismatch [Field α] (recv a b : Dense α) (h : a.rows ≠ b.rows) :
    recv.Sub a.asMatrix b.asMatrix = Except.error Panic.errShape := by
  unfold Dense.Sub Dense.elementwise
  have hc : a.asMatrix.rows ≠ b.asMatrix.rows ∨ a.asMatrix.cols ≠ b.asMatrix.cols :=
    Or.inl h
  rw [if_pos hc]
  rfl

theorem epoch_rows_mismatch (exp : α → α) (network : NeuralNetwork α) {N I H O : Nat}
    (x : Nat → Nat → α) (labels : Dense α) (P : Params α) (out0 : Dense α)
    (hN : 0 < N) (hH : 0 < H) (hO : 0 < O)
    (hout : out0.cols = 0 ∨ (out0.rows = N ∧ out0.cols = O)) (hrows : labels.rows ≠ N) :
    network.epoch exp (Dense.tabulate N I x) labels (TrainState.ofParams I H O P out0) =
      Except.error Panic.errShape := by
  unfold NeuralNetwork.epoch TrainState.ofParams
  simp only
  rw [Dense.Mul_ok Dense.empty (Dense.tabulate_asMatrix N I x) (Dense.tabulate_asMatrix I H P.wh)
    hN hH (Or.inl rfl)]
  simp only [bind, Except.bind]
  rw [Dense.Apply_ok _ _ (fun i j => ∑ p in Finset.range I, x i p * P.wh p j + P.bh 0 j)
    (Dense.tabulate_asMatrix N H _)
    (by
      intro i hi j hj
      simp [Dense.tabulate_At 1 H P.bh Nat.one_pos hj, pure, Except.pure])
    hN hH (Or.inr ⟨rfl, rfl⟩)]
  simp only
  rw [Dense.Apply_ok Dense.empty _ (hiddenAt exp I x P.wh P.bh) (Dense.tabulate_asMatrix N H _)
    (by
      intro i hi j hj
      rfl)
    hN hH (Or.inl rfl)]
  simp only
  rw [Dense.Mul_ok Dense.empty (Dense.tabulate_asMatrix N H _)
    (Dense.tabulate_asMatrix H O P.wo) hN hO (Or.inl rfl)]
  simp only
  rw [Dense.Apply_ok _ _
    (fun i k => ∑ j in Finset.range H, hiddenAt exp I x P.wh P.bh i j * P.wo j k + P.bo 0 k)
    (Dense.tabulate_asMatrix N O _)
    (by
      intro i hi j hj
      simp [Dense.tabulate_At 1 O P.bo Nat.one_pos hj, pure, Except.pure])
    hN hO (Or.inr ⟨rfl, rfl⟩)]
  simp only
  rw [Dense.Apply_ok out0 _ (outputAt exp I H x P.wh P.bh P.wo P.bo)
    (Dense.tabulate_asMatrix N O _)
    (by
      intro i hi j hj
      rfl)
    hN hO hout]
  simp only
  rw [Sub_rows_mismatch Dense.empty labels _ hrows]

theorem Train_rows_mismatch (exp : α → α) (network : NeuralNetwork α) (rnd : Nat → α)
    (features labels : Dense α) (N I H O : Nat)
    (hsI : network.Settings.InputNeurons = I) (hsH : network.Settings.HiddenNeurons = H)
    (hsO : network.Settings.OutputNeurons = O) (hep : 0 < network.Settings.Epochs)
    (hX : features.HasShape N I) (hrows : labels.rows ≠ features.rows)
    (hN : 0 < N) (hI : 0 < I) (hH : 0 < H) (hO : 0 < O)
    (hIH : ((I * H : Nat) : Int) < 2 ^ 63) (hHO : ((H * O : Nat) : Int) < 2 ^ 63) :
    network.Train exp rnd features labels = Except.error Panic.errShape ∧
    ∃ A out : Dense α,
      network.epochForward exp features
        (TrainState.ofParams I H O (initParams rnd I H O) Dense.empty) = Except.ok (A, out) ∧
      out.rows = features.rows ∧
      Dense.empty.Sub labels.asMatrix out.asMatrix = Except.error Panic.errShape := by
  have hfe := Dense.eq_tabulate_of hX.1 hX.2.1 hX.2.2
  have hr : labels.rows ≠ N := by
    rw [← hX.2.1]
    exact hrows
  constructor
  · rw [Train_from_init exp network rnd features labels hsI hsH hsO hI hH hO hIH hHO]
    obtain ⟨n, hn⟩ : ∃ n, network.Settings.Epochs.toNat = n + 1 :=
      ⟨network.Settings.Epochs.toNat - 1, by omega⟩
    rw [hn]
    unfold NeuralNetwork.epochs
    rw [hfe, epoch_rows_mismatch exp network features.entry labels (initParams rnd I H O)
      Dense.empty hN hH hO (Or.inl rfl) hr]
    rfl
  · refine ⟨Dense.tabulate N H
        (hiddenAt exp I features.entry (initParams rnd I H O).wh (initParams rnd I H O).bh),
      Dense.tabulate N O
        (outputAt exp I H features.entry (initParams rnd I H O).wh (initParams rnd I H O).bh
          (initParams rnd I H O).wo (initParams rnd I H O).bo), ?_, ?_, ?_⟩
    · have h := epochForward_tabulate exp network (N := N) (I := I) (H := H) (O := O)
        features.entry (initParams rnd I H O) Dense.empty hN hH hO (Or.inl rfl)
      rw [← hfe] at h
      exact h
    · exact hX.2.1.symm
    · exact Sub_rows_mismatch Dense.empty labels _ hr

end Forward

/-! ## The heap model of `Validate` -/

section HeapLemmas

variable {α : Type} [LinearOrderedField α]

omit [LinearOrderedField α] in
theorem Mem.deref_some (s : Mem.State α) (a : Nat) (m : Dense α) (h : s.heap[a]? = some m) :
    s.deref (some a) = Except.ok m := by
  simp [Mem.State.deref, h, pure, Except.pure]

theorem Mem.Mul_eq (s : Mem.State α) (recv a b : Nat) (R A B : Dense α)
    (hR : s.heap[recv]? = some R) (hA : s.heap[a]? = some A) (hB : s.heap[b]? = some B) :
    Mem.Mul s (some recv) (some a) (some b) =
      (R.Mul A.asMatrix B.asMatrix >>= fun m =>
        pure { s with heap := s.heap.set recv m }) := by
  unfold Mem.Mul
  rw [Mem.deref_some s a A hA, Mem.deref_some s b B hB, Mem.deref_some s recv R hR]
  rfl

omit [LinearOrderedField α] in
theorem Mem.Apply_eq (s : Mem.State α) (fn : Mem.State α → Nat → Nat → α → Go α)
    (recv a : Nat) (R A : Dense α)
    (hR : s.heap[recv]? = some R) (hA : s.heap[a]? = some A) :
    Mem.Apply s (some recv) fn (some a) =
      (R.Apply (fn s) A.asMatrix >>= fun m =>
        pure { s with heap := s.heap.set recv m }) := by
  unfold Mem.Apply
  rw [Mem.deref_some s a A hA, Mem.deref_some s recv R hR]
  rfl

omit [LinearOrderedField α] in
theorem Mem.deref_mk (hp : List (Dense α)) (nw : Mem.NeuralNetwork α) (f l tf tl : Ptr)
    (a : Nat) (m : Dense α) (h : hp[a]? = some m) :
    (Mem.State.mk hp nw f l tf tl).deref (some a) = Except.ok m :=
  Mem.deref_some _ a m h

theorem lookup_append {β : Type} (h l : List β) (a : Nat) (m : β) (ha : h[a]? = some m) :
    (h ++ l)[a]? = some m := by
  have hlt : a < h.length := by
    by_contra hn
    rw [List.getElem?_eq_none (by omega)] at ha
    exact Option.noConfusion ha
  rw [List.getElem?_append_left hlt]
  exact ha

theorem lookup_fresh {β : Type} (h l : List β) (i : Nat) :
    (h ++ l)[h.length + i]? = l[i]? := by
  rw [List.getElem?_append_right (by omega)]
  simp

theorem fresh_at {β : Type} (h l : List β) (i : Nat) (m : β) (hi : l[i]? = some m) :
    (h ++ l)[h.length + i]? = some m := by
  rw [lookup_fresh]
  exact hi

theorem set_fresh {β : Type} (h l : List β) (i : Nat) (x : β) :
    (h ++ l).set (h.length + i) x = h ++ l.set i x := by
  rw [List.set_append_right _ _ (by omega)]
  simp

theorem Mem.test_eq (exp : α → α) (s : Mem.State α) (af awh abh awo abo : Nat)
    (F WH BH WO BO : Dense α)
    (hwh : s.network.WeightsHidden = some awh) (hbh : s.network.BiasesHidden = some abh)
    (hwo : s.network.WeightsOut = some awo) (hbo : s.network.BiasesOut = some abo)
    (hF : s.heap[af]? = some F) (hWH : s.heap[awh]? = some WH) (hBH : s.heap[abh]? = some BH)
    (hWO : s.heap[awo]? = some WO) (hBO : s.heap[abo]? = some BO) :
    Mem.test exp s (some af) =
      (forwardTrace exp F WH BH WO BO >>= fun t =>
        pure ((some (s.heap.length + 3), none),
          { s with heap := s.heap ++ [t.1, t.2.1, t.2.2.1, t.2.2.2] })) := by
  obtain ⟨h, ⟨st, pwh, pbh, pwo, pbo⟩, f, l, tf, tl⟩ := s
  simp only at hwh hbh hwo hbo hF hWH hBH hWO hBO
  subst hwh hbh hwo hbo
  unfold Mem.test forwardTrace
  rw [if_neg (by simp)]
  simp only [Mem.State.alloc]
  rw [Mem.Mul_eq _ h.length af awh Dense.empty F WH (fresh_at h [Dense.empty] 0 _ rfl)
    (lookup_append _ _ _ _ hF) (lookup_append _ _ _ _ hWH)]
  simp only [bind_assoc, pure_bind]
  apply bind_congr_ok
  intro m1 h1
  have e1 : (h ++ [Dense.empty]).set h.length m1 = h ++ [m1] := by simp
  rw [e1]
  rw [Mem.Apply_eq _ _ h.length h.length m1 m1 (fresh_at h [m1] 0 _ rfl)
    (fresh_at h [m1] 0 _ rfl)]
  simp only [Mem.deref_mk _ _ _ _ _ _ abh BH (lookup_append h [m1] abh BH hBH), bind_assoc,
    pure_bind, ok_bind]
  apply bind_congr_ok
  intro m2 h2
  have e2 : (h ++ [m1]).set h.length m2 = h ++ [m2] := by simp
  rw [e2]
  have n2 : h ++ [m2] ++ [Dense.empty] = h ++ [m2, Dense.empty] := by simp
  have l2 : (h ++ [m2]).length = h.length + 1 := by simp
  rw [n2, l2]
  rw [Mem.Apply_eq _ _ (h.length + 1) h.length Dense.empty m2
    (fresh_at h [m2, Dense.empty] 1 _ rfl) (fresh_at h [m2, Dense.empty] 0 _ rfl)]
  simp only [bind_assoc, pure_bind, ok_bind]
  apply bind_congr_ok
  intro m3 h3
  have e3 : (h ++ [m2, Dense.empty]).set (h.length + 1) m3 = h ++ [m2, m3] := by
    rw [set_fresh]
    rfl
  have n3 : h ++ [m2, m3] ++ [Dense.empty] = h ++ [m2, m3, Dense.empty] := by simp
  have l3 : (h ++ [m2, m3]).length = h.length + 2 := by simp
  rw [e3, n3, l3]
  rw [Mem.Mul_eq _ (h.length + 2) (h.length + 1) awo Dense.empty m3 WO
    (fresh_at h [m2, m3, Dense.empty] 2 _ rfl) (fresh_at h [m2, m3, Dense.empty] 1 _ rfl)
    (lookup_append _ _ _ _ hWO)]
  simp only [bind_assoc, pure_bind, ok_bind]
  apply bind_congr_ok
  intro m4 h4
  have e4 : (h ++ [m2, m3, Dense.empty]).set (h.length + 2) m4 = h ++ [m2, m3, m4] := by
    rw [set_fresh]
    rfl
  rw [e4]
  rw [Mem.Apply_eq _ _ (h.length + 2) (h.length + 2) m4 m4
    (fresh_at h [m2, m3, m4] 2 _ rfl) (fresh_at h [m2, m3, m4] 2 _ rfl)]
  simp only [Mem.deref_mk _ _ _ _ _ _ abo BO (lookup_append h [m2, m3, m4] abo BO hBO),
    bind_assoc, pure_bind, ok_bind]
  apply bind_congr_ok
  intro m5 h5
  have e5 : (h ++ [m2, m3, m4]).set (h.length + 2) m5 = h ++ [m2, m3, m5] := by
    rw [set_fresh]
    rfl
  have n5 : h ++ [m2, m3, m5] ++ [Dense.empty] = h ++ [m2, m3, m5, Dense.empty] := by simp
  have l5 : (h ++ [m2, m3, m5]).length = h.length + 3 := by simp
  rw [e5, n5, l5]
  rw [Mem.Apply_eq _ _ (h.length + 3) (h.length + 2) Dense.empty m5
    (fresh_at h [m2, m3, m5, Dense.empty] 3 _ rfl)
    (fresh_at h [m2, m3, m5, Dense.empty] 2 _ rfl)]
  simp only [bind_assoc, pure_bind, ok_bind]
  apply bind_congr_ok
  intro m6 h6
  have e6 : (h ++ [m2, m3, m5, Dense.empty]).set (h.length + 3) m6 = h ++ [m2, m3, m5, m6] := by
    rw [set_fresh]
    rfl
  rw [e6]

theorem test_eq_forwardTrace (exp : α → α) (settings : NeuralNetworkSettings α)
    (F WH BH WO BO : Dense α) :
    NeuralNetwork.test exp ⟨settings, some WH, some BH, some WO, some BO⟩ F =
      (forwardTrace exp F WH BH WO BO >>= fun t => pure (some t.2.2.2, none)) := by
  unfold NeuralNetwork.test forwardTrace
  simp only [bind_assoc, pure_bind]

omit [LinearOrderedField α] in
theorem Mem.deref_ext (hp l : List (Dense α)) (nw : Mem.NeuralNetwork α) (f lb tf tl : Ptr)
    (p : Ptr) (h : Ptr.allocated hp.length p = true) :
    (Mem.State.mk (hp ++ l) nw f lb tf tl).deref p = (Mem.State.mk hp nw f lb tf tl).deref p := by
  cases p with
  | none => rfl
  | some a =>
    have ha : a < hp.length := by simpa [Ptr.allocated] using h
    simp only [Mem.State.deref]
    rw [List.getElem?_append_left ha]

theorem Mem.validateRows_congr (s1 s2 : Mem.State α) (p1 p2 : Ptr)
    (hl : s1.deref s1.TestLabels = s2.deref s2.TestLabels)
    (hp : s1.deref p1 = s2.deref p2) :
    ∀ (l : List Nat) (st : Nat × Nat),
      Mem.validateRows s1 p1 l st = Mem.validateRows s2 p2 l st
  | [], st => rfl
  | i :: rest, (hits, classes) => by
    unfold Mem.validateRows
    rw [hl, hp]
    simp only [Mem.validateRows_congr s1 s2 p1 p2 hl hp rest]

theorem Mem.validateRows_eq (s : Mem.State α) (p : Ptr) (P TL : Dense α)
    (hl : s.deref s.TestLabels = Except.ok TL) (hp : s.deref p = Except.ok P) :
    ∀ (l : List Nat) (st : Nat × Nat), Mem.validateRows s p l st = NeuralNet.validateRows P TL l st
  | [], st => rfl
  | i :: rest, (hits, classes) => by
    unfold Mem.validateRows NeuralNet.validateRows
    rw [hl, hp]
    simp only [Mem.validateRows_eq s p P TL hl hp rest, ok_bind]

theorem Mem.Validate_eq (exp : α → α) (s : Mem.State α) (af awh abh awo abo : Nat)
    (F WH BH WO BO : Dense α) (htf : s.TestFeatures = some af)
    (hwh : s.network.WeightsHidden = some awh) (hbh : s.network.BiasesHidden = some abh)
    (hwo : s.network.WeightsOut = some awo) (hbo : s.network.BiasesOut = some abo)
    (hF : s.heap[af]? = some F) (hWH : s.heap[awh]? = some WH) (hBH : s.heap[abh]? = some BH)
    (hWO : s.heap[awo]? = some WO) (hBO : s.heap[abo]? = some BO) :
    Mem.Validate exp s =
      (forwardTrace exp F WH BH WO BO >>= fun t =>
        Mem.validateRows { s with heap := s.heap ++ [t.1, t.2.1, t.2.2.1, t.2.2.2] }
          (some (s.heap.length + 3)) (List.range t.2.2.2.rows) (0, 0) >>= fun hc =>
        pure (((hc.1 : α) / (t.2.2.2.rows : α), none),
          { s with heap := s.heap ++ [t.1, t.2.1, t.2.2.1, t.2.2.2] })) := by
  unfold Mem.Validate
  rw [htf, Mem.test_eq exp s af awh abh awo abo F WH BH WO BO hwh hbh hwo hbo hF hWH hBH hWO hBO]
  simp only [bind_assoc, pure_bind]
  apply bind_congr_ok
  intro t ht
  rw [Mem.deref_mk _ _ _ _ _ _ (s.heap.length + 3) t.2.2.2 (fresh_at _ _ 3 _ rfl), ok_bind, htf]

theorem Mem.Validate_of_nil (exp : α → α) (s : Mem.State α)
    (h : s.network.WeightsHidden = none ∨ s.network.WeightsOut = none ∨
      s.network.BiasesHidden = none ∨ s.network.BiasesOut = none) :
    Mem.Validate exp s = Except.ok ((-1, some (GoError.trace
      (GoError.errorf "los pesos y desplamientos deben estar inicializados"))), s) := by
  unfold Mem.Validate Mem.test
  rw [if_pos h]
  rfl

theorem Mem.Validate_nil_features (exp : α → α) (s : Mem.State α)
    (h : ¬ (s.network.WeightsHidden = none ∨ s.network.WeightsOut = none ∨
      s.network.BiasesHidden = none ∨ s.network.BiasesOut = none))
    (htf : s.TestFeatures = none) :
    Mem.Validate exp s = Except.error Panic.nilDereference := by
  unfold Mem.Validate Mem.test
  rw [if_neg h, htf]
  rfl

omit [LinearOrderedField α] in
theorem lookup_of_allocated (hp : List (Dense α)) (a : Nat)
    (h : Ptr.allocated hp.length (some a) = true) : ∃ m, hp[a]? = some m := by
  have ha : a < hp.length := by simpa [Ptr.allocated] using h
  exact ⟨hp[a], List.getElem?_eq_getElem ha⟩

theorem Mem.Validate_frame (exp : α → α) (s s' : Mem.State α) (r : α × Option GoError)
    (hv : s.Valid) (h : Mem.Validate exp s = Except.ok (r, s')) :
    s'.network = s.network ∧ s'.Features = s.Features ∧ s'.Labels = s.Labels ∧
    s'.TestFeatures = s.TestFeatures ∧ s'.TestLabels = s.TestLabels ∧
    (∃ l, s'.heap = s.heap ++ l) ∧
    ∃ s'', Mem.Validate exp s' = Except.ok (r, s'') := by
  by_cases hnil : s.network.WeightsHidden = none ∨ s.network.WeightsOut = none ∨
      s.network.BiasesHidden = none ∨ s.network.BiasesOut = none
  · rw [Mem.Validate_of_nil exp s hnil] at h
    simp only [Except.ok.injEq, Prod.mk.injEq] at h
    obtain ⟨hr, hs⟩ := h
    subst hs
    subst hr
    exact ⟨rfl, rfl, rfl, rfl, rfl, ⟨[], by simp⟩, s, Mem.Validate_of_nil exp s hnil⟩
  · obtain ⟨hp, ⟨st, pwh, pbh, pwo, pbo⟩, f, l, tf, tl⟩ := s
    simp only at hnil
    obtain ⟨vwh, vbh, vwo, vbo, -, -, vtf, vtl⟩ := hv
    simp only at vwh vbh vwo vbo vtf vtl
    cases tf with
    | none =>
      rw [Mem.Validate_nil_features exp _ hnil rfl] at h
      exact Except.noConfusion h
    | some af =>
      cases pwh with
      | none => exact absurd (Or.inl rfl) hnil
      | some awh =>
      cases pwo with
      | none => exact absurd (Or.inr (Or.inl rfl)) hnil
      | some awo =>
      cases pbh with
      | none => exact absurd (Or.inr (Or.inr (Or.inl rfl))) hnil
      | some abh =>
      cases pbo with
      | none => exact absurd (Or.inr (Or.inr (Or.inr rfl))) hnil
      | some abo =>
      obtain ⟨F, hF⟩ := lookup_of_allocated hp af vtf
      obtain ⟨WH, hWH⟩ := lookup_of_allocated hp awh vwh
      obtain ⟨BH, hBH⟩ := lookup_of_allocated hp abh vbh
      obtain ⟨WO, hWO⟩ := lookup_of_allocated hp awo vwo
      obtain ⟨BO, hBO⟩ := lookup_of_allocated hp abo vbo
      rw [Mem.Validate_eq exp _ af awh abh awo abo F WH BH WO BO rfl rfl rfl rfl rfl
        hF hWH hBH hWO hBO] at h
      obtain ⟨t, ht, h⟩ := bind_eq_ok h
      obtain ⟨hc, hhc, h⟩ := bind_eq_ok h
      simp only [pure, Except.pure, Except.ok.injEq, Prod.mk.injEq] at h
      obtain ⟨hr, hs⟩ := h
      subst hs
      subst hr
      refine ⟨rfl, rfl, rfl, rfl, rfl, ⟨_, rfl⟩, ?_⟩
      rw [Mem.Validate_eq exp _ af awh abh awo abo F WH BH WO BO rfl rfl rfl rfl rfl
        (lookup_append _ _ _ _ hF) (lookup_append _ _ _ _ hWH) (lookup_append _ _ _ _ hBH)
        (lookup_append _ _ _ _ hWO) (lookup_append _ _ _ _ hBO), ht, ok_bind]
      simp only
      rw [Mem.validateRows_congr _
        (Mem.State.mk (hp ++ [t.1, t.2.1, t.2.2.1, t.2.2.2]) ⟨st, some awh, some abh, some awo,
          some abo⟩ f l (some af) tl) _ (some (hp.length + 3))
        (Mem.deref_ext _ _ _ _ _ _ _ tl (by
          cases tl with
          | none => rfl
          | some a =>
            have ha : a < hp.length := by simpa [Ptr.allocated] using vtl
            simp only [Ptr.allocated, List.length_append, decide_eq_true_eq]
            omega))
        (by
          rw [Mem.deref_mk _ _ _ _ _ _ _ t.2.2.2 (fresh_at _ _ 3 _ rfl),
            Mem.deref_mk _ _ _ _ _ _ _ t.2.2.2 (fresh_at _ _ 3 _ rfl)]),
        hhc]
      exact ⟨_, rfl⟩

theorem forwardTrace_tabulate (exp : α → α) {N I H O : Nat}
    (x wh bh wo bo : Nat → Nat → α) (hN : 0 < N) (hH : 0 < H) (hO : 0 < O) :
    forwardTrace exp (Dense.tabulate N I x) (Dense.tabulate I H wh) (Dense.tabulate 1 H bh)
        (Dense.tabulate H O wo) (Dense.tabulate 1 O bo) =
      Except.ok
        (Dense.tabulate N H (fun i j => ∑ p in Finset.range I, x i p * wh p j + bh 0 j),
          Dense.tabulate N H (hiddenAt exp I x wh bh),
          Dense.tabulate N O
            (fun i k => ∑ j in Finset.range H, hiddenAt exp I x wh bh i j * wo j k + bo 0 k),
          Dense.tabulate N O (outputAt exp I H x wh bh wo bo)) := by
  unfold forwardTrace
  simp only
  rw [Dense.Mul_ok Dense.empty (Dense.tabulate_asMatrix N I x) (Dense.tabulate_asMatrix I H wh)
    hN hH (Or.inl rfl)]
  simp only [bind, Except.bind]
  rw [Dense.Apply_ok _ _ (fun i j => ∑ p in Finset.range I, x i p * wh p j + bh 0 j)
    (Dense.tabulate_asMatrix N H _)
    (by
      intro i hi j hj
      simp [Dense.tabulate_At 1 H bh Nat.one_pos hj, pure, Except.pure])
    hN hH (Or.inr ⟨rfl, rfl⟩)]
  simp only
  rw [Dense.Apply_ok Dense.empty _ (hiddenAt exp I x wh bh) (Dense.tabulate_asMatrix N H _)
    (by
      intro i hi j hj
      rfl)
    hN hH (Or.inl rfl)]
  simp only
  rw [Dense.Mul_ok Dense.empty (Dense.tabulate_asMatrix N H _) (Dense.tabulate_asMatrix H O wo)
    hN hO (Or.inl rfl)]
  simp only
  rw [Dense.Apply_ok _ _
    (fun i k => ∑ j in Finset.range H, hiddenAt exp I x wh bh i j * wo j k + bo 0 k)
    (Dense.tabulate_asMatrix N O _)
    (by
      intro i hi j hj
      simp [Dense.tabulate_At 1 O bo Nat.one_pos hj, pure, Except.pure])
    hN hO (Or.inr ⟨rfl, rfl⟩)]
  simp only
  rw [Dense.Apply_ok Dense.empty _ (outputAt exp I H x wh bh wo bo)
    (Dense.tabulate_asMatrix N O _)
    (by
      intro i hi j hj
      rfl)
    hN hO (Or.inl rfl)]
  rfl

theorem Validate_eq_forwardTrace (exp : α → α) (settings : NeuralNetworkSettings α)
    (F TL WH BH WO BO : Dense α) :
    NeuralNetwork.Validate exp ⟨settings, some WH, some BH, some WO, some BO⟩ F TL =
      (forwardTrace exp F WH BH WO BO >>= fun t =>
        NeuralNet.validateRows t.2.2.2 TL (List.range t.2.2.2.rows) (0, 0) >>= fun hc =>
        pure ((hc.1 : α) / (t.2.2.2.rows : α), none)) := by
  unfold NeuralNetwork.Validate
  rw [test_eq_forwardTrace]
  simp only [bind_assoc, pure_bind]

/-- The heap run of `Validate` in terms of the by-value one: same returned values, and the
final state is the initial one with the four matrices of `test` appended to the heap. -/
theorem Mem.Validate_by_value (exp : α → α) (s : Mem.State α) (af al awh abh awo abo : Nat)
    (F TL WH BH WO BO : Dense α) (htf : s.TestFeatures = some af)
    (htl : s.TestLabels = some al)
    (hwh : s.network.WeightsHidden = some awh) (hbh : s.network.BiasesHidden = some abh)
    (hwo : s.network.WeightsOut = some awo) (hbo : s.network.BiasesOut = some abo)
    (hF : s.heap[af]? = some F) (hTL : s.heap[al]? = some TL)
    (hWH : s.heap[awh]? = some WH) (hBH : s.heap[abh]? = some BH)
    (hWO : s.heap[awo]? = some WO) (hBO : s.heap[abo]? = some BO)
    (t : Dense α × Dense α × Dense α × Dense α) (r : α × Option GoError)
    (ht : forwardTrace exp F WH BH WO BO = Except.ok t)
    (hr : NeuralNetwork.Validate exp ⟨s.network.Settings, some WH, some BH, some WO, some BO⟩
      F TL = Except.ok r) :
    Mem.Validate exp s =
      Except.ok (r, { s with heap := s.heap ++ [t.1, t.2.1, t.2.2.1, t.2.2.2] }) := by
  rw [Validate_eq_forwardTrace, ht, ok_bind] at hr
  rw [Mem.Validate_eq exp s af awh abh awo abo F WH BH WO BO htf hwh hbh hwo hbo
    hF hWH hBH hWO hBO, ht, ok_bind]
  rw [Mem.validateRows_eq _ (some (s.heap.length + 3)) t.2.2.2 TL
    (by
      simp only [htl]
      exact Mem.deref_mk _ _ _ _ _ _ al TL (lookup_append _ _ _ _ hTL))
    (Mem.deref_mk _ _ _ _ _ _ _ t.2.2.2 (fresh_at _ _ 3 _ rfl))]
  obtain ⟨hc, hhc, hr⟩ := bind_eq_ok hr
  rw [hhc, ok_bind]
  simp only [pure, Except.pure, Except.ok.injEq] at hr ⊢
  rw [← hr]

omit [LinearOrderedField α] in
theorem Ptr.bind_append (hp l : List (Dense α)) (p : Ptr)
    (h : Ptr.allocated hp.length p = true) :
    p.bind (fun a => (hp ++ l)[a]?) = p.bind (fun a => hp[a]?) := by
  cases p with
  | none => rfl
  | some a =>
    have ha : a < hp.length := by simpa [Ptr.allocated] using h
    simp only [Option.some_bind]
    exact List.getElem?_append_left ha

omit [LinearOrderedField α] in
theorem Ptr.allocated_mono {n m : Nat} (hnm : n ≤ m) (p : Ptr)
    (h : Ptr.allocated n p = true) : Ptr.allocated m p = true := by
  cases p with
  | none => rfl
  | some a =>
    have ha : a < n := by simpa [Ptr.allocated] using h
    simp only [Ptr.allocated, decide_eq_true_eq]
    omega

omit [LinearOrderedField α] in
theorem Mem.State.Valid_append (hp l : List (Dense α)) (nw : Mem.NeuralNetwork α)
    (f lb tf tl : Ptr) (hv : (Mem.State.mk hp nw f lb tf tl).Valid) :
    (Mem.State.mk (hp ++ l) nw f lb tf tl).Valid ∧
    (Mem.State.mk (hp ++ l) nw f lb tf tl).view = (Mem.State.mk hp nw f lb tf tl).view := by
  obtain ⟨h1, h2, h3, h4, h5, h6, h7, h8⟩ := hv
  simp only at h1 h2 h3 h4 h5 h6 h7 h8
  have hle : hp.length ≤ (hp ++ l).length := by simp
  refine ⟨⟨Ptr.allocated_mono hle _ h1, Ptr.allocated_mono hle _ h2,
    Ptr.allocated_mono hle _ h3, Ptr.allocated_mono hle _ h4, Ptr.allocated_mono hle _ h5,
    Ptr.allocated_mono hle _ h6, Ptr.allocated_mono hle _ h7, Ptr.allocated_mono hle _ h8⟩, ?_⟩
  simp only [Mem.State.view]
  rw [Ptr.bind_append hp l _ h1, Ptr.bind_append hp l _ h2, Ptr.bind_append hp l _ h3,
    Ptr.bind_append hp l _ h4]

theorem Mem.Validate_fst (exp : α → α) (s : Mem.State α) (F TL : Dense α) (hv : s.Valid)
    (hF : s.deref s.TestFeatures = Except.ok F) (hTL : s.deref s.TestLabels = Except.ok TL) :
    Prod.fst <$> Mem.Validate exp s = s.view.Validate exp F TL := by
  by_cases hnil : s.network.WeightsHidden = none ∨ s.network.WeightsOut = none ∨
      s.network.BiasesHidden = none ∨ s.network.BiasesOut = none
  · rw [Mem.Validate_of_nil exp s hnil, Validate_of_hasNil exp s.view F TL (by
      unfold NeuralNetwork.hasNil Mem.State.view
      rcases hnil with h | h | h | h <;> simp [h])]
    rfl
  · obtain ⟨hp, ⟨st, pwh, pbh, pwo, pbo⟩, f, l, tf, tl⟩ := s
    simp only at hnil hF hTL
    obtain ⟨vwh, vbh, vwo, vbo, -, -, vtf, vtl⟩ := hv
    simp only at vwh vbh vwo vbo vtf vtl
    cases tf with
    | none => exact Except.noConfusion hF
    | some af =>
    cases tl with
    | none => exact Except.noConfusion hTL
    | some al =>
    cases pwh with
    | none => exact absurd (Or.inl rfl) hnil
    | some awh =>
    cases pwo with
    | none => exact absurd (Or.inr (Or.inl rfl)) hnil
    | some awo =>
    cases pbh with
    | none => exact absurd (Or.inr (Or.inr (Or.inl rfl))) hnil
    | some abh =>
    cases pbo with
    | none => exact absurd (Or.inr (Or.inr (Or.inr rfl))) hnil
    | some abo =>
    obtain ⟨F', hF'⟩ := lookup_of_allocated hp af vtf
    obtain ⟨TL', hTL'⟩ := lookup_of_allocated hp al vtl
    obtain ⟨WH, hWH⟩ := lookup_of_allocated hp awh vwh
    obtain ⟨BH, hBH⟩ := lookup_of_allocated hp abh vbh
    obtain ⟨WO, hWO⟩ := lookup_of_allocated hp awo vwo
    obtain ⟨BO, hBO⟩ := lookup_of_allocated hp abo vbo
    rw [Mem.deref_mk _ _ _ _ _ _ af F' hF'] at hF
    rw [Mem.deref_mk _ _ _ _ _ _ al TL' hTL'] at hTL
    simp only [Except.ok.injEq] at hF hTL
    subst hF
    subst hTL
    have hview : (Mem.State.mk hp ⟨st, some awh, some abh, some awo, some abo⟩ f l (some af)
        (some al)).view = ⟨st, some WH, some BH, some WO, some BO⟩ := by
      simp [Mem.State.view, hWH, hBH, hWO, hBO]
    rw [hview, Validate_eq_forwardTrace,
      Mem.Validate_eq exp _ af awh abh awo abo F' WH BH WO BO rfl rfl rfl rfl rfl
        hF' hWH hBH hWO hBO]
    cases ht : forwardTrace exp F' WH BH WO BO with
    | error e => rfl
    | ok t =>
      rw [ok_bind, ok_bind]
      rw [Mem.validateRows_eq _ (some (hp.length + 3)) t.2.2.2 TL'
        (Mem.deref_mk _ _ _ _ _ _ al TL' (lookup_append _ _ _ _ hTL'))
        (Mem.deref_mk _ _ _ _ _ _ _ t.2.2.2 (fresh_at _ _ 3 _ rfl))]
      cases NeuralNet.validateRows t.2.2.2 TL' (List.range t.2.2.2.rows) (0, 0) with
      | error e => rfl
      | ok hc => rfl

end HeapLemmas

/-! ## The activation function over the reals -/

section SigmoidReal

theorem one_add_exp_pos (x : ℝ) : 0 < 1 + Real.exp (-x) := by
  have := Real.exp_pos (-x)
  linarith

theorem Sigmoid_pos (x : ℝ) : 0 < Sigmoid Real.exp x := by
  unfold Sigmoid
  exact div_pos one_pos (one_add_exp_pos x)

theorem Sigmoid_lt_one (x : ℝ) : Sigmoid Real.exp x < 1 := by
  unfold Sigmoid
  rw [div_lt_one (one_add_exp_pos x)]
  have := Real.exp_pos (-x)
  linarith

theorem Sigmoid_strictMono : StrictMono (Sigmoid (Real.exp)) := by
  intro x y hxy
  unfold Sigmoid
  apply one_div_lt_one_div_of_lt (one_add_exp_pos y)
  have : Real.exp (-y) < Real.exp (-x) := Real.exp_lt_exp.mpr (by linarith)
  linarith

theorem Sigmoid_hasDerivAt (z : ℝ) :
    HasDerivAt (Sigmoid Real.exp) (SigmoidPrime (Sigmoid Real.exp z)) z := by
  have hpos := one_add_exp_pos z
  have hne : (1 + Real.exp (-z)) ≠ 0 := ne_of_gt hpos
  have hexp : HasDerivAt (fun x : ℝ => Real.exp (-x)) (Real.exp (-z) * (-1)) z :=
    (Real.hasDerivAt_exp (-z)).comp z (hasDerivAt_neg z)
  have hden : HasDerivAt (fun x : ℝ => 1 + Real.exp (-x)) (Real.exp (-z) * (-1)) z := by
    simpa using hexp.const_add 1
  have hinv := hden.inv hne
  have hfun : Sigmoid Real.exp = fun x : ℝ => (1 + Real.exp (-x))⁻¹ := by
    funext x
    simp [Sigmoid]
  rw [hfun]
  convert hinv using 1
  simp only [SigmoidPrime]
  field_simp
  ring

end SigmoidReal

/-! ## The squared-error loss and its gradient -/

section Gradient

theorem updateEntry_self (w : Nat → Nat → ℝ) (p q : Nat) :
    updateEntry w p q (w p q) = w := by
  funext a b
  unfold updateEntry
  split
  · rename_i h
    rw [h.1, h.2]
  · rfl

theorem updateEntry_hasDerivAt (w : Nat → Nat → ℝ) (p q a b : Nat) (t0 : ℝ) :
    HasDerivAt (fun t => updateEntry w p q t a b) (if a = p ∧ b = q then 1 else 0) t0 := by
  unfold updateEntry
  by_cases h : a = p ∧ b = q
  · simp only [h, and_self, ↓reduceIte]
    exact hasDerivAt_id t0
  · simp only [h, ↓reduceIte]
    exact hasDerivAt_const t0 (w a b)

/-- Chain rule through the network: if every parameter entry moves differentiably with
`t`, the loss does too, with derivative `- sum_i sum_k dO[i][k] * z2'[i][k]`. -/
theorem lossAt_hasDerivAt (N I H O : Nat) (x y : Nat → Nat → ℝ) (W : ℝ → Params ℝ)
    (W' : Params ℝ) (t0 : ℝ)
    (hwh : ∀ a b, HasDerivAt (fun t => (W t).wh a b) (W'.wh a b) t0)
    (hbh : ∀ a b, HasDerivAt (fun t => (W t).bh a b) (W'.bh a b) t0)
    (hwo : ∀ a b, HasDerivAt (fun t => (W t).wo a b) (W'.wo a b) t0)
    (hbo : ∀ a b, HasDerivAt (fun t => (W t).bo a b) (W'.bo a b) t0) :
    HasDerivAt (fun t => lossAt Real.exp N I H O x y (W t))
      (-∑ i in Finset.range N, ∑ k in Finset.range O,
        deltaOutAt Real.exp I H x y (W t0) i k *
          (∑ j in Finset.range H,
            (SigmoidPrime (hiddenAt Real.exp I x (W t0).wh (W t0).bh i j) *
                (∑ p in Finset.range I, x i p * W'.wh p j + W'.bh 0 j) * (W t0).wo j k +
              hiddenAt Real.exp I x (W t0).wh (W t0).bh i j * W'.wo j k) + W'.bo 0 k)) t0 := by
  have hz1 : ∀ i j, HasDerivAt
      (fun t => ∑ p in Finset.range I, x i p * (W t).wh p j + (W t).bh 0 j)
      (∑ p in Finset.range I, x i p * W'.wh p j + W'.bh 0 j) t0 := fun i j =>
    (HasDerivAt.sum (fun p _ => (hwh p j).const_mul (x i p))).add (hbh 0 j)
  have hA : ∀ i j, HasDerivAt (fun t => hiddenAt Real.exp I x (W t).wh (W t).bh i j)
      (SigmoidPrime (hiddenAt Real.exp I x (W t0).wh (W t0).bh i j) *
        (∑ p in Finset.range I, x i p * W'.wh p j + W'.bh 0 j)) t0 := fun i j =>
    (Sigmoid_hasDerivAt _).comp t0 (hz1 i j)
  have hz2 : ∀ i k, HasDerivAt
      (fun t => ∑ j in Finset.range H,
        hiddenAt Real.exp I x (W t).wh (W t).bh i j * (W t).wo j k + (W t).bo 0 k)
      (∑ j in Finset.range H,
        (SigmoidPrime (hiddenAt Real.exp I x (W t0).wh (W t0).bh i j) *
            (∑ p in Finset.range I, x i p * W'.wh p j + W'.bh 0 j) * (W t0).wo j k +
          hiddenAt Real.exp I x (W t0).wh (W t0).bh i j * W'.wo j k) + W'.bo 0 k) t0 :=
    fun i k => (HasDerivAt.sum (fun j _ => (hA i j).mul (hwo j k))).add (hbo 0 k)
  have hO : ∀ i k, HasDerivAt
      (fun t => outputAt Real.exp I H x (W t).wh (W t).bh (W t).wo (W t).bo i k)
      (SigmoidPrime (outputAt Real.exp I H x (W t0).wh (W t0).bh (W t0).wo (W t0).bo i k) *
        (∑ j in Finset.range H,
          (SigmoidPrime (hiddenAt Real.exp I x (W t0).wh (W t0).bh i j) *
              (∑ p in Finset.range I, x i p * W'.wh p j + W'.bh 0 j) * (W t0).wo j k +
            hiddenAt Real.exp I x (W t0).wh (W t0).bh i j * W'.wo j k) + W'.bo 0 k)) t0 :=
    fun i k => (Sigmoid_hasDerivAt _).comp t0 (hz2 i k)
  have hsq : ∀ i k, HasDerivAt
      (fun t => (y i k - outputAt Real.exp I H x (W t).wh (W t).bh (W t).wo (W t).bo i k) ^ 2)
      (((2 : Nat) : ℝ) *
        (y i k - outputAt Real.exp I H x (W t0).wh (W t0).bh (W t0).wo (W t0).bo i k) ^ (2 - 1) *
        -(SigmoidPrime (outputAt Real.exp I H x (W t0).wh (W t0).bh (W t0).wo (W t0).bo i k) *
          (∑ j in Finset.range H,
            (SigmoidPrime (hiddenAt Real.exp I x (W t0).wh (W t0).bh i j) *
                (∑ p in Finset.range I, x i p * W'.wh p j + W'.bh 0 j) * (W t0).wo j k +
              hiddenAt Real.exp I x (W t0).wh (W t0).bh i j * W'.wo j k) + W'.bo 0 k))) t0 :=
    fun i k => ((hO i k).const_sub (y i k)).pow 2
  have hsum := (HasDerivAt.sum (u := Finset.range N) (fun i _ =>
    HasDerivAt.sum (u := Finset.range O) (fun k _ => hsq i k))).const_mul (1 / 2 : ℝ)
  unfold lossAt
  convert hsum using 1
  rw [Finset.mul_sum, ← Finset.sum_neg_distrib]
  apply Finset.sum_congr rfl
  intro i _
  rw [Finset.mul_sum, ← Finset.sum_neg_distrib]
  apply Finset.sum_congr rfl
  intro k _
  unfold deltaOutAt
  norm_num
  ring

theorem sum_mul_indicator (n p : Nat) (hp : p < n) (f : Nat → ℝ) (c : Prop) [Decidable c] :
    ∑ a in Finset.range n, f a * (if a = p ∧ c then 1 else 0) = if c then f p else 0 := by
  by_cases hc : c
  · simp [hc, Finset.sum_ite_eq', hp]
  · simp [hc]

theorem sum_indicator_mul (n p : Nat) (hp : p < n) (f : Nat → ℝ) (c : Prop) [Decidable c] :
    ∑ a in Finset.range n, f a * (if c ∧ a = p then 1 else 0) = if c then f p else 0 := by
  by_cases hc : c
  · simp [hc, Finset.sum_ite_eq', hp]
  · simp [hc]

theorem lossAt_hasDerivAt_wo (N I H O : Nat) (x y : Nat → Nat → ℝ) (wh bh wo bo : Nat → Nat → ℝ)
    (j k : Nat) (hj : j < H) (hk : k < O) :
    HasDerivAt
      (fun t => lossAt Real.exp N I H O x y ⟨wh, bh, updateEntry wo j k t, bo⟩)
      (-∑ i in Finset.range N,
        hiddenAt Real.exp I x wh bh i j * deltaOutAt Real.exp I H x y ⟨wh, bh, wo, bo⟩ i k) (wo j k) := by
  have h := lossAt_hasDerivAt N I H O x y
    (fun t => ⟨wh, bh, updateEntry wo j k t, bo⟩)
    ⟨fun _ _ => 0, fun _ _ => 0, fun a b => if a = j ∧ b = k then 1 else 0, fun _ _ => 0⟩
    (wo j k) (fun a b => hasDerivAt_const _ _) (fun a b => hasDerivAt_const _ _)
    (fun a b => updateEntry_hasDerivAt wo j k a b _) (fun a b => hasDerivAt_const _ _)
  simp only [updateEntry_self] at h
  convert h using 1
  congr 1
  apply Finset.sum_congr rfl
  intro i _
  have hin : ∀ k2, (∑ j2 in Finset.range H,
      (SigmoidPrime (hiddenAt Real.exp I x wh bh i j2) *
          (∑ p in Finset.range I, x i p * (0 : ℝ) + 0) * wo j2 k2 +
        hiddenAt Real.exp I x wh bh i j2 * (if j2 = j ∧ k2 = k then 1 else 0)) + 0) =
      if k2 = k then hiddenAt Real.exp I x wh bh i j else 0 := by
    intro k2
    simp only [mul_zero, Finset.sum_const_zero, add_zero, zero_mul, zero_add]
    exact sum_mul_indicator H j hj _ _
  simp only [hin]
  simp [Finset.sum_ite_eq', hk, mul_comm]

theorem lossAt_hasDerivAt_bo (N I H O : Nat) (x y : Nat → Nat → ℝ) (wh bh wo bo : Nat → Nat → ℝ)
    (k : Nat) (hk : k < O) :
    HasDerivAt
      (fun t => lossAt Real.exp N I H O x y ⟨wh, bh, wo, updateEntry bo 0 k t⟩)
      (-∑ i in Finset.range N, deltaOutAt Real.exp I H x y ⟨wh, bh, wo, bo⟩ i k) (bo 0 k) := by
  have h := lossAt_hasDerivAt N I H O x y
    (fun t => ⟨wh, bh, wo, updateEntry bo 0 k t⟩)
    ⟨fun _ _ => 0, fun _ _ => 0, fun _ _ => 0, fun a b => if a = 0 ∧ b = k then 1 else 0⟩
    (bo 0 k) (fun a b => hasDerivAt_const _ _) (fun a b => hasDerivAt_const _ _)
    (fun a b => hasDerivAt_const _ _) (fun a b => updateEntry_hasDerivAt bo 0 k a b _)
  simp only [updateEntry_self] at h
  convert h using 1
  congr 1
  apply Finset.sum_congr rfl
  intro i _
  simp [Finset.sum_ite_eq', hk]

theorem lossAt_hasDerivAt_wh (N I H O : Nat) (x y : Nat → Nat → ℝ) (wh bh wo bo : Nat → Nat → ℝ)
    (p q : Nat) (hp : p < I) (hq : q < H) :
    HasDerivAt
      (fun t => lossAt Real.exp N I H O x y ⟨updateEntry wh p q t, bh, wo, bo⟩)
      (-∑ i in Finset.range N, x i p * deltaHiddenAt Real.exp I H O x y ⟨wh, bh, wo, bo⟩ i q) (wh p q) := by
  have h := lossAt_hasDerivAt N I H O x y
    (fun t => ⟨updateEntry wh p q t, bh, wo, bo⟩)
    ⟨fun a b => if a = p ∧ b = q then 1 else 0, fun _ _ => 0, fun _ _ => 0, fun _ _ => 0⟩
    (wh p q) (fun a b => updateEntry_hasDerivAt wh p q a b _)
    (fun a b => hasDerivAt_const _ _) (fun a b => hasDerivAt_const _ _)
    (fun a b => hasDerivAt_const _ _)
  simp only [updateEntry_self] at h
  convert h using 1
  congr 1
  apply Finset.sum_congr rfl
  intro i _
  have hin : ∀ j2, (∑ p2 in Finset.range I, x i p2 * (if p2 = p ∧ j2 = q then (1 : ℝ) else 0)
      + 0) = if j2 = q then x i p else 0 := by
    intro j2
    rw [add_zero]
    exact sum_mul_indicator I p hp _ _
  simp only [hin, mul_zero, add_zero]
  have hmid : ∀ k2, (∑ j2 in Finset.range H,
      SigmoidPrime (hiddenAt Real.exp I x wh bh i j2) * (if j2 = q then x i p else 0) *
        wo j2 k2) =
      SigmoidPrime (hiddenAt Real.exp I x wh bh i q) * x i p * wo q k2 := by
    intro k2
    rw [Finset.sum_eq_single_of_mem q (Finset.mem_range.mpr hq)]
    · simp
    · intro b _ hb
      simp [hb]
  simp only [hmid]
  unfold deltaHiddenAt
  rw [Finset.sum_mul, Finset.mul_sum]
  apply Finset.sum_congr rfl
  intro k2 _
  ring

theorem lossAt_hasDerivAt_bh (N I H O : Nat) (x y : Nat → Nat → ℝ) (wh bh wo bo : Nat → Nat → ℝ)
    (q : Nat) (hq : q < H) :
    HasDerivAt
      (fun t => lossAt Real.exp N I H O x y ⟨wh, updateEntry bh 0 q t, wo, bo⟩)
      (-∑ i in Finset.range N, deltaHiddenAt Real.exp I H O x y ⟨wh, bh, wo, bo⟩ i q) (bh 0 q) := by
  have h := lossAt_hasDerivAt N I H O x y
    (fun t => ⟨wh, updateEntry bh 0 q t, wo, bo⟩)
    ⟨fun _ _ => 0, fun a b => if a = 0 ∧ b = q then 1 else 0, fun _ _ => 0, fun _ _ => 0⟩
    (bh 0 q) (fun a b => hasDerivAt_const _ _)
    (fun a b => updateEntry_hasDerivAt bh 0 q a b _) (fun a b => hasDerivAt_const _ _)
    (fun a b => hasDerivAt_const _ _)
  simp only [updateEntry_self] at h
  convert h using 1
  congr 1
  apply Finset.sum_congr rfl
  intro i _
  simp only [mul_zero, Finset.sum_const_zero, zero_add, add_zero, true_and]
  have hmid : ∀ k2, (∑ j2 in Finset.range H,
      SigmoidPrime (hiddenAt Real.exp I x wh bh i j2) * (if j2 = q then (1 : ℝ) else 0) *
        wo j2 k2) =
      SigmoidPrime (hiddenAt Real.exp I x wh bh i q) * wo q k2 := by
    intro k2
    rw [Finset.sum_eq_single_of_mem q (Finset.mem_range.mpr hq)]
    · simp
    · intro b _ hb
      simp [hb]
  simp only [hmid]
  unfold deltaHiddenAt
  rw [Finset.sum_mul]
  apply Finset.sum_congr rfl
  intro k2 _
  ring

end Gradient

/-! ## Loading the data -/

section CsvLemmas

variable {α : Type} [Zero α]

theorem wrapInt32_of_lt {n : Int} (h0 : 0 ≤ n) (h : n < 2 ^ 31) : wrapInt32 n = n := by
  unfold wrapInt32
  omega

omit [Zero α] in
theorem set_append_at (pre : List α) (a v : α) (post : List α) :
    (pre ++ a :: post).set pre.length v = pre ++ v :: post := by
  induction pre with
  | nil => rfl
  | cons b pre ih => simp [ih]

omit [Zero α] in
theorem sliceSet_at (pre : List α) (a v : α) (post : List α) (i : Int)
    (hi : i = (pre.length : Int)) :
    sliceSet (pre ++ a :: post) i v = Except.ok (pre ++ v :: post) := by
  unfold sliceSet
  subst hi
  have hc : (0 : Int) ≤ (pre.length : Int) ∧
      ((pre.length : Int)).toNat < (pre ++ a :: post).length := by
    constructor
    · omega
    · simp
  rw [if_pos hc]
  simp [pure, Except.pure, set_append_at]

omit [Zero α] in
theorem loadRecord_seven (parseFloat : String → Except GoError α)
    (s0 s1 s2 s3 s4 s5 s6 : String) (x0 x1 x2 x3 x4 x5 x6 : α)
    (h0 : parseFloat s0 = Except.ok x0) (h1 : parseFloat s1 = Except.ok x1)
    (h2 : parseFloat s2 = Except.ok x2) (h3 : parseFloat s3 = Except.ok x3)
    (h4 : parseFloat s4 = Except.ok x4) (h5 : parseFloat s5 = Except.ok x5)
    (h6 : parseFloat s6 = Except.ok x6)
    (fpre fpost lpre lpost : List α) (a0 a1 a2 a3 b0 b1 b2 : α)
    (hf : ((fpre.length + 4 : Nat) : Int) < 2 ^ 31)
    (hl : ((lpre.length + 3 : Nat) : Int) < 2 ^ 31) :
    loadRecord parseFloat [s0, s1, s2, s3, s4, s5, s6] 0
        ⟨fpre ++ a0 :: a1 :: a2 :: a3 :: fpost, lpre ++ b0 :: b1 :: b2 :: lpost,
          (fpre.length : Int), (lpre.length : Int)⟩ =
      Except.ok (Except.ok
        ⟨(fpre ++ [x0, x1, x2, x3]) ++ fpost, (lpre ++ [x4, x5, x6]) ++ lpost,
          ((fpre.length + 4 : Nat) : Int), ((lpre.length + 3 : Nat) : Int)⟩) := by
  have w : ∀ n : Nat, ((n + 1 : Nat) : Int) < 2 ^ 31 →
      wrapInt32 ((n : Int) + 1) = ((n + 1 : Nat) : Int) := by
    intro n hn
    rw [wrapInt32_of_lt (by omega) (by omega)]
    omega
  have e0 := sliceSet_at fpre a0 x0 (a1 :: a2 :: a3 :: fpost) (fpre.length : Int) rfl
  have e1 := sliceSet_at (fpre ++ [x0]) a1 x1 (a2 :: a3 :: fpost) ((fpre.length + 1 : Nat) : Int)
    (by simp)
  have e2 := sliceSet_at (fpre ++ [x0, x1]) a2 x2 (a3 :: fpost) ((fpre.length + 2 : Nat) : Int)
    (by simp)
  have e3 := sliceSet_at (fpre ++ [x0, x1, x2]) a3 x3 fpost ((fpre.length + 3 : Nat) : Int)
    (by simp)
  have g0 := sliceSet_at lpre b0 x4 (b1 :: b2 :: lpost) (lpre.length : Int) rfl
  have g1 := sliceSet_at (lpre ++ [x4]) b1 x5 (b2 :: lpost) ((lpre.length + 1 : Nat) : Int)
    (by simp)
  have g2 := sliceSet_at (lpre ++ [x4, x5]) b2 x6 lpost ((lpre.length + 2 : Nat) : Int)
    (by simp)
  simp only [List.append_assoc, List.singleton_append, List.cons_append, List.nil_append]
    at e0 e1 e2 e3 g0 g1 g2 ⊢
  have w1 := w fpre.length (by omega)
  have w2 := w (fpre.length + 1) (by omega)
  have w3 := w (fpre.length + 2) (by omega)
  have w4 := w (fpre.length + 3) (by omega)
  have v1 := w lpre.length (by omega)
  have v2 := w (lpre.length + 1) (by omega)
  have v3 := w (lpre.length + 2) (by omega)
  simp only [loadRecord, h0, h1, h2, h3, h4, h5, h6, e0, e1, e2, e3, g0, g1, g2, w1, w2, w3, w4,
    v1, v2, v3, ok_bind, Nat.zero_add, Nat.reduceAdd, Nat.reduceLeDiff, Nat.le_refl, and_self,
    and_true, true_and, ↓reduceIte, Nat.not_succ_le_zero, false_and, Nat.reduceLeDiff,
    Nat.add_assoc]
  rfl

omit [Zero α] in
theorem parsed_seven (parseFloat : String → Except GoError α) (record : List String)
    (xs : List α) (hlen : xs.length = 7)
    (h : List.Forall₂ (fun s x => parseFloat s = Except.ok x) record xs) :
    ∃ s0 s1 s2 s3 s4 s5 s6 x0 x1 x2 x3 x4 x5 x6,
      record = [s0, s1, s2, s3, s4, s5, s6] ∧ xs = [x0, x1, x2, x3, x4, x5, x6] ∧
      parseFloat s0 = Except.ok x0 ∧ parseFloat s1 = Except.ok x1 ∧
      parseFloat s2 = Except.ok x2 ∧ parseFloat s3 = Except.ok x3 ∧
      parseFloat s4 = Except.ok x4 ∧ parseFloat s5 = Except.ok x5 ∧
      parseFloat s6 = Except.ok x6 := by
  have hrl : record.length = 7 := by rw [h.length_eq, hlen]
  match record, xs, hrl, hlen, h with
  | [s0, s1, s2, s3, s4, s5, s6], [x0, x1, x2, x3, x4, x5, x6], _, _, h =>
    simp only [List.forall₂_cons, List.forall₂_nil_left_iff, and_true] at h
    exact ⟨s0, s1, s2, s3, s4, s5, s6, x0, x1, x2, x3, x4, x5, x6, rfl, rfl, h.1, h.2.1,
      h.2.2.1, h.2.2.2.1, h.2.2.2.2.1, h.2.2.2.2.2.1, h.2.2.2.2.2.2⟩

theorem loadRecords_parsed (parseFloat : String → Except GoError α) :
    ∀ (recs : List (List String)) (vals : List (List α)),
      ParsedRecords parseFloat recs vals →
      ∀ (i : Nat) (fpre fpost lpre lpost : List α), i ≠ 0 →
        ((fpre.length + 4 * recs.length : Nat) : Int) < 2 ^ 31 →
        ((lpre.length + 3 * recs.length : Nat) : Int) < 2 ^ 31 →
        loadRecords parseFloat recs i
            ⟨fpre ++ (List.replicate (4 * recs.length) 0 ++ fpost),
              lpre ++ (List.replicate (3 * recs.length) 0 ++ lpost),
              (fpre.length : Int), (lpre.length : Int)⟩ =
          Except.ok (Except.ok
            ⟨fpre ++ ((vals.map (List.take 4)).flatten ++ fpost),
              lpre ++ ((vals.map (List.drop 4)).flatten ++ lpost),
              ((fpre.length + 4 * recs.length : Nat) : Int),
              ((lpre.length + 3 * recs.length : Nat) : Int)⟩)
  | [], vals, h, i, fpre, fpost, lpre, lpost, _, _, _ => by
    cases h
    simp [loadRecords, pure, Except.pure]
  | record :: recs, vals, h, i, fpre, fpost, lpre, lpost, hi, hf, hl => by
    cases h with
    | cons hhead htail =>
      rename_i xs vals
      obtain ⟨s0, s1, s2, s3, s4, s5, s6, x0, x1, x2, x3, x4, x5, x6, rfl, rfl, h0, h1, h2, h3,
        h4, h5, h6⟩ := parsed_seven parseFloat record xs hhead.1 hhead.2
      have hrepf : List.replicate (4 * (recs.length + 1)) (0 : α) =
          0 :: 0 :: 0 :: 0 :: List.replicate (4 * recs.length) 0 := by
        rw [show 4 * (recs.length + 1) = 4 * recs.length + 1 + 1 + 1 + 1 by omega]
        simp only [List.replicate_succ]
      have hrepl : List.replicate (3 * (recs.length + 1)) (0 : α) =
          0 :: 0 :: 0 :: List.replicate (3 * recs.length) 0 := by
        rw [show 3 * (recs.length + 1) = 3 * recs.length + 1 + 1 + 1 by omega]
        simp only [List.replicate_succ]
      simp only [List.length_cons] at hf hl ⊢
      unfold loadRecords
      rw [if_neg hi, hrepf, hrepl]
      simp only [List.cons_append]
      rw [loadRecord_seven parseFloat s0 s1 s2 s3 s4 s5 s6 x0 x1 x2 x3 x4 x5 x6 h0 h1 h2 h3 h4
        h5 h6 fpre _ lpre _ 0 0 0 0 0 0 0 (by omega) (by omega)]
      simp only [ok_bind]
      have ih := loadRecords_parsed parseFloat recs vals htail (i + 1)
        (fpre ++ [x0, x1, x2, x3]) fpost (lpre ++ [x4, x5, x6]) lpost (by omega)
        (by simp only [List.length_append, List.length_cons, List.length_nil]; omega)
        (by simp only [List.length_append, List.length_cons, List.length_nil]; omega)
      simp only [List.length_append, List.length_cons, List.length_nil, Nat.zero_add,
        Nat.reduceAdd, Nat.cast_add, Nat.cast_ofNat] at ih
      simp only [Nat.cast_add, Nat.cast_ofNat]
      rw [ih]
      simp only [List.map_cons, List.flatten_cons, List.take, List.drop, List.append_assoc,
        List.cons_append, List.nil_append, Nat.cast_mul, Nat.cast_add, Nat.cast_ofNat,
        Nat.cast_one]
      congr 3 <;> ring

omit [Zero α] in
theorem ParsedRecords.lengths {parseFloat : String → Except GoError α}
    {recs : List (List String)} {vals : List (List α)}
    (h : List.Forall₂ (fun record xs => xs.length = 7 ∧
      List.Forall₂ (fun s x => parseFloat s = Except.ok x) record xs) recs vals) :
    recs.length = vals.length ∧ (∀ r ∈ recs, r.length = 7) ∧ (∀ xs ∈ vals, xs.length = 7) := by
  induction h with
  | nil => simp
  | cons hhead _ ih =>
    refine ⟨by simp [ih.1], ?_, ?_⟩
    · intro r hr
      rcases List.mem_cons.mp hr with h | h
      · rw [h, hhead.2.length_eq, hhead.1]
      · exact ih.2.1 r h
    · intro xs hxs
      rcases List.mem_cons.mp hxs with h | h
      · rw [h, hhead.1]
      · exact ih.2.2 xs h

omit [Zero α] in
theorem flatten_length_chunks (c : Nat) :
    ∀ L : List (List α), (∀ l ∈ L, l.length = c) → L.flatten.length = L.length * c
  | [], _ => by simp
  | l :: L, h => by
    rw [List.flatten_cons, List.length_append, h l (List.mem_cons_self _ _),
      flatten_length_chunks c L (fun x hx => h x (List.mem_cons_of_mem _ hx)),
      List.length_cons]
    ring

omit [Zero α] in
theorem flatten_chunk_getElem (c : Nat) (rest : List α) :
    ∀ (L : List (List α)), (∀ l ∈ L, l.length = c) → ∀ (k : Nat), k < L.length →
      ∀ (j : Nat), j < c → (L.flatten ++ rest)[k * c + j]? = (L.getD k [])[j]?
  | [], _, k, hk, _, _ => by simp at hk
  | l :: L, h, 0, _, j, hj => by
    have hl : l.length = c := h l (List.mem_cons_self _ _)
    simp only [Nat.zero_mul, Nat.zero_add, List.flatten_cons, List.append_assoc,
      List.getD_cons_zero]
    rw [List.getElem?_append_left (by omega)]
  | l :: L, h, k + 1, hk, j, hj => by
    have hl : l.length = c := h l (List.mem_cons_self _ _)
    simp only [List.flatten_cons, List.append_assoc, List.getD_cons_succ]
    rw [List.getElem?_append_right (by rw [hl]; nlinarith)]
    have hidx : (k + 1) * c + j - l.length = k * c + j := by
      rw [hl, Nat.add_mul, Nat.one_mul]
      omega
    rw [hidx]
    exact flatten_chunk_getElem c rest L (fun x hx => h x (List.mem_cons_of_mem _ hx)) k
      (by simpa using hk) j hj

omit [Zero α] in
theorem range_map_getD_eq (z : α) : ∀ (n : Nat) (l : List α), l.length = n →
    (List.range n).map (fun j => l.getD j z) = l := by
  intro n l hl
  apply List.ext_getElem
  · simp [hl]
  · intro i h1 h2
    simp [List.getD_eq_getElem?_getD, List.getElem?_eq_getElem h2]

omit [Zero α] in
theorem matRow_of_data (r c k : Nat) (data row : List α) (hk : k < r) (hrow : row.length = c)
    (h : ∀ j, j < c → data[k * c + j]? = row[j]?) :
    matRow k (⟨r, c, data⟩ : Dense α).asMatrix = Except.ok row := by
  unfold matRow
  have h1 : ¬ (⟨r, c, data⟩ : Dense α).asMatrix.rows ≤ k := by
    simp [Dense.asMatrix, hk]
  rw [if_neg h1]
  cases row with
  | nil =>
    subst hrow
    rfl
  | cons z zs =>
    rw [mapGo_ok _ (fun j => (z :: zs).getD j z)]
    · exact congrArg Except.ok (range_map_getD_eq z c (z :: zs) hrow)
    · intro j hj
      have hj2 : j < c := List.mem_range.mp hj
      have hj3 : j < (z :: zs).length := by omega
      simp only [Dense.asMatrix, Dense.elem, h j hj2, List.getD_eq_getElem?_getD,
        List.getElem?_eq_getElem hj3, Option.getD_some, pure, Except.pure]

theorem loadDataFromCSV_parsed (parseFloat : String → Except GoError α)
    (header : List String) (recs : List (List String)) (vals : List (List α))
    (hheader : header.length = 7) (hp : ParsedRecords parseFloat recs vals)
    (hsize : ((4 * (recs.length + 1) : Nat) : Int) < 2 ^ 31) :
    loadDataFromCSV parseFloat (Except.ok (header :: recs)) =
      Except.ok
        (some ⟨recs.length + 1, 4, (vals.map (List.take 4)).flatten ++ List.replicate 4 0⟩,
          some ⟨recs.length + 1, 3, (vals.map (List.drop 4)).flatten ++ List.replicate 3 0⟩,
          none) := by
  obtain ⟨hlen, hrecs, hvals⟩ := ParsedRecords.lengths hp
  have hall : (header :: recs).all (fun record => record.length == 7) = true := by
    simp only [List.all_cons, List.all_eq_true, Bool.and_eq_true, beq_iff_eq]
    exact ⟨hheader, hrecs⟩
  have hft : ((vals.map (List.take 4)).flatten).length = 4 * recs.length := by
    rw [flatten_length_chunks 4 _ (by
      intro l hl
      obtain ⟨xs, hxs, rfl⟩ := List.mem_map.mp hl
      rw [List.length_take, hvals xs hxs]
      rfl)]
    rw [List.length_map, hlen, Nat.mul_comm]
  have hlt : ((vals.map (List.drop 4)).flatten).length = 3 * recs.length := by
    rw [flatten_length_chunks 3 _ (by
      intro l hl
      obtain ⟨xs, hxs, rfl⟩ := List.mem_map.mp hl
      rw [List.length_drop, hvals xs hxs])]
    rw [List.length_map, hlen, Nat.mul_comm]
  unfold loadDataFromCSV csvReadAll
  simp only [hall, ↓reduceIte, List.length_cons]
  have hm : ∀ n : Nat, (makeSlice (n : Int) : Go (List α)) =
      Except.ok (List.replicate n 0) := by
    intro n
    unfold makeSlice
    have : ¬ ((n : Int) < 0) := by omega
    rw [if_neg this]
    simp [pure, Except.pure]
  have hw4 : wrapInt64 (4 * ((recs.length + 1 : Nat) : Int)) =
      ((4 * recs.length + 4 : Nat) : Int) := by
    rw [wrapInt64_of_lt (by omega) (by omega)]
    omega
  have hw3 : wrapInt64 (3 * ((recs.length + 1 : Nat) : Int)) =
      ((3 * recs.length + 3 : Nat) : Int) := by
    rw [wrapInt64_of_lt (by omega) (by omega)]
    omega
  rw [hw4, hw3, hm, hm]
  simp only [ok_bind]
  unfold loadRecords
  simp only [↓reduceIte, Nat.zero_add]
  have hl := loadRecords_parsed parseFloat recs vals hp 1 [] (List.replicate 4 0) []
    (List.replicate 3 0) (by decide)
    (by simp only [List.length_nil]; omega) (by simp only [List.length_nil]; omega)
  simp only [List.nil_append, List.length_nil, Nat.zero_add, Nat.cast_zero,
    ← List.replicate_add] at hl
  rw [hl, ok_bind]
  have hn4 : NewDense ((recs.length + 1 : Nat) : Int) 4
      ((vals.map (List.take 4)).flatten ++ List.replicate 4 (0 : α)) =
      Except.ok ⟨recs.length + 1, 4, (vals.map (List.take 4)).flatten ++ List.replicate 4 0⟩ := by
    unfold NewDense
    have c1 : ¬ (((recs.length + 1 : Nat) : Int) ≤ 0 ∨ (4 : Int) ≤ 0) := by omega
    rw [if_neg c1]
    have c2 : ¬ (wrapInt64 (((recs.length + 1 : Nat) : Int) * 4) ≠
        ((((vals.map (List.take 4)).flatten ++ List.replicate 4 (0 : α)).length : Nat) : Int)) := by
      rw [wrapInt64_of_lt (by omega) (by omega), List.length_append, hft,
        List.length_replicate]
      omega
    rw [if_neg c2]
    rfl
  have hn3 : NewDense ((recs.length + 1 : Nat) : Int) 3
      ((vals.map (List.drop 4)).flatten ++ List.replicate 3 (0 : α)) =
      Except.ok ⟨recs.length + 1, 3, (vals.map (List.drop 4)).flatten ++ List.replicate 3 0⟩ := by
    unfold NewDense
    have c1 : ¬ (((recs.length + 1 : Nat) : Int) ≤ 0 ∨ (3 : Int) ≤ 0) := by omega
    rw [if_neg c1]
    have c2 : ¬ (wrapInt64 (((recs.length + 1 : Nat) : Int) * 3) ≠
        ((((vals.map (List.drop 4)).flatten ++ List.replicate 3 (0 : α)).length : Nat) : Int)) := by
      rw [wrapInt64_of_lt (by omega) (by omega), List.length_append, hlt,
        List.length_replicate]
      omega
    rw [if_neg c2]
    rfl
  simp only
  rw [hn4, ok_bind, hn3]
  rfl

omit [Zero α] in
theorem map_getD_of_lt (f : List α → List α) (vals : List (List α)) (k : Nat)
    (hk : k < vals.length) : (vals.map f).getD k [] = f vals[k] := by
  simp [List.getD_eq_getElem?_getD, List.getElem?_eq_getElem hk]

theorem loaded_rows (vals : List (List α)) (hvals : ∀ xs ∈ vals, xs.length = 7) (N : Nat)
    (hN : vals.length = N) :
    (∀ k (hk : k < vals.length),
      matRow k (⟨N + 1, 4, (vals.map (List.take 4)).flatten ++ List.replicate 4 0⟩ :
          Dense α).asMatrix = Except.ok ((vals[k]).take 4) ∧
      matRow k (⟨N + 1, 3, (vals.map (List.drop 4)).flatten ++ List.replicate 3 0⟩ :
          Dense α).asMatrix = Except.ok ((vals[k]).drop 4)) ∧
    matRow N (⟨N + 1, 4, (vals.map (List.take 4)).flatten ++ List.replicate 4 0⟩ :
        Dense α).asMatrix = Except.ok [0, 0, 0, 0] ∧
    matRow N (⟨N + 1, 3, (vals.map (List.drop 4)).flatten ++ List.replicate 3 0⟩ :
        Dense α).asMatrix = Except.ok [0, 0, 0] := by
  have h4 : ∀ l ∈ vals.map (List.take 4), l.length = 4 := by
    intro l hl
    obtain ⟨xs, hxs, rfl⟩ := List.mem_map.mp hl
    rw [List.length_take, hvals xs hxs]
    rfl
  have h3 : ∀ l ∈ vals.map (List.drop 4), l.length = 3 := by
    intro l hl
    obtain ⟨xs, hxs, rfl⟩ := List.mem_map.mp hl
    rw [List.length_drop, hvals xs hxs]
  have hf4 := flatten_length_chunks 4 _ h4
  have hf3 := flatten_length_chunks 3 _ h3
  rw [List.length_map, hN] at hf4 hf3
  refine ⟨?_, ?_, ?_⟩
  · intro k hk
    have hxs : (vals[k]).length = 7 := hvals _ (List.getElem_mem _)
    constructor
    · apply matRow_of_data _ _ _ _ _ (by omega) (by rw [List.length_take, hxs]; rfl)
      intro j hj
      rw [flatten_chunk_getElem 4 _ _ h4 k (by simpa using hk) j hj,
        map_getD_of_lt _ vals k hk]
    · apply matRow_of_data _ _ _ _ _ (by omega) (by rw [List.length_drop, hxs])
      intro j hj
      rw [flatten_chunk_getElem 3 _ _ h3 k (by simpa using hk) j hj,
        map_getD_of_lt _ vals k hk]
  · refine matRow_of_data (N + 1) 4 N _ [0, 0, 0, 0] (by omega) rfl ?_
    intro j hj
    rw [List.getElem?_append_right (by rw [hf4]; omega), hf4]
    have hidx : N * 4 + j - N * 4 = j := by omega
    rw [hidx]
    interval_cases j <;> rfl
  · refine matRow_of_data (N + 1) 3 N _ [0, 0, 0] (by omega) rfl ?_
    intro j hj
    rw [List.getElem?_append_right (by rw [hf3]; omega), hf3]
    have hidx : N * 3 + j - N * 3 = j := by omega
    rw [hidx]
    interval_cases j <;> rfl

end CsvLemmas

/-! ## `Sigmoid` in `float64` arithmetic: rounding lemmas -/

section F64Lemmas

theorem F64.roundHalfEven_cases (t : ℚ) :
    F64.roundHalfEven t = ⌊t⌋ ∨ (F64.roundHalfEven t = ⌊t⌋ + 1 ∧ (1 : ℚ) / 2 ≤ t - ⌊t⌋) := by
  unfold F64.roundHalfEven
  split_ifs with h1 h2 h3
  · exact Or.inl rfl
  · exact Or.inr ⟨rfl, le_of_lt h2⟩
  · exact Or.inl rfl
  · exact Or.inr ⟨rfl, not_lt.mp h1⟩

theorem F64.le_roundHalfEven (k : Int) (t : ℚ) (h : (k : ℚ) ≤ t) : k ≤ F64.roundHalfEven t := by
  have hk : k ≤ ⌊t⌋ := Int.le_floor.mpr h
  rcases F64.roundHalfEven_cases t with h1 | ⟨h1, _⟩ <;> omega

theorem F64.roundHalfEven_le (k : Int) (t : ℚ) (h : t ≤ (k : ℚ)) : F64.roundHalfEven t ≤ k := by
  have hf : ⌊t⌋ ≤ k := by
    have := Int.floor_le t
    exact_mod_cast (this.trans h)
  rcases F64.roundHalfEven_cases t with h1 | ⟨h1, h2⟩
  · omega
  · have hlt : (⌊t⌋ : ℚ) < k := by linarith
    have : ⌊t⌋ < k := by exact_mod_cast hlt
    omega

theorem F64.roundHalfEven_even_half (n : Int) (t : ℚ) (hn : n % 2 = 0) (h1 : (n : ℚ) ≤ t)
    (h2 : t ≤ n + 1 / 2) : F64.roundHalfEven t = n := by
  have hf : ⌊t⌋ = n := by
    rw [Int.floor_eq_iff]
    constructor
    · exact h1
    · linarith
  unfold F64.roundHalfEven
  rw [hf]
  split_ifs with h3 h4
  · rfl
  · exfalso
    linarith
  · rfl

theorem F64.log_eq_of_bounds (q : ℚ) (e : Int) (h1 : (2 : ℚ) ^ e ≤ q)
    (h2 : q < (2 : ℚ) ^ (e + 1)) : Int.log 2 q = e := by
  have ha : e ≤ Int.log 2 q := (Int.zpow_le_iff_le_log (by norm_num) (by
    have : (0 : ℚ) < 2 ^ e := by positivity
    linarith)).mp h1
  have hb : Int.log 2 q < e + 1 := (Int.lt_zpow_iff_log_lt (by norm_num) (by
    have : (0 : ℚ) < 2 ^ e := by positivity
    linarith)).mp h2
  omega

/-- Rounding `1 + y` for `0 ≤ y ≤ 2^-53` gives `1`. -/
theorem F64.round_one_add (y : ℚ) (h0 : 0 ≤ y) (h1 : y ≤ 1 / 2 ^ 53) :
    F64.round (1 + y) = F64.finite 1 := by
  have hq : (1 : ℚ) + y ≠ 0 := by linarith
  have habs : |(1 : ℚ) + y| = 1 + y := abs_of_pos (by linarith)
  have hlog : Int.log 2 (1 + y) = 0 := by
    apply F64.log_eq_of_bounds
    · norm_num
      exact h0
    · norm_num
      have : (1 : ℚ) / 2 ^ 53 < 1 := by norm_num
      linarith
  unfold F64.round F64.roundToPrecision
  rw [if_neg hq]
  simp only [habs, hlog]
  have hmax : max (0 : Int) (-1022) = 0 := by decide
  rw [hmax]
  have hr : F64.roundHalfEven ((1 + y) / 2 ^ ((0 : Int) - 52)) = 2 ^ 52 := by
    apply F64.roundHalfEven_even_half
    · norm_num
    · have : ((0 : Int) - 52) = -52 := by norm_num
      rw [this, zpow_neg]
      norm_num
      have : (0:ℚ) ≤ y * 2 ^ 52 := by positivity
      linarith
    · have : ((0 : Int) - 52) = -52 := by norm_num
      rw [this, zpow_neg]
      norm_num
      have : y * 2 ^ 52 ≤ 1 / 2 ^ 53 * 2 ^ 52 := by
        apply mul_le_mul_of_nonneg_right h1 (by positivity)
      norm_num at this
      linarith
  rw [hr]
  have hval : (((2 ^ 52 : Int)) : ℚ) * 2 ^ ((0 : Int) - 52) = 1 := by
    have : ((0 : Int) - 52) = -52 := by norm_num
    rw [this, zpow_neg]
    norm_num
  rw [hval]
  norm_num

theorem F64.pow52_mul (e : Int) : ((2 ^ 52 : Int) : ℚ) * 2 ^ (e - 52) = 2 ^ e := by
  rw [zpow_sub₀ (by norm_num : (2 : ℚ) ≠ 0)]
  push_cast
  rw [mul_div_assoc']
  rw [div_eq_iff (by positivity)]
  rw [mul_comm]
  norm_num

/-- Rounding a rational `q ≥ 1` gives `+Inf` or a finite value `≥ 1`. -/
theorem F64.round_of_one_le (q : ℚ) (h : 1 ≤ q) :
    F64.round q = F64.posInf ∨ ∃ s : ℚ, F64.round q = F64.finite s ∧ 1 ≤ s := by
  have hq : q ≠ 0 := by linarith
  have hpos : 0 < q := by linarith
  have habs : |q| = q := abs_of_pos hpos
  have hlog : 0 ≤ Int.log 2 q :=
    (Int.zpow_le_iff_le_log (by norm_num) hpos).mp (by simpa using h)
  have hmax : max (Int.log 2 q) (-1022) = Int.log 2 q := max_eq_left (by omega)
  have hpow : (2 : ℚ) ^ Int.log 2 q ≤ q := Int.zpow_log_le_self (by norm_num) hpos
  have hu : (0 : ℚ) < 2 ^ (Int.log 2 q - 52) := by positivity
  have hk : ((2 ^ 52 : Int) : ℚ) ≤ q / 2 ^ (Int.log 2 q - 52) := by
    rw [le_div_iff₀ hu]
    rw [F64.pow52_mul]
    exact hpow
  have hn := F64.le_roundHalfEven _ _ hk
  have hr : (1 : ℚ) ≤ (F64.roundHalfEven (q / 2 ^ (Int.log 2 q - 52)) : ℚ) *
      2 ^ (Int.log 2 q - 52) := by
    have h1 : ((2 ^ 52 : Int) : ℚ) * 2 ^ (Int.log 2 q - 52) ≤
        (F64.roundHalfEven (q / 2 ^ (Int.log 2 q - 52)) : ℚ) * 2 ^ (Int.log 2 q - 52) :=
      mul_le_mul_of_nonneg_right (by exact_mod_cast hn) hu.le
    have h2 : ((2 ^ 52 : Int) : ℚ) * 2 ^ (Int.log 2 q - 52) = 2 ^ Int.log 2 q :=
      F64.pow52_mul _
    have h3 : (1 : ℚ) ≤ 2 ^ Int.log 2 q := one_le_zpow₀ (by norm_num) hlog
    exact h3.trans (le_of_eq_of_le h2.symm h1)
  unfold F64.round F64.roundToPrecision
  rw [if_neg hq]
  simp only [habs, hmax]
  split_ifs with h1 h2
  · exact Or.inl rfl
  · exfalso
    have : (0 : ℚ) < 2 ^ 1024 := by positivity
    linarith
  · exact Or.inr ⟨_, rfl, hr⟩

/-- Rounding a rational in `(0, 1]` gives a finite value in `[0, 1]`. -/
theorem F64.round_of_le_one (q : ℚ) (h0 : 0 < q) (h1 : q ≤ 1) :
    ∃ r : ℚ, F64.round q = F64.finite r ∧ 0 ≤ r ∧ r ≤ 1 := by
  have hq : q ≠ 0 := by linarith
  have habs : |q| = q := abs_of_pos h0
  have hlog : Int.log 2 q ≤ 0 := by
    have := Int.log_mono_right (b := 2) h0 h1
    simpa using this
  obtain ⟨e, he, hle⟩ : ∃ e : Int, max (Int.log 2 q) (-1022) = e ∧ e ≤ 0 :=
    ⟨_, rfl, max_le hlog (by norm_num)⟩
  have hu : (0 : ℚ) < 2 ^ (e - 52) := by positivity
  obtain ⟨k, hk⟩ : ∃ k : Nat, (52 - e) = (k : Int) := ⟨(52 - e).toNat, by omega⟩
  have hone : ((2 ^ k : Int) : ℚ) * 2 ^ (e - 52) = 1 := by
    have : e - 52 = -(k : Int) := by omega
    rw [this, zpow_neg, zpow_natCast]
    push_cast
    field_simp
  have hup : F64.roundHalfEven (q / 2 ^ (e - 52)) ≤ 2 ^ k := by
    apply F64.roundHalfEven_le
    rw [div_le_iff₀ hu, hone]
    exact h1
  have hlo : (0 : Int) ≤ F64.roundHalfEven (q / 2 ^ (e - 52)) := by
    apply F64.le_roundHalfEven
    simp only [Int.cast_zero]
    positivity
  have hr0 : (0 : ℚ) ≤ (F64.roundHalfEven (q / 2 ^ (e - 52)) : ℚ) * 2 ^ (e - 52) :=
    mul_nonneg (by exact_mod_cast hlo) hu.le
  have hr1 : (F64.roundHalfEven (q / 2 ^ (e - 52)) : ℚ) * 2 ^ (e - 52) ≤ 1 := by
    rw [← hone]
    exact mul_le_mul_of_nonneg_right (by exact_mod_cast hup) hu.le
  unfold F64.round F64.roundToPrecision
  rw [if_neg hq]
  simp only [habs, he]
  split_ifs with h2 h3
  · exfalso
    have : (1 : ℚ) < 2 ^ 1024 := by norm_num
    linarith
  · exfalso
    have : (0 : ℚ) < 2 ^ 1024 := by positivity
    linarith
  · exact ⟨_, rfl, hr0, hr1⟩

theorem F64.round_two : F64.round 2 = F64.finite 2 := by
  have hlog : Int.log 2 (2 : ℚ) = 1 := by
    apply F64.log_eq_of_bounds <;> norm_num
  unfold F64.round F64.roundToPrecision
  rw [if_neg (by norm_num)]
  simp only [abs_of_pos (show (0 : ℚ) < 2 by norm_num), hlog]
  have hmax : max (1 : Int) (-1022) = 1 := by decide
  rw [hmax]
  have h51 : ((1 : Int) - 52) = -51 := by norm_num
  rw [h51]
  have hr : F64.roundHalfEven (2 / 2 ^ (-51 : Int)) = 2 ^ 52 := by
    apply F64.roundHalfEven_even_half
    · norm_num
    · rw [zpow_neg]
      norm_num
    · rw [zpow_neg]
      norm_num
  rw [hr]
  have hval : (((2 ^ 52 : Int)) : ℚ) * 2 ^ (-51 : Int) = 2 := by
    rw [zpow_neg]
    norm_num
  rw [hval]
  norm_num

theorem F64.round_half : F64.round (1 / 2) = F64.finite (1 / 2) := by
  have hlog : Int.log 2 (1 / 2 : ℚ) = -1 := by
    apply F64.log_eq_of_bounds
    · rw [zpow_neg]
      norm_num
    · norm_num
  unfold F64.round F64.roundToPrecision
  rw [if_neg (by norm_num)]
  simp only [abs_of_pos (show (0 : ℚ) < 1 / 2 by norm_num), hlog]
  have hmax : max (-1 : Int) (-1022) = -1 := by decide
  rw [hmax]
  have h53 : ((-1 : Int) - 52) = -53 := by norm_num
  rw [h53]
  have hr : F64.roundHalfEven (1 / 2 / 2 ^ (-53 : Int)) = 2 ^ 52 := by
    apply F64.roundHalfEven_even_half
    · norm_num
    · rw [zpow_neg]
      norm_num
    · rw [zpow_neg]
      norm_num
  rw [hr]
  have hval : (((2 ^ 52 : Int)) : ℚ) * 2 ^ (-53 : Int) = 1 / 2 := by
    rw [zpow_neg]
    norm_num
  rw [hval]
  norm_num

theorem F64.div_finite (a b : ℚ) (hb : b ≠ 0) :
    F64.div (F64.finite a) (F64.finite b) = F64.round (a / b) := by
  simp [F64.div, hb]

theorem F64.Sigmoid_zero (exp : F64 → F64) (hexp : F64.ExpContract exp) :
    F64.Sigmoid exp (F64.finite 0) = F64.finite (1 / 2) := by
  have hneg : F64.neg (F64.finite 0) = F64.finite 0 := by simp [F64.neg]
  unfold F64.Sigmoid
  rw [hneg, hexp.exp_zero]
  have hadd : F64.add (F64.finite 1) (F64.finite 1) = F64.finite 2 := by
    have h : F64.add (F64.finite 1) (F64.finite 1) = F64.round (1 + 1) := rfl
    have h2 : (1 : ℚ) + 1 = 2 := by norm_num
    rw [h, h2]
    exact F64.round_two
  rw [hadd, F64.div_finite 1 2 (by norm_num)]
  exact F64.round_half

theorem F64.div_one_of_one_le (s : ℚ) (hs : 1 ≤ s) :
    ∃ r : ℚ, F64.div (F64.finite 1) (F64.finite s) = F64.finite r ∧ 0 ≤ r ∧ r ≤ 1 := by
  have hpos : 0 < s := by linarith
  rw [F64.div_finite 1 s (by linarith)]
  apply F64.round_of_le_one
  · positivity
  · rw [div_le_one hpos]
    exact hs

theorem F64.Sigmoid_of_exp_finite (exp : F64 → F64) (x : F64) (y : ℚ)
    (hy : exp (F64.neg x) = F64.finite y) (h0 : 0 ≤ y) :
    ∃ r : ℚ, F64.Sigmoid exp x = F64.finite r ∧ 0 ≤ r ∧ r ≤ 1 := by
  unfold F64.Sigmoid
  rw [hy]
  have hadd : F64.add (F64.finite 1) (F64.finite y) = F64.round (1 + y) := rfl
  rw [hadd]
  rcases F64.round_of_one_le (1 + y) (by linarith) with h | ⟨s, h, hs⟩
  · rw [h]
    exact ⟨0, rfl, le_refl _, by norm_num⟩
  · rw [h]
    exact F64.div_one_of_one_le s hs

theorem F64.Sigmoid_of_exp_posInf (exp : F64 → F64) (x : F64)
    (hy : exp (F64.neg x) = F64.posInf) :
    F64.Sigmoid exp x = F64.finite 0 := by
  unfold F64.Sigmoid
  rw [hy]
  rfl

/-- The float64 `Sigmoid` of a value that is not NaN is a finite value in `[0, 1]`. -/
theorem F64.Sigmoid_range (exp : F64 → F64) (hexp : F64.ExpContract exp) (x : F64)
    (hx : x ≠ F64.nan) :
    ∃ r : ℚ, F64.Sigmoid exp x = F64.finite r ∧ 0 ≤ r ∧ r ≤ 1 := by
  cases x with
  | nan => exact absurd rfl hx
  | posInf =>
    exact F64.Sigmoid_of_exp_finite exp F64.posInf 0 hexp.exp_negInf (le_refl _)
  | negInf =>
    exact ⟨0, F64.Sigmoid_of_exp_posInf exp F64.negInf hexp.exp_posInf, le_refl _, by norm_num⟩
  | finite q =>
    rcases hexp.exp_finite (-q) with ⟨h, _⟩ | ⟨y, h, h0, _⟩
    · exact ⟨0, F64.Sigmoid_of_exp_posInf exp (F64.finite q) h, le_refl _, by norm_num⟩
    · exact F64.Sigmoid_of_exp_finite exp (F64.finite q) y h h0

theorem F64.Sigmoid_of_exp_small (exp : F64 → F64) (x : F64) (y : ℚ)
    (hy : exp (F64.neg x) = F64.finite y) (h0 : 0 ≤ y) (h1 : y ≤ 1 / 2 ^ 53) :
    F64.Sigmoid exp x = F64.finite 1 := by
  unfold F64.Sigmoid
  rw [hy]
  have hadd : F64.add (F64.finite 1) (F64.finite y) = F64.round (1 + y) := rfl
  rw [hadd, F64.round_one_add y h0 h1, F64.div_finite 1 1 (by norm_num)]
  have : (1 : ℚ) / 1 = 1 + 0 := by norm_num
  rw [this]
  exact F64.round_one_add 0 (le_refl _) (by positivity)

theorem exp_neg_37_bound (x : ℝ) (hx : 37 ≤ x) :
    Real.exp (-x) * (1 + 2 ^ (-51 : ℤ)) + 2 ^ (-1074 : ℤ) ≤ 1 / 2 ^ 53 := by
  have h1 : Real.exp (-x) ≤ Real.exp (-37) := Real.exp_le_exp.mpr (by linarith)
  have h37 : (5 / 4 : ℝ) * 2 ^ 53 ≤ Real.exp 37 := by
    have he : (2.7182818283 : ℝ) < Real.exp 1 := Real.exp_one_gt_d9
    have hp : (2.7182818283 : ℝ) ^ 37 ≤ Real.exp 1 ^ 37 :=
      pow_le_pow_left₀ (by norm_num) he.le 37
    have h2 : Real.exp 1 ^ 37 = Real.exp 37 := by
      rw [← Real.exp_nat_mul]
      norm_num
    rw [h2] at hp
    refine le_trans ?_ hp
    norm_num
  have h3 : Real.exp (-37) ≤ 4 / 5 / 2 ^ 53 := by
    rw [Real.exp_neg, inv_eq_one_div, div_le_div_iff₀ (Real.exp_pos 37) (by positivity)]
    linarith
  have h4 : (2 : ℝ) ^ (-51 : ℤ) = 1 / 2 ^ 51 := by
    rw [zpow_neg]
    norm_num
  have h5 : (2 : ℝ) ^ (-1074 : ℤ) ≤ 1 / 2 ^ 60 := by
    have h := zpow_le_zpow_right₀ (one_le_two : (1 : ℝ) ≤ 2) (show (-1074 : ℤ) ≤ -60 by decide)
    have h60 : (2 : ℝ) ^ (-60 : ℤ) = 1 / 2 ^ 60 := by
      rw [zpow_neg]
      norm_num
    rw [h60] at h
    exact h
  rw [h4]
  have h6 : Real.exp (-x) * (1 + 1 / 2 ^ 51) ≤ 4 / 5 / 2 ^ 53 * (1 + 1 / 2 ^ 51) :=
    mul_le_mul_of_nonneg_right (h1.trans h3) (by positivity)
  have h7 : (4 : ℝ) / 5 / 2 ^ 53 * (1 + 1 / 2 ^ 51) + 1 / 2 ^ 60 ≤ 1 / 2 ^ 53 := by norm_num
  linarith

/-- For every finite `x ≥ 37` the float64 `Sigmoid` returns exactly `1`. -/
theorem F64.Sigmoid_saturates (exp : F64 → F64) (hexp : F64.ExpContract exp) (x : ℚ)
    (hx : 37 ≤ x) : F64.Sigmoid exp (F64.finite x) = F64.finite 1 := by
  rcases hexp.exp_finite (-x) with ⟨_, h⟩ | ⟨y, h, h0, hy⟩
  · exfalso
    linarith
  · apply F64.Sigmoid_of_exp_small exp (F64.finite x) y h h0
    have hb := exp_neg_37_bound (x : ℝ) (by exact_mod_cast hx)
    have hc : ((-x : ℚ) : ℝ) = -(x : ℝ) := Rat.cast_neg x
    rw [hc] at hy
    replace hy : (y : ℝ) ≤ Real.exp (-(x : ℝ)) * (1 + 2 ^ (-51 : ℤ)) + 2 ^ (-1074 : ℤ) := by
      have := (abs_le.mp hy).2
      linarith
    have hy' : (y : ℝ) ≤ ((1 / 2 ^ 53 : ℚ) : ℝ) := by
      have h53 : ((1 / 2 ^ 53 : ℚ) : ℝ) = 1 / 2 ^ 53 := by norm_num
      rw [h53]
      exact hy.trans hb
    exact Rat.cast_le.mp hy'

theorem F64.Sigmoid_nan (exp : F64 → F64) (hexp : F64.ExpContract exp) :
    F64.Sigmoid exp F64.nan = F64.nan := by
  have hneg : F64.neg F64.nan = F64.nan := rfl
  unfold F64.Sigmoid
  rw [hneg, hexp.exp_nan]
  rfl

theorem F64.roundHalfEven_mono (t1 t2 : ℚ) (h : t1 ≤ t2) :
    F64.roundHalfEven t1 ≤ F64.roundHalfEven t2 := by
  have hf : ⌊t1⌋ ≤ ⌊t2⌋ := Int.floor_mono h
  rcases lt_or_eq_of_le hf with hlt | heq
  · have h1 : F64.roundHalfEven t1 ≤ ⌊t1⌋ + 1 := by
      rcases F64.roundHalfEven_cases t1 with h1 | ⟨h1, _⟩ <;> omega
    have h2 : ⌊t2⌋ ≤ F64.roundHalfEven t2 := by
      rcases F64.roundHalfEven_cases t2 with h2 | ⟨h2, _⟩ <;> omega
    omega
  · unfold F64.roundHalfEven
    rw [← heq]
    have hd : t1 - ⌊t1⌋ ≤ t2 - ⌊t1⌋ := by linarith
    split_ifs <;> first | omega | (exfalso; linarith)

theorem F64.roundToPrecision_pos_bounds (q : ℚ) (hq : 0 < q) :
    0 ≤ F64.roundToPrecision q ∧
    F64.roundToPrecision q ≤ 2 ^ (max (Int.log 2 q) (-1022) + 1) ∧
    (-1022 ≤ Int.log 2 q → (2 : ℚ) ^ Int.log 2 q ≤ F64.roundToPrecision q) := by
  have habs : |q| = q := abs_of_pos hq
  unfold F64.roundToPrecision
  simp only [habs]
  obtain ⟨e, he⟩ : ∃ e : Int, max (Int.log 2 q) (-1022) = e := ⟨_, rfl⟩
  rw [he]
  have hle : Int.log 2 q ≤ e := by
    rw [← he]
    exact le_max_left _ _
  have hu : (0 : ℚ) < 2 ^ (e - 52) := by positivity
  refine ⟨?_, ?_, ?_⟩
  · apply mul_nonneg _ hu.le
    have : (0 : Int) ≤ F64.roundHalfEven (q / 2 ^ (e - 52)) := by
      apply F64.le_roundHalfEven
      simp only [Int.cast_zero]
      positivity
    exact_mod_cast this
  · have hlt : q < 2 ^ (Int.log 2 q + 1) := Int.lt_zpow_succ_log_self (by norm_num) q
    have hpw : (2 : ℚ) ^ (Int.log 2 q + 1) ≤ 2 ^ (e + 1) :=
      zpow_le_zpow_right₀ (by norm_num) (by omega)
    have h53 : ((2 ^ 53 : Int) : ℚ) * 2 ^ (e - 52) = 2 ^ (e + 1) := by
      have : ((2 ^ 53 : Int) : ℚ) = 2 * ((2 ^ 52 : Int) : ℚ) := by norm_num
      rw [this, mul_assoc, F64.pow52_mul, zpow_add_one₀ (by norm_num)]
      ring
    have hup : F64.roundHalfEven (q / 2 ^ (e - 52)) ≤ 2 ^ 53 := by
      apply F64.roundHalfEven_le
      rw [div_le_iff₀ hu, h53]
      linarith
    rw [← h53]
    exact mul_le_mul_of_nonneg_right (by exact_mod_cast hup) hu.le
  · intro hlog
    have hel : e = Int.log 2 q := by
      rw [← he]
      exact max_eq_left hlog
    rw [hel]
    have hpow : (2 : ℚ) ^ Int.log 2 q ≤ q := Int.zpow_log_le_self (by norm_num) hq
    have hu2 : (0 : ℚ) < 2 ^ (Int.log 2 q - 52) := by positivity
    have hk : ((2 ^ 52 : Int) : ℚ) ≤ q / 2 ^ (Int.log 2 q - 52) := by
      rw [le_div_iff₀ hu2, F64.pow52_mul]
      exact hpow
    have hn := F64.le_roundHalfEven _ _ hk
    have h1 : ((2 ^ 52 : Int) : ℚ) * 2 ^ (Int.log 2 q - 52) ≤
        (F64.roundHalfEven (q / 2 ^ (Int.log 2 q - 52)) : ℚ) * 2 ^ (Int.log 2 q - 52) :=
      mul_le_mul_of_nonneg_right (by exact_mod_cast hn) hu2.le
    exact le_of_eq_of_le (F64.pow52_mul _).symm h1

theorem F64.roundToPrecision_mono (q1 q2 : ℚ) (h1 : 0 < q1) (h : q1 ≤ q2) :
    F64.roundToPrecision q1 ≤ F64.roundToPrecision q2 := by
  have h2 : 0 < q2 := lt_of_lt_of_le h1 h
  have hlog : Int.log 2 q1 ≤ Int.log 2 q2 := Int.log_mono_right h1 h
  have he : max (Int.log 2 q1) (-1022) ≤ max (Int.log 2 q2) (-1022) :=
    max_le_max hlog (le_refl _)
  rcases lt_or_eq_of_le he with hlt | heq
  · have hb1 := (F64.roundToPrecision_pos_bounds q1 h1).2.1
    have hl2 : -1022 ≤ Int.log 2 q2 := by
      by_contra hn
      have : max (Int.log 2 q2) (-1022) = -1022 := max_eq_right (by omega)
      have h3 : (-1022 : Int) ≤ max (Int.log 2 q1) (-1022) := le_max_right _ _
      omega
    have hb2 := (F64.roundToPrecision_pos_bounds q2 h2).2.2 hl2
    have hmax2 : max (Int.log 2 q2) (-1022) = Int.log 2 q2 := max_eq_left hl2
    have hpw : (2 : ℚ) ^ (max (Int.log 2 q1) (-1022) + 1) ≤ 2 ^ Int.log 2 q2 :=
      zpow_le_zpow_right₀ (by norm_num) (by omega)
    exact hb1.trans (hpw.trans hb2)
  · unfold F64.roundToPrecision
    simp only [abs_of_pos h1, abs_of_pos h2, heq]
    have hu : (0 : ℚ) < 2 ^ (max (Int.log 2 q2) (-1022) - 52) := by positivity
    apply mul_le_mul_of_nonneg_right _ hu.le
    have := F64.roundHalfEven_mono (q1 / 2 ^ (max (Int.log 2 q2) (-1022) - 52))
      (q2 / 2 ^ (max (Int.log 2 q2) (-1022) - 52)) (div_le_div_of_nonneg_right h hu.le)
    exact_mod_cast this

/-- Rounding is non-decreasing on the positive rationals. -/
theorem F64.round_mono (q1 q2 : ℚ) (h1 : 0 < q1) (h : q1 ≤ q2) :
    F64.le (F64.round q1) (F64.round q2) := by
  have h2 : 0 < q2 := lt_of_lt_of_le h1 h
  have hm := F64.roundToPrecision_mono q1 q2 h1 h
  have hn1 := (F64.roundToPrecision_pos_bounds q1 h1).1
  have hn2 := (F64.roundToPrecision_pos_bounds q2 h2).1
  have hbig : (0 : ℚ) < 2 ^ 1024 := by positivity
  unfold F64.round
  rw [if_neg (ne_of_gt h1), if_neg (ne_of_gt h2)]
  by_cases hb2 : (2 : ℚ) ^ 1024 ≤ F64.roundToPrecision q2
  · rw [if_pos hb2]
    by_cases hb1 : (2 : ℚ) ^ 1024 ≤ F64.roundToPrecision q1
    · rw [if_pos hb1]
      trivial
    · rw [if_neg hb1, if_neg (by linarith)]
      trivial
  · rw [if_neg hb2, if_neg (by linarith), if_neg (by linarith), if_neg (by linarith)]
    exact hm

/-- With a non-decreasing `exp`, the float64 `Sigmoid` is non-decreasing on the finite
values. -/
theorem F64.Sigmoid_mono (exp : F64 → F64) (hexp : F64.ExpContract exp)
    (hmono : F64.ExpMonotone exp) (a b : ℚ) (hab : a ≤ b) :
    F64.le (F64.Sigmoid exp (F64.finite a)) (F64.Sigmoid exp (F64.finite b)) := by
  obtain ⟨rb, hrb, hrb0, -⟩ := F64.Sigmoid_range exp hexp (F64.finite b) (by simp)
  have hzero : ∀ h : F64.Sigmoid exp (F64.finite a) = F64.finite 0,
      F64.le (F64.Sigmoid exp (F64.finite a)) (F64.Sigmoid exp (F64.finite b)) := by
    intro h
    rw [h, hrb]
    exact hrb0
  have hm := hmono (-b) (-a) (by linarith)
  rcases hexp.exp_finite (-a) with ⟨ha, _⟩ | ⟨ya, ha, ha0, _⟩
  · exact hzero (F64.Sigmoid_of_exp_posInf exp (F64.finite a) ha)
  · rcases hexp.exp_finite (-b) with ⟨hb, _⟩ | ⟨yb, hb, hb0, _⟩
    · rw [ha, hb] at hm
      exact absurd hm (by simp [F64.le])
    · rw [ha, hb] at hm
      have hyy : yb ≤ ya := hm
      have hr := F64.round_mono (1 + yb) (1 + ya) (by linarith) (by linarith)
      have hSa : F64.Sigmoid exp (F64.finite a) =
          F64.div (F64.finite 1) (F64.round (1 + ya)) := by
        unfold F64.Sigmoid
        have : F64.neg (F64.finite a) = F64.finite (-a) := rfl
        rw [this, ha]
        rfl
      have hSb : F64.Sigmoid exp (F64.finite b) =
          F64.div (F64.finite 1) (F64.round (1 + yb)) := by
        unfold F64.Sigmoid
        have : F64.neg (F64.finite b) = F64.finite (-b) := rfl
        rw [this, hb]
        rfl
      rcases F64.round_of_one_le (1 + ya) (by linarith) with hA | ⟨sa, hA, hsa⟩
      · apply hzero
        rw [hSa, hA]
        rfl
      · rcases F64.round_of_one_le (1 + yb) (by linarith) with hB | ⟨sb, hB, hsb⟩
        · rw [hA, hB] at hr
          exact absurd hr (by simp [F64.le])
        · rw [hA, hB] at hr
          have hss : sb ≤ sa := hr
          rw [hSa, hSb, hA, hB, F64.div_finite 1 sa (by linarith),
            F64.div_finite 1 sb (by linarith)]
          apply F64.round_mono
          · have : 0 < sa := by linarith
            positivity
          · exact one_div_le_one_div_of_le (by linarith) hss

/-- There is a function meeting every assumption made of `math.Exp`: the exponential
rounded up to a multiple of `2^-1100`. -/
theorem F64.exists_expContract :
    ∃ exp : F64 → F64, F64.ExpContract exp ∧ F64.ExpMonotone exp := by
  obtain ⟨N, hN0, hN1⟩ : ∃ N : ℕ, 0 < N ∧ ((1 : ℝ) / (N : ℝ)) ≤ 2 ^ (-1074 : ℤ) := by
    refine ⟨2 ^ (1100 : ℕ), by positivity, ?_⟩
    have h := zpow_le_zpow_right₀ (one_le_two : (1 : ℝ) ≤ 2)
      (show (-1100 : ℤ) ≤ -1074 by decide)
    have h2 : ((1 : ℝ) / ((2 ^ (1100 : ℕ) : ℕ) : ℝ)) = 2 ^ (-1100 : ℤ) := by
      rw [zpow_neg, one_div, Nat.cast_pow, Nat.cast_ofNat]
      exact congrArg Inv.inv (zpow_natCast (2 : ℝ) 1100).symm
    rw [h2]
    exact h
  obtain ⟨P, hPN⟩ : ∃ P : ℚ, P = (N : ℚ) := ⟨_, rfl⟩
  have hP0 : 0 < P := by
    rw [hPN]
    exact_mod_cast hN0
  have hPc : (P : ℝ) = (N : ℝ) := by
    rw [hPN]
    norm_cast
  have hP1 : ((1 : ℝ) / (P : ℝ)) ≤ 2 ^ (-1074 : ℤ) := by
    rw [hPc]
    exact hN1
  have hPr : (0 : ℝ) < (P : ℝ) := by exact_mod_cast hP0
  have key : ∀ x : ℝ, 0 < x →
      (0 : ℚ) ≤ (⌈x * (P : ℝ)⌉ : ℚ) / P ∧
      |(((⌈x * (P : ℝ)⌉ : ℚ) / P : ℚ) : ℝ) - x| ≤ x * 2 ^ (-51 : ℤ) + 2 ^ (-1074 : ℤ) := by
    intro x hx
    have hc1 : x * (P : ℝ) ≤ (⌈x * (P : ℝ)⌉ : ℝ) := Int.le_ceil _
    have hc2 : (⌈x * (P : ℝ)⌉ : ℝ) < x * (P : ℝ) + 1 := Int.ceil_lt_add_one _
    have hcpos : (0 : ℝ) ≤ (⌈x * (P : ℝ)⌉ : ℝ) := le_trans (by positivity) hc1
    constructor
    · apply div_nonneg _ hP0.le
      have : (0 : ℤ) ≤ ⌈x * (P : ℝ)⌉ := by exact_mod_cast hcpos
      exact_mod_cast this
    · have hcast : (((⌈x * (P : ℝ)⌉ : ℚ) / P : ℚ) : ℝ) = (⌈x * (P : ℝ)⌉ : ℝ) / (P : ℝ) := by
        push_cast
        rfl
      rw [hcast]
      have hlo : x ≤ (⌈x * (P : ℝ)⌉ : ℝ) / (P : ℝ) := by
        rw [le_div_iff₀ hPr]
        exact hc1
      have hhi : (⌈x * (P : ℝ)⌉ : ℝ) / (P : ℝ) < x + 1 / (P : ℝ) := by
        rw [div_lt_iff₀ hPr, add_mul, one_div, inv_mul_cancel₀ (ne_of_gt hPr)]
        exact hc2
      have h51 : (0 : ℝ) ≤ x * 2 ^ (-51 : ℤ) := by positivity
      rw [abs_le]
      constructor <;> linarith
  refine ⟨fun v => match v with
    | F64.finite x => F64.finite ((⌈Real.exp x * (P : ℝ)⌉ : ℚ) / P)
    | F64.posInf => F64.posInf
    | F64.negInf => F64.finite 0
    | F64.nan => F64.nan, ⟨?_, rfl, rfl, rfl, ?_⟩, ?_⟩
  · simp only [Rat.cast_zero, Real.exp_zero, one_mul]
    congr 1
    have hceil : ⌈(P : ℝ)⌉ = (N : ℤ) := by
      rw [hPc]
      exact Int.ceil_natCast N
    rw [hceil, hPN]
    have hne : (N : ℚ) ≠ 0 := by
      have : (0 : ℚ) < (N : ℚ) := by exact_mod_cast hN0
      exact ne_of_gt this
    push_cast
    exact div_self hne
  · intro x
    exact Or.inr ⟨_, rfl, (key _ (Real.exp_pos x)).1, (key _ (Real.exp_pos x)).2⟩
  · intro a b hab
    show (⌈Real.exp a * (P : ℝ)⌉ : ℚ) / P ≤ (⌈Real.exp b * (P : ℝ)⌉ : ℚ) / P
    apply div_le_div_of_nonneg_right _ hP0.le
    have h1 : Real.exp a * (P : ℝ) ≤ Real.exp b * (P : ℝ) :=
      mul_le_mul_of_nonneg_right (Real.exp_le_exp.mpr (by exact_mod_cast hab)) hPr.le
    have := Int.ceil_mono h1
    exact_mod_cast this

end F64Lemmas

/-! ## Claims -/

/-- C1: for a network whose four parameter tensors are set with the shapes given by its
Settings and a feature matrix `X` with `N` rows and `InputNeurons` columns, `test` returns
(with a nil error) the `N × OutputNeurons` matrix whose entry `(i, k)` is
`sigmoid (sum_j sigmoid (sum_p X[i][p] * WeightsHidden[p][j] + BiasesHidden[0][j])
  * WeightsOut[j][k] + BiasesOut[0][k])`. -/
theorem C1_test_forward_formula {α : Type} [LinearOrderedField α] (exp : α → α)
    (network : NeuralNetwork α) (X wh bh wo bo : Dense α) (N I H O : Nat)
    (hwh : network.WeightsHidden = some wh) (hbh : network.BiasesHidden = some bh)
    (hwo : network.WeightsOut = some wo) (hbo : network.BiasesOut = some bo)
    (hI : network.Settings.InputNeurons = I) (hH : network.Settings.HiddenNeurons = H)
    (hO : network.Settings.OutputNeurons = O)
    (hX : X.WF ∧ X.rows = N ∧ X.cols = I)
    (hWH : wh.WF ∧ wh.rows = I ∧ wh.cols = H) (hBH : bh.WF ∧ bh.rows = 1 ∧ bh.cols = H)
    (hWO : wo.WF ∧ wo.rows = H ∧ wo.cols = O) (hBO : bo.WF ∧ bo.rows = 1 ∧ bo.cols = O)
    (hN : 0 < N) (hH0 : 0 < H) (hO0 : 0 < O) :
    ∃ out : Dense α, network.test exp X = Except.ok (some out, none) ∧
      out.rows = N ∧ out.cols = O ∧
      ∀ i, i < N → ∀ k, k < O → out.At i k = Except.ok
        (Sigmoid exp (∑ j in Finset.range H,
          Sigmoid exp (∑ p in Finset.range I, X.entry i p * wh.entry p j + bh.entry 0 j)
            * wo.entry j k + bo.entry 0 k)) := by
  have e := test_tabulate exp network.Settings (N := N) (I := I) (H := H) (O := O)
    X.entry wh.entry bh.entry wo.entry bo.entry hN hH0 hO0
  rw [← Dense.eq_tabulate_of hX.1 hX.2.1 hX.2.2, ← Dense.eq_tabulate_of hWH.1 hWH.2.1 hWH.2.2,
    ← Dense.eq_tabulate_of hBH.1 hBH.2.1 hBH.2.2, ← Dense.eq_tabulate_of hWO.1 hWO.2.1 hWO.2.2,
    ← Dense.eq_tabulate_of hBO.1 hBO.2.1 hBO.2.2] at e
  obtain ⟨settings, WH, BH, WO, BO⟩ := network
  simp only at hwh hbh hwo hbo
  subst hwh hbh hwo hbo
  refine ⟨_, e, rfl, rfl, ?_⟩
  intro i hi k hk
  rw [Dense.tabulate_At N O _ hi hk]
  rfl

/-- C1 at a concrete network over the reals with one input, one hidden and one output
neuron and a single example. -/
theorem C1_test_forward_formula_witness :
    ∃ out : Dense ℝ,
      NeuralNetwork.test Real.exp
        ⟨⟨1, 1, 1, 1, 1⟩, some ⟨1, 1, [2]⟩, some ⟨1, 1, [3]⟩, some ⟨1, 1, [4]⟩, some ⟨1, 1, [5]⟩⟩
        ⟨1, 1, [1]⟩ = Except.ok (some out, none) ∧
      out.rows = 1 ∧ out.cols = 1 ∧
      ∀ i, i < 1 → ∀ k, k < 1 → out.At i k = Except.ok
        (Sigmoid Real.exp (∑ j in Finset.range 1,
          Sigmoid Real.exp (∑ p in Finset.range 1,
            (⟨1, 1, [1]⟩ : Dense ℝ).entry i p * (⟨1, 1, [2]⟩ : Dense ℝ).entry p j
              + (⟨1, 1, [3]⟩ : Dense ℝ).entry 0 j)
            * (⟨1, 1, [4]⟩ : Dense ℝ).entry j k + (⟨1, 1, [5]⟩ : Dense ℝ).entry 0 k)) :=
  C1_test_forward_formula Real.exp
    ⟨⟨1, 1, 1, 1, 1⟩, some ⟨1, 1, [2]⟩, some ⟨1, 1, [3]⟩, some ⟨1, 1, [4]⟩, some ⟨1, 1, [5]⟩⟩
    ⟨1, 1, [1]⟩ ⟨1, 1, [2]⟩ ⟨1, 1, [3]⟩ ⟨1, 1, [4]⟩ ⟨1, 1, [5]⟩ 1 1 1 1
    rfl rfl rfl rfl rfl rfl rfl ⟨rfl, rfl, rfl⟩ ⟨rfl, rfl, rfl⟩ ⟨rfl, rfl, rfl⟩
    ⟨rfl, rfl, rfl⟩ ⟨rfl, rfl, rfl⟩ Nat.one_pos Nat.one_pos Nat.one_pos

/-- C2: one iteration of the epoch loop of `Train`, run on features `X` (`N × I`), labels
`Y` (`N × O`) and parameters `(Wh, bh, Wo, bo)` of shapes `I × H`, `1 × H`, `H × O`, `1 × O`,
succeeds and leaves the parameters
`(Wh + lr * X^T * dH, bh + lr * colsum dH, Wo + lr * A^T * dO, bo + lr * colsum dO)`
(`stepParams`), where `A` and `O` are the hidden activation and the output of the forward
pass on the parameters before the update, `dO = (Y - O) .* O .* (1 - O)` and
`dH = (dO * Wo^T) .* A .* (1 - A)` with `Wo` taken before the update; the reused `output`
matrix holds `O`. -/
theorem C2_epoch_is_additive_backprop_step {α : Type} [LinearOrderedField α] (exp : α → α)
    (network : NeuralNetwork α) (features labels : Dense α) (st : TrainState α)
    (N I H O : Nat)
    (hX : features.WF ∧ features.rows = N ∧ features.cols = I)
    (hY : labels.WF ∧ labels.rows = N ∧ labels.cols = O)
    (hWH : st.weightsHidden.WF ∧ st.weightsHidden.rows = I ∧ st.weightsHidden.cols = H)
    (hBH : st.biasesHidden.WF ∧ st.biasesHidden.rows = 1 ∧ st.biasesHidden.cols = H)
    (hWO : st.weightsOut.WF ∧ st.weightsOut.rows = H ∧ st.weightsOut.cols = O)
    (hBO : st.biasesOut.WF ∧ st.biasesOut.rows = 1 ∧ st.biasesOut.cols = O)
    (hout : st.output.cols = 0 ∨ (st.output.rows = N ∧ st.output.cols = O))
    (hN : 0 < N) (hI : 0 < I) (hH : 0 < H) (hO : 0 < O)
    (hH63 : (H : Int) < 2 ^ 63) (hO63 : (O : Int) < 2 ^ 63) :
    network.epoch exp features labels st =
      Except.ok (Except.ok (TrainState.ofParams I H O
        (stepParams exp network.Settings.LearningRate N I H O features.entry labels.entry
          ⟨st.weightsHidden.entry, st.biasesHidden.entry, st.weightsOut.entry,
            st.biasesOut.entry⟩)
        (Dense.tabulate N O (outputAt exp I H features.entry st.weightsHidden.entry
          st.biasesHidden.entry st.weightsOut.entry st.biasesOut.entry)))) := by
  have e := epoch_tabulate exp network (N := N) (I := I) (H := H) (O := O)
    features.entry labels.entry
    ⟨st.weightsHidden.entry, st.biasesHidden.entry, st.weightsOut.entry, st.biasesOut.entry⟩
    st.output hN hI hH hO hH63 hO63 hout
  unfold TrainState.ofParams at e
  simp only at e
  rw [← Dense.eq_tabulate_of hX.1 hX.2.1 hX.2.2, ← Dense.eq_tabulate_of hY.1 hY.2.1 hY.2.2,
    ← Dense.eq_tabulate_of hWH.1 hWH.2.1 hWH.2.2, ← Dense.eq_tabulate_of hBH.1 hBH.2.1 hBH.2.2,
    ← Dense.eq_tabulate_of hWO.1 hWO.2.1 hWO.2.2,
    ← Dense.eq_tabulate_of hBO.1 hBO.2.1 hBO.2.2] at e
  exact e

/-- C2 at a concrete state over the reals: one example, one neuron per layer. -/
theorem C2_epoch_is_additive_backprop_step_witness :
    ∃ st2 : TrainState ℝ,
      NeuralNetwork.epoch Real.exp (NewNetwork ⟨1, 1, 1, 1, 1⟩) ⟨1, 1, [1]⟩ ⟨1, 1, [1]⟩
        ⟨⟨1, 1, [2]⟩, ⟨1, 1, [3]⟩, ⟨1, 1, [4]⟩, ⟨1, 1, [5]⟩, Dense.empty⟩ =
        Except.ok (Except.ok st2) :=
  ⟨_, C2_epoch_is_additive_backprop_step Real.exp (NewNetwork ⟨1, 1, 1, 1, 1⟩)
    ⟨1, 1, [1]⟩ ⟨1, 1, [1]⟩ ⟨⟨1, 1, [2]⟩, ⟨1, 1, [3]⟩, ⟨1, 1, [4]⟩, ⟨1, 1, [5]⟩, Dense.empty⟩
    1 1 1 1 ⟨rfl, rfl, rfl⟩ ⟨rfl, rfl, rfl⟩ ⟨rfl, rfl, rfl⟩ ⟨rfl, rfl, rfl⟩ ⟨rfl, rfl, rfl⟩
    ⟨rfl, rfl, rfl⟩ (Or.inl rfl) Nat.one_pos Nat.one_pos Nat.one_pos Nat.one_pos
    (by norm_num) (by norm_num)⟩

/-- C3: over the reals, with features `X` and labels `Y` fixed and the loss
`E = 1/2 * sum_i sum_k (Y[i][k] - output[i][k])^2` taken as a function of one parameter
entry at a time, every increment that one epoch adds to an entry of `WeightsHidden`,
`BiasesHidden`, `WeightsOut` and `BiasesOut` is `-LearningRate` times the partial derivative
of `E` with respect to that entry at the parameters before the update. -/
theorem C3_epoch_is_gradient_descent_step (network : NeuralNetwork ℝ)
    (features labels : Dense ℝ) (st : TrainState ℝ) (N I H O : Nat)
    (hX : features.WF ∧ features.rows = N ∧ features.cols = I)
    (hY : labels.WF ∧ labels.rows = N ∧ labels.cols = O)
    (hWH : st.weightsHidden.WF ∧ st.weightsHidden.rows = I ∧ st.weightsHidden.cols = H)
    (hBH : st.biasesHidden.WF ∧ st.biasesHidden.rows = 1 ∧ st.biasesHidden.cols = H)
    (hWO : st.weightsOut.WF ∧ st.weightsOut.rows = H ∧ st.weightsOut.cols = O)
    (hBO : st.biasesOut.WF ∧ st.biasesOut.rows = 1 ∧ st.biasesOut.cols = O)
    (hout : st.output.cols = 0 ∨ (st.output.rows = N ∧ st.output.cols = O))
    (hN : 0 < N) (hI : 0 < I) (hH : 0 < H) (hO : 0 < O)
    (hH63 : (H : Int) < 2 ^ 63) (hO63 : (O : Int) < 2 ^ 63) :
    ∃ st2 : TrainState ℝ,
      network.epoch Real.exp features labels st = Except.ok (Except.ok st2) ∧
      (∀ p q, p < I → q < H → ∃ D : ℝ,
        HasDerivAt (fun t => lossAt Real.exp N I H O features.entry labels.entry
          ⟨updateEntry st.weightsHidden.entry p q t, st.biasesHidden.entry,
            st.weightsOut.entry, st.biasesOut.entry⟩) D (st.weightsHidden.entry p q) ∧
        st2.weightsHidden.entry p q - st.weightsHidden.entry p q =
          -network.Settings.LearningRate * D) ∧
      (∀ q, q < H → ∃ D : ℝ,
        HasDerivAt (fun t => lossAt Real.exp N I H O features.entry labels.entry
          ⟨st.weightsHidden.entry, updateEntry st.biasesHidden.entry 0 q t,
            st.weightsOut.entry, st.biasesOut.entry⟩) D (st.biasesHidden.entry 0 q) ∧
        st2.biasesHidden.entry 0 q - st.biasesHidden.entry 0 q =
          -network.Settings.LearningRate * D) ∧
      (∀ j k, j < H → k < O → ∃ D : ℝ,
        HasDerivAt (fun t => lossAt Real.exp N I H O features.entry labels.entry
          ⟨st.weightsHidden.entry, st.biasesHidden.entry,
            updateEntry st.weightsOut.entry j k t, st.biasesOut.entry⟩) D
          (st.weightsOut.entry j k) ∧
        st2.weightsOut.entry j k - st.weightsOut.entry j k =
          -network.Settings.LearningRate * D) ∧
      (∀ k, k < O → ∃ D : ℝ,
        HasDerivAt (fun t => lossAt Real.exp N I H O features.entry labels.entry
          ⟨st.weightsHidden.entry, st.biasesHidden.entry, st.weightsOut.entry,
            updateEntry st.biasesOut.entry 0 k t⟩) D (st.biasesOut.entry 0 k) ∧
        st2.biasesOut.entry 0 k - st.biasesOut.entry 0 k =
          -network.Settings.LearningRate * D) := by
  refine ⟨_, epoch_WF Real.exp network features labels st N I H O hX hY hWH hBH hWO hBO hout
    hN hI hH hO hH63 hO63, ?_, ?_, ?_, ?_⟩
  · intro p q hp hq
    refine ⟨_, lossAt_hasDerivAt_wh N I H O features.entry labels.entry _ _ _ _ p q hp hq, ?_⟩
    simp only [TrainState.ofParams, Dense.tabulate_entry I H _ hp hq, stepParams]
    ring
  · intro q hq
    refine ⟨_, lossAt_hasDerivAt_bh N I H O features.entry labels.entry _ _ _ _ q hq, ?_⟩
    simp only [TrainState.ofParams, Dense.tabulate_entry 1 H _ Nat.one_pos hq, stepParams]
    ring
  · intro j k hj hk
    refine ⟨_, lossAt_hasDerivAt_wo N I H O features.entry labels.entry _ _ _ _ j k hj hk, ?_⟩
    simp only [TrainState.ofParams, Dense.tabulate_entry H O _ hj hk, stepParams]
    ring
  · intro k hk
    refine ⟨_, lossAt_hasDerivAt_bo N I H O features.entry labels.entry _ _ _ _ k hk, ?_⟩
    simp only [TrainState.ofParams, Dense.tabulate_entry 1 O _ Nat.one_pos hk, stepParams]
    ring

/-- C3 at a concrete state over the reals: one example, one neuron per layer; the increment
of the single output weight is `-LearningRate` times the derivative of the loss. -/
theorem C3_epoch_is_gradient_descent_step_witness :
    ∃ st2 : TrainState ℝ,
      NeuralNetwork.epoch Real.exp (NewNetwork ⟨1, 1, 1, 1, 1⟩) ⟨1, 1, [1]⟩ ⟨1, 1, [1]⟩
        ⟨⟨1, 1, [2]⟩, ⟨1, 1, [3]⟩, ⟨1, 1, [4]⟩, ⟨1, 1, [5]⟩, Dense.empty⟩ =
        Except.ok (Except.ok st2) ∧
      ∃ D : ℝ,
        HasDerivAt (fun t => lossAt Real.exp 1 1 1 1 (⟨1, 1, [1]⟩ : Dense ℝ).entry
          (⟨1, 1, [1]⟩ : Dense ℝ).entry
          ⟨(⟨1, 1, [2]⟩ : Dense ℝ).entry, (⟨1, 1, [3]⟩ : Dense ℝ).entry,
            updateEntry (⟨1, 1, [4]⟩ : Dense ℝ).entry 0 0 t, (⟨1, 1, [5]⟩ : Dense ℝ).entry⟩) D
          ((⟨1, 1, [4]⟩ : Dense ℝ).entry 0 0) ∧
        st2.weightsOut.entry 0 0 - (⟨1, 1, [4]⟩ : Dense ℝ).entry 0 0 =
          -(NewNetwork (⟨1, 1, 1, 1, 1⟩ : NeuralNetworkSettings ℝ)).Settings.LearningRate * D := by
  obtain ⟨st2, h1, _, _, h4, _⟩ := C3_epoch_is_gradient_descent_step
    (NewNetwork ⟨1, 1, 1, 1, 1⟩) ⟨1, 1, [1]⟩ ⟨1, 1, [1]⟩
    ⟨⟨1, 1, [2]⟩, ⟨1, 1, [3]⟩, ⟨1, 1, [4]⟩, ⟨1, 1, [5]⟩, Dense.empty⟩
    1 1 1 1 ⟨rfl, rfl, rfl⟩ ⟨rfl, rfl, rfl⟩ ⟨rfl, rfl, rfl⟩ ⟨rfl, rfl, rfl⟩ ⟨rfl, rfl, rfl⟩
    ⟨rfl, rfl, rfl⟩ (Or.inl rfl) Nat.one_pos Nat.one_pos Nat.one_pos Nat.one_pos
    (by norm_num) (by norm_num)
  exact ⟨st2, h1, h4 0 0 Nat.one_pos Nat.one_pos⟩

/-- C4: for Settings with positive layer sizes and features (`N × InputNeurons`) and labels
(`N × OutputNeurons`) of conforming shapes, `Train` returns a nil error and stores the
parameters obtained by applying the single-epoch step `stepParams` exactly
`Settings.Epochs` times (no times when `Epochs ≤ 0`) to the freshly drawn initial
parameters, every application using the whole features and labels matrices. -/
theorem C4_train_applies_step_epochs_times {α : Type} [LinearOrderedField α] (exp : α → α)
    (network : NeuralNetwork α) (rnd : Nat → α) (features labels : Dense α) (N I H O : Nat)
    (hsI : network.Settings.InputNeurons = I) (hsH : network.Settings.HiddenNeurons = H)
    (hsO : network.Settings.OutputNeurons = O)
    (hX : features.WF ∧ features.rows = N ∧ features.cols = I)
    (hY : labels.WF ∧ labels.rows = N ∧ labels.cols = O)
    (hN : 0 < N) (hI : 0 < I) (hH : 0 < H) (hO : 0 < O)
    (hIH : ((I * H : Nat) : Int) < 2 ^ 63) (hHO : ((H * O : Nat) : Int) < 2 ^ 63) :
    ∃ P : Params α,
      P = (stepParams exp network.Settings.LearningRate N I H O features.entry labels.entry)^[
        network.Settings.Epochs.toNat] (initParams rnd I H O) ∧
      network.Train exp rnd features labels =
        Except.ok (⟨network.Settings, some (Dense.tabulate I H P.wh),
          some (Dense.tabulate 1 H P.bh), some (Dense.tabulate H O P.wo),
          some (Dense.tabulate 1 O P.bo)⟩, none) := by
  have e := Train_tabulate exp network rnd (N := N) (I := I) (H := H) (O := O)
    features.entry labels.entry hsI hsH hsO hN hI hH hO hIH hHO
  rw [← Dense.eq_tabulate_of hX.1 hX.2.1 hX.2.2, ← Dense.eq_tabulate_of hY.1 hY.2.1 hY.2.2] at e
  exact ⟨_, rfl, e⟩

/-- C4 at a concrete run over the reals: two epochs, one example, one neuron per layer. -/
theorem C4_train_applies_step_epochs_times_witness :
    ∃ P : Params ℝ,
      P = (stepParams Real.exp 1 1 1 1 1 (⟨1, 1, [1]⟩ : Dense ℝ).entry
        (⟨1, 1, [1]⟩ : Dense ℝ).entry)^[2] (initParams (fun _ => 0) 1 1 1) ∧
      NeuralNetwork.Train Real.exp (NewNetwork ⟨1, 1, 1, 2, 1⟩) (fun _ => 0)
        ⟨1, 1, [1]⟩ ⟨1, 1, [1]⟩ =
        Except.ok (⟨⟨1, 1, 1, 2, 1⟩, some (Dense.tabulate 1 1 P.wh),
          some (Dense.tabulate 1 1 P.bh), some (Dense.tabulate 1 1 P.wo),
          some (Dense.tabulate 1 1 P.bo)⟩, none) :=
  C4_train_applies_step_epochs_times Real.exp (NewNetwork ⟨1, 1, 1, 2, 1⟩) (fun _ => 0)
    ⟨1, 1, [1]⟩ ⟨1, 1, [1]⟩ 1 1 1 1 rfl rfl rfl ⟨rfl, rfl, rfl⟩ ⟨rfl, rfl, rfl⟩
    Nat.one_pos Nat.one_pos Nat.one_pos Nat.one_pos (by norm_num) (by norm_num)

/-- C5: for a network whose parameter tensors are set with the shapes given by its Settings,
test features with `N` rows and test labels of shape `N × OutputNeurons` in which every row
`i` holds a `1.0`, `c i` being the first column of row `i` that holds it, `Validate` returns
`hits / N` with a nil error, where row `i` is a hit exactly when the forward-pass output at
column `c i` is at least every output of row `i` (it equals the row maximum, ties included). -/
theorem C5_validate_counts_hits {α : Type} [LinearOrderedField α] (exp : α → α)
    (network : NeuralNetwork α) (TestFeatures TestLabels wh bh wo bo : Dense α)
    (N I H O : Nat) (c : Nat → Nat)
    (hwh : network.WeightsHidden = some wh) (hbh : network.BiasesHidden = some bh)
    (hwo : network.WeightsOut = some wo) (hbo : network.BiasesOut = some bo)
    (hI : network.Settings.InputNeurons = I) (hH : network.Settings.HiddenNeurons = H)
    (hO : network.Settings.OutputNeurons = O)
    (hX : TestFeatures.WF ∧ TestFeatures.rows = N ∧ TestFeatures.cols = I)
    (hL : TestLabels.WF ∧ TestLabels.rows = N ∧ TestLabels.cols = O)
    (hWH : wh.WF ∧ wh.rows = I ∧ wh.cols = H) (hBH : bh.WF ∧ bh.rows = 1 ∧ bh.cols = H)
    (hWO : wo.WF ∧ wo.rows = H ∧ wo.cols = O) (hBO : bo.WF ∧ bo.rows = 1 ∧ bo.cols = O)
    (hN : 0 < N) (hH0 : 0 < H) (hO0 : 0 < O)
    (hc : ∀ i, i < N → c i < O ∧ TestLabels.entry i (c i) = 1 ∧
      ∀ j, j < c i → TestLabels.entry i j ≠ 1) :
    ∃ out : Dense α, network.test exp TestFeatures = Except.ok (some out, none) ∧
      network.Validate exp TestFeatures TestLabels = Except.ok
        ((((Finset.range N).filter
          (fun i => ∀ k, k < O → out.entry i k ≤ out.entry i (c i))).card : α) / (N : α),
          none) := by
  have e := test_tabulate exp network.Settings (N := N) (I := I) (H := H) (O := O)
    TestFeatures.entry wh.entry bh.entry wo.entry bo.entry hN hH0 hO0
  have v := Validate_tabulate exp network.Settings (N := N) (I := I) (H := H) (O := O)
    TestFeatures.entry TestLabels.entry wh.entry bh.entry wo.entry bo.entry c hN hH0 hO0 hc
  rw [← Dense.eq_tabulate_of hX.1 hX.2.1 hX.2.2, ← Dense.eq_tabulate_of hWH.1 hWH.2.1 hWH.2.2,
    ← Dense.eq_tabulate_of hBH.1 hBH.2.1 hBH.2.2, ← Dense.eq_tabulate_of hWO.1 hWO.2.1 hWO.2.2,
    ← Dense.eq_tabulate_of hBO.1 hBO.2.1 hBO.2.2] at e v
  rw [← Dense.eq_tabulate_of hL.1 hL.2.1 hL.2.2] at v
  obtain ⟨settings, WH, BH, WO, BO⟩ := network
  simp only at hwh hbh hwo hbo
  subst hwh hbh hwo hbo
  refine ⟨_, e, ?_⟩
  rw [v]
  refine congrArg
    (fun S : Finset Nat => (Except.ok (((S.card : α) / (N : α)), none) : Go (α × Option GoError)))
    ?_
  apply Finset.filter_congr
  intro i hi
  have hiN : i < N := Finset.mem_range.mp hi
  have hcO : c i < O := (hc i hiN).1
  unfold isHit
  constructor
  · intro h k hk
    rw [Dense.tabulate_entry N O _ hiN hk, Dense.tabulate_entry N O _ hiN hcO]
    exact h k hk
  · intro h k hk
    have := h k hk
    rwa [Dense.tabulate_entry N O _ hiN hk, Dense.tabulate_entry N O _ hiN hcO] at this

/-- C5 at a concrete network over the reals: two test rows, two classes whose outputs tie,
labels `[[0, 1], [1, 1]]` (true classes 1 and 0). -/
theorem C5_validate_counts_hits_witness :
    ∃ out : Dense ℝ,
      NeuralNetwork.test Real.exp
        ⟨⟨1, 2, 1, 1, 1⟩, some ⟨1, 1, [2]⟩, some ⟨1, 1, [3]⟩, some ⟨1, 2, [4, 4]⟩,
          some ⟨1, 2, [5, 5]⟩⟩ ⟨2, 1, [1, 6]⟩ = Except.ok (some out, none) ∧
      NeuralNetwork.Validate Real.exp
        ⟨⟨1, 2, 1, 1, 1⟩, some ⟨1, 1, [2]⟩, some ⟨1, 1, [3]⟩, some ⟨1, 2, [4, 4]⟩,
          some ⟨1, 2, [5, 5]⟩⟩ ⟨2, 1, [1, 6]⟩ ⟨2, 2, [0, 1, 1, 1]⟩ = Except.ok
        ((((Finset.range 2).filter
          (fun i : Nat => ∀ k : Nat, k < 2 →
            out.entry i k ≤ out.entry i (if i = 0 then (1 : Nat) else 0))).card : ℝ)
            / ((2 : Nat) : ℝ), none) :=
  C5_validate_counts_hits Real.exp
    ⟨⟨1, 2, 1, 1, 1⟩, some ⟨1, 1, [2]⟩, some ⟨1, 1, [3]⟩, some ⟨1, 2, [4, 4]⟩,
      some ⟨1, 2, [5, 5]⟩⟩ ⟨2, 1, [1, 6]⟩ ⟨2, 2, [0, 1, 1, 1]⟩
    ⟨1, 1, [2]⟩ ⟨1, 1, [3]⟩ ⟨1, 2, [4, 4]⟩ ⟨1, 2, [5, 5]⟩ 2 1 1 2
    (fun i => if i = 0 then 1 else 0)
    rfl rfl rfl rfl rfl rfl rfl ⟨rfl, rfl, rfl⟩ ⟨rfl, rfl, rfl⟩ ⟨rfl, rfl, rfl⟩
    ⟨rfl, rfl, rfl⟩ ⟨rfl, rfl, rfl⟩ ⟨rfl, rfl, rfl⟩ (by decide) Nat.one_pos (by decide)
    (by
      intro i hi
      interval_cases i
      · refine ⟨by decide, by simp [Dense.entry], ?_⟩
        intro j hj
        have hj0 : j = 0 := by simpa using hj
        subst hj0
        simp [Dense.entry]
      · refine ⟨by decide, by simp [Dense.entry], ?_⟩
        intro j hj
        simp at hj)

/-- C6: `Validate` returns an error value exactly when at least one of the four parameter
tensors is nil, the accuracy returned with an error is `-1`, and `Validate` on a network
fresh from `NewNetwork` returns an error. -/
theorem C6_validate_error_iff_nil {α : Type} [LinearOrderedField α] (exp : α → α)
    (network : NeuralNetwork α) (settings : NeuralNetworkSettings α)
    (TestFeatures TestLabels : Dense α) :
    ((∃ a e, network.Validate exp TestFeatures TestLabels = Except.ok (a, some e)) ↔
      (network.WeightsHidden = none ∨ network.BiasesHidden = none ∨
        network.WeightsOut = none ∨ network.BiasesOut = none)) ∧
    (∀ a e, network.Validate exp TestFeatures TestLabels = Except.ok (a, some e) → a = -1) ∧
    (∃ e, (NewNetwork settings).Validate exp TestFeatures TestLabels =
      Except.ok (-1, some e)) := by
  refine ⟨⟨?_, ?_⟩, ?_, ?_⟩
  · rintro ⟨a, e, hv⟩
    by_contra hn
    have := Validate_of_not_hasNil exp network TestFeatures TestLabels hn a (some e) hv
    simp at this
  · intro hn
    exact ⟨-1, _, Validate_of_hasNil exp network TestFeatures TestLabels hn⟩
  · intro a e hv
    by_cases hn : network.hasNil
    · rw [Validate_of_hasNil exp network TestFeatures TestLabels hn] at hv
      simp only [Except.ok.injEq, Prod.mk.injEq] at hv
      exact hv.1.symm
    · have := Validate_of_not_hasNil exp network TestFeatures TestLabels hn a (some e) hv
      simp at this
  · exact ⟨_, Validate_of_hasNil exp (NewNetwork settings) TestFeatures TestLabels
      (Or.inl rfl)⟩

/-- C7 (as amended): for Settings with positive layer sizes (whose products fit a Go `int`)
and `Epochs` at least 1, a features matrix of `N ≥ 1` rows and `InputNeurons` columns and
labels with another row count, `Train` fails with the shape mismatch of the matrix library,
as a panic and not as an error value: the call ends in `mat.ErrShape`; it is raised in the
first epoch, whose forward pass succeeds with an output of `features.rows` rows and whose
next statement, `labels - output`, panics with `mat.ErrShape`; so no trained network is
reported. `Train` has no row-count check of its own: on no input at all does it return a
non-nil error, and whenever the row counts differ and `Epochs` is at least 1 it ends in a
panic. -/
theorem C7_train_row_mismatch_panics {α : Type} [LinearOrderedField α] (exp : α → α)
    (network : NeuralNetwork α) (rnd : Nat → α) (features labels : Dense α) (N I H O : Nat)
    (hsI : network.Settings.InputNeurons = I) (hsH : network.Settings.HiddenNeurons = H)
    (hsO : network.Settings.OutputNeurons = O) (hep : 0 < network.Settings.Epochs)
    (hX : features.HasShape N I) (hrows : features.rows ≠ labels.rows)
    (hN : 0 < N) (hI : 0 < I) (hH : 0 < H) (hO : 0 < O)
    (hIH : ((I * H : Nat) : Int) < 2 ^ 63) (hHO : ((H * O : Nat) : Int) < 2 ^ 63) :
    network.Train exp rnd features labels = Except.error Panic.errShape ∧
    network.epoch exp features labels
        (TrainState.ofParams I H O (initParams rnd I H O) Dense.empty) =
      Except.error Panic.errShape ∧
    (∃ A out : Dense α,
      network.epochForward exp features
        (TrainState.ofParams I H O (initParams rnd I H O) Dense.empty) = Except.ok (A, out) ∧
      out.rows = features.rows ∧
      Dense.empty.Sub labels.asMatrix out.asMatrix = Except.error Panic.errShape) ∧
    (∀ (nw : NeuralNetwork α) (r : Nat → α) (f l : Dense α) (net : NeuralNetwork α)
      (e : GoError), nw.Train exp r f l ≠ Except.ok (net, some e)) ∧
    (∀ (nw : NeuralNetwork α) (r : Nat → α) (f l : Dense α), f.rows ≠ l.rows →
      0 < nw.Settings.Epochs → ∃ p : Panic, nw.Train exp r f l = Except.error p) := by
  have hr : labels.rows ≠ features.rows := fun h => hrows h.symm
  have hT := Train_rows_mismatch exp network rnd features labels N I H O hsI hsH hsO hep hX hr
    hN hI hH hO hIH hHO
  refine ⟨hT.1, ?_, hT.2, ?_, ?_⟩
  · have hfe := Dense.eq_tabulate_of hX.1 hX.2.1 hX.2.2
    have hrN : labels.rows ≠ N := by
      rw [← hX.2.1]
      exact hr
    have h := epoch_rows_mismatch exp network (N := N) (I := I) (H := H) (O := O)
      features.entry labels (initParams rnd I H O) Dense.empty hN hH hO (Or.inl rfl) hrN
    rw [← hfe] at h
    exact h
  · intro nw r f l net e h
    have := Train_nil_error exp nw r f l net (some e) h
    exact Option.noConfusion this
  · intro nw r f l hfl hpos
    exact Train_panics_of_rows_ne exp nw r f l hfl hpos

/-- C7 (as amended) at a concrete input over the reals: layer sizes 1, one epoch, one
feature row and two label rows. -/
theorem C7_train_row_mismatch_panics_witness :
    NeuralNetwork.Train Real.exp (NewNetwork ⟨1, 1, 1, 1, 1⟩) (fun _ => 0)
        ⟨1, 1, [1]⟩ ⟨2, 1, [0, 1]⟩ = Except.error Panic.errShape ∧
    ∃ A out : Dense ℝ,
      NeuralNetwork.epochForward Real.exp (NewNetwork ⟨1, 1, 1, 1, 1⟩) ⟨1, 1, [1]⟩
        (TrainState.ofParams 1 1 1 (initParams (fun _ => 0) 1 1 1) Dense.empty) =
          Except.ok (A, out) ∧
      out.rows = (⟨1, 1, [1]⟩ : Dense ℝ).rows ∧
      Dense.empty.Sub (⟨2, 1, [0, 1]⟩ : Dense ℝ).asMatrix out.asMatrix =
        Except.error Panic.errShape :=
  have h := C7_train_row_mismatch_panics Real.exp (NewNetwork ⟨1, 1, 1, 1, 1⟩) (fun _ => 0)
    ⟨1, 1, [1]⟩ ⟨2, 1, [0, 1]⟩ 1 1 1 1 rfl rfl rfl (by decide) ⟨rfl, rfl, rfl⟩ (by decide)
    (by decide) (by decide) (by decide) (by decide) (by norm_num) (by norm_num)
  ⟨h.1, h.2.2.1⟩

/-- C7 fails as stated: with Settings of layer sizes 1, one epoch and learning rate 1, one
feature row and two label rows, `Train` ends in the panic `mat.ErrShape` of the matrix
library; it does not return, so it returns no error value of any kind. -/
theorem C7_counterexample :
    (0 : Int) < (NewNetwork (⟨1, 1, 1, 1, 1⟩ : NeuralNetworkSettings ℝ)).Settings.Epochs ∧
    (⟨1, 1, [1]⟩ : Dense ℝ).rows ≠ (⟨2, 1, [0, 1]⟩ : Dense ℝ).rows ∧
    NeuralNetwork.Train Real.exp (NewNetwork ⟨1, 1, 1, 1, 1⟩) (fun _ => 0)
        ⟨1, 1, [1]⟩ ⟨2, 1, [0, 1]⟩ = Except.error Panic.errShape ∧
    ¬ ∃ (net : NeuralNetwork ℝ) (e : Option GoError),
      NeuralNetwork.Train Real.exp (NewNetwork ⟨1, 1, 1, 1, 1⟩) (fun _ => 0)
        ⟨1, 1, [1]⟩ ⟨2, 1, [0, 1]⟩ = Except.ok (net, e) := by
  have hT := (Train_rows_mismatch Real.exp (NewNetwork ⟨1, 1, 1, 1, 1⟩) (fun _ => (0 : ℝ))
    ⟨1, 1, [1]⟩ ⟨2, 1, [0, 1]⟩ 1 1 1 1 rfl rfl rfl (by decide) ⟨rfl, rfl, rfl⟩ (by decide)
    (by decide) (by decide) (by decide) (by decide) (by norm_num) (by norm_num)).1
  refine ⟨by decide, by decide, hT, ?_⟩
  rintro ⟨net, e, h⟩
  rw [hT] at h
  exact Except.noConfusion h

/-- C8: whenever `Validate` returns an accuracy with a nil error, the accuracy is
`hits / rows` for a hit count between 0 and the positive row count, so it lies in the closed
interval `[0, 1]`. -/
theorem C8_validate_accuracy_in_unit_interval {α : Type} [LinearOrderedField α]
    (exp : α → α) (network : NeuralNetwork α) (TestFeatures TestLabels : Dense α) (a : α)
    (h : network.Validate exp TestFeatures TestLabels = Except.ok (a, none)) :
    (0 ≤ a ∧ a ≤ 1) ∧
    ∃ hits rows : Nat, 0 < rows ∧ hits ≤ rows ∧ a = (hits : α) / (rows : α) := by
  obtain ⟨hits, rows, hpos, hle, ha⟩ :=
    Validate_ok_bounds exp network TestFeatures TestLabels a h
  refine ⟨⟨?_, ?_⟩, hits, rows, hpos, hle, ha⟩
  · rw [ha]
    exact div_nonneg (Nat.cast_nonneg _) (Nat.cast_nonneg _)
  · rw [ha]
    have hr : (0 : α) < (rows : α) := Nat.cast_pos.mpr hpos
    rw [div_le_one hr]
    exact Nat.cast_le.mpr hle

/-- C8 at a concrete network over the reals with one neuron per layer and one test row. -/
theorem C8_validate_accuracy_in_unit_interval_witness :
    (0 ≤ (((Finset.range 1).filter
        (isHit 1 (outputAt Real.exp 1 1 (fun _ _ => (1 : ℝ)) (fun _ _ => 2) (fun _ _ => 3)
          (fun _ _ => 4) (fun _ _ => 5)) (fun _ => 0))).card : ℝ) / ((1 : Nat) : ℝ) ∧
      (((Finset.range 1).filter
        (isHit 1 (outputAt Real.exp 1 1 (fun _ _ => (1 : ℝ)) (fun _ _ => 2) (fun _ _ => 3)
          (fun _ _ => 4) (fun _ _ => 5)) (fun _ => 0))).card : ℝ) / ((1 : Nat) : ℝ) ≤ 1) ∧
    ∃ hits rows : Nat, 0 < rows ∧ hits ≤ rows ∧
      (((Finset.range 1).filter
        (isHit 1 (outputAt Real.exp 1 1 (fun _ _ => (1 : ℝ)) (fun _ _ => 2) (fun _ _ => 3)
          (fun _ _ => 4) (fun _ _ => 5)) (fun _ => 0))).card : ℝ) / ((1 : Nat) : ℝ)
        = (hits : ℝ) / (rows : ℝ) :=
  C8_validate_accuracy_in_unit_interval Real.exp
    ⟨⟨1, 1, 1, 1, 1⟩, some (Dense.tabulate 1 1 (fun _ _ => 2)),
      some (Dense.tabulate 1 1 (fun _ _ => 3)), some (Dense.tabulate 1 1 (fun _ _ => 4)),
      some (Dense.tabulate 1 1 (fun _ _ => 5))⟩
    (Dense.tabulate 1 1 (fun _ _ => 1)) (Dense.tabulate 1 1 (fun _ _ => 1)) _
    (Validate_tabulate Real.exp ⟨1, 1, 1, 1, 1⟩ (fun _ _ => 1) (fun _ _ => 1) (fun _ _ => 2)
      (fun _ _ => 3) (fun _ _ => 4) (fun _ _ => 5) (fun _ => 0) Nat.one_pos Nat.one_pos
      Nat.one_pos (fun _ _ => ⟨Nat.one_pos, rfl, fun j hj => absurd hj (Nat.not_lt_zero j)⟩))

/-- C9 (as amended): `Sigmoid(0) = 0.5`, for the real function and for the `float64`
function of the code.  The real function `1/(1+e^(-x))` is strictly increasing and has
`0 < Sigmoid(x) < 1` for every real `x`.  The `float64` function, with `math.Exp` accurate to
one unit in the last place, maps every value other than NaN into the closed interval
`[0, 1]`; it returns exactly `1` for every finite `x ≥ 37` and for `+Inf`, and NaN for NaN;
and it is non-decreasing on the finite values when `math.Exp` is. -/
theorem C9_sigmoid_half_range_float64 (exp : F64 → F64) (hexp : F64.ExpContract exp) :
    (Sigmoid Real.exp 0 = 1 / 2 ∧ StrictMono (Sigmoid Real.exp) ∧
      ∀ x : ℝ, 0 < Sigmoid Real.exp x ∧ Sigmoid Real.exp x < 1) ∧
    F64.Sigmoid exp (F64.finite 0) = F64.finite (1 / 2) ∧
    (∀ x : F64, x ≠ F64.nan →
      ∃ r : ℚ, F64.Sigmoid exp x = F64.finite r ∧ 0 ≤ r ∧ r ≤ 1) ∧
    (∀ x : ℚ, 37 ≤ x → F64.Sigmoid exp (F64.finite x) = F64.finite 1) ∧
    F64.Sigmoid exp F64.posInf = F64.finite 1 ∧
    F64.Sigmoid exp F64.nan = F64.nan ∧
    (F64.ExpMonotone exp → ∀ a b : ℚ, a ≤ b →
      F64.le (F64.Sigmoid exp (F64.finite a)) (F64.Sigmoid exp (F64.finite b))) := by
  refine ⟨⟨?_, Sigmoid_strictMono, fun x => ⟨Sigmoid_pos x, Sigmoid_lt_one x⟩⟩,
    F64.Sigmoid_zero exp hexp, F64.Sigmoid_range exp hexp, F64.Sigmoid_saturates exp hexp,
    F64.Sigmoid_of_exp_small exp F64.posInf 0 hexp.exp_negInf (le_refl _) (by positivity),
    F64.Sigmoid_nan exp hexp, fun hmono => F64.Sigmoid_mono exp hexp hmono⟩
  simp [Sigmoid]
  norm_num

/-- C9 (as amended) at a concrete case: for a function meeting the assumptions made of
`math.Exp`, the `float64` `Sigmoid` is `0.5` at `0`, `1` at `37`, and ordered at `1 ≤ 2`. -/
theorem C9_sigmoid_half_range_float64_witness :
    ∃ exp : F64 → F64, F64.ExpContract exp ∧
      F64.Sigmoid exp (F64.finite 0) = F64.finite (1 / 2) ∧
      F64.Sigmoid exp (F64.finite 37) = F64.finite 1 ∧
      F64.le (F64.Sigmoid exp (F64.finite 1)) (F64.Sigmoid exp (F64.finite 2)) :=
  let ⟨exp, hexp, hmono⟩ := F64.exists_expContract
  ⟨exp, hexp, (C9_sigmoid_half_range_float64 exp hexp).2.1,
    (C9_sigmoid_half_range_float64 exp hexp).2.2.2.1 37 (le_refl _),
    (C9_sigmoid_half_range_float64 exp hexp).2.2.2.2.2.2 hmono 1 2 (by norm_num)⟩

/-- C9 fails as stated for the function the code computes: in `float64` arithmetic, whatever
one-ulp-accurate `math.Exp` is used (and there is one, non-decreasing), `Sigmoid(37)` and
`Sigmoid(38)` are both exactly `1.0`, so the value is not below `1` and `37 < 38` does not
give `Sigmoid(37) < Sigmoid(38)`. -/
theorem C9_counterexample :
    (∃ exp : F64 → F64, F64.ExpContract exp ∧ F64.ExpMonotone exp) ∧
    ∀ exp : F64 → F64, F64.ExpContract exp →
      F64.Sigmoid exp (F64.finite 37) = F64.finite 1 ∧
      F64.Sigmoid exp (F64.finite 38) = F64.finite 1 :=
  ⟨F64.exists_expContract, fun exp hexp =>
    ⟨F64.Sigmoid_saturates exp hexp 37 (le_refl _),
      F64.Sigmoid_saturates exp hexp 38 (by norm_num)⟩⟩

/-- C10: for every real `z`, `SigmoidPrime (Sigmoid z)` is `Sigmoid z * (1 - Sigmoid z)`
and it is the derivative of `Sigmoid` at `z`. -/
theorem C10_sigmoidPrime_is_derivative (z : ℝ) :
    SigmoidPrime (Sigmoid Real.exp z) = Sigmoid Real.exp z * (1 - Sigmoid Real.exp z) ∧
    HasDerivAt (Sigmoid Real.exp) (SigmoidPrime (Sigmoid Real.exp z)) z ∧
    deriv (Sigmoid Real.exp) z = SigmoidPrime (Sigmoid Real.exp z) :=
  ⟨rfl, Sigmoid_hasDerivAt z, (Sigmoid_hasDerivAt z).deriv⟩

/-- C11: for Settings with positive `InputNeurons`, `HiddenNeurons` and `OutputNeurons`
(sizes whose products fit a Go `int`), the epoch loop of `Train` starts from four tensors
`WH`, `BH`, `WO`, `BO` of shapes `InputNeurons × HiddenNeurons`, `1 × HiddenNeurons`,
`HiddenNeurons × OutputNeurons`, `1 × OutputNeurons`; they are what `Train` stores when
`Epochs ≤ 0`; their backing data, read one tensor after the other, are exactly the
successive draws of the random source, one draw per entry; so every entry lies in `[0, 1)`
when the draws do. -/
theorem C11_initial_parameters_are_the_draws {α : Type} [LinearOrderedField α]
    (exp : α → α) (network : NeuralNetwork α) (rnd : Nat → α) (features labels : Dense α)
    (I H O : Nat)
    (hsI : network.Settings.InputNeurons = I) (hsH : network.Settings.HiddenNeurons = H)
    (hsO : network.Settings.OutputNeurons = O)
    (hI : 0 < I) (hH : 0 < H) (hO : 0 < O)
    (hIH : ((I * H : Nat) : Int) < 2 ^ 63) (hHO : ((H * O : Nat) : Int) < 2 ^ 63) :
    ∃ WH BH WO BO : Dense α,
      network.Train exp rnd features labels =
        (network.epochs exp features labels network.Settings.Epochs.toNat
            ⟨WH, BH, WO, BO, Dense.empty⟩ >>= fun r =>
          match r with
          | Except.error e => pure (network, some e)
          | Except.ok st =>
            pure (⟨network.Settings, some st.weightsHidden, some st.biasesHidden,
              some st.weightsOut, some st.biasesOut⟩, none)) ∧
      (network.Settings.Epochs ≤ 0 →
        network.Train exp rnd features labels =
          Except.ok (⟨network.Settings, some WH, some BH, some WO, some BO⟩, none)) ∧
      WH.HasShape I H ∧ BH.HasShape 1 H ∧ WO.HasShape H O ∧ BO.HasShape 1 O ∧
      WH.data ++ BH.data ++ WO.data ++ BO.data =
        (List.range (I * H + H + H * O + O)).map rnd ∧
      ((∀ n, 0 ≤ rnd n ∧ rnd n < 1) →
        ∀ v ∈ WH.data ++ BH.data ++ WO.data ++ BO.data, 0 ≤ v ∧ v < 1) := by
  have hT := Train_from_init exp network rnd features labels hsI hsH hsO hI hH hO hIH hHO
  have hd := initParams_data rnd I H O hH hO
  refine ⟨Dense.tabulate I H (initParams rnd I H O).wh,
    Dense.tabulate 1 H (initParams rnd I H O).bh, Dense.tabulate H O (initParams rnd I H O).wo,
    Dense.tabulate 1 O (initParams rnd I H O).bo, hT, ?_, Dense.tabulate_HasShape _ _ _,
    Dense.tabulate_HasShape _ _ _, Dense.tabulate_HasShape _ _ _,
    Dense.tabulate_HasShape _ _ _, hd, ?_⟩
  · intro hep
    have h0 : network.Settings.Epochs.toNat = 0 := by omega
    rw [hT, h0]
    rfl
  · intro hr v hv
    rw [hd] at hv
    obtain ⟨n, _, rfl⟩ := List.mem_map.mp hv
    exact hr n

/-- C11 at concrete Settings over the reals: 2 inputs, 2 hidden units, 1 output, no epoch;
the stored tensors hold the draws 0..8 in order. -/
theorem C11_initial_parameters_are_the_draws_witness :
    ∃ WH BH WO BO : Dense ℝ,
      NeuralNetwork.Train Real.exp (NewNetwork ⟨2, 1, 2, 0, 1⟩) (fun n => 1 / ((n : ℝ) + 2))
        ⟨1, 2, [1, 1]⟩ ⟨1, 1, [1]⟩ =
        Except.ok (⟨⟨2, 1, 2, 0, 1⟩, some WH, some BH, some WO, some BO⟩, none) ∧
      WH.HasShape 2 2 ∧ BH.HasShape 1 2 ∧ WO.HasShape 2 1 ∧ BO.HasShape 1 1 ∧
      WH.data ++ BH.data ++ WO.data ++ BO.data =
        (List.range (2 * 2 + 2 + 2 * 1 + 1)).map (fun n => 1 / ((n : ℝ) + 2)) := by
  obtain ⟨WH, BH, WO, BO, _, h0, h1, h2, h3, h4, h5, _⟩ :=
    C11_initial_parameters_are_the_draws Real.exp (NewNetwork ⟨2, 1, 2, 0, 1⟩)
      (fun n => 1 / ((n : ℝ) + 2)) ⟨1, 2, [1, 1]⟩ ⟨1, 1, [1]⟩ 2 2 1 rfl rfl rfl
      (by decide) (by decide) (by decide) (by norm_num) (by norm_num)
  exact ⟨WH, BH, WO, BO, h0 (le_refl _), h1, h2, h3, h4, h5⟩

/-- C12: `Train` never warm-starts: two networks with the same Settings and arbitrary
current parameter tensors (nil or set), trained on the same features and labels with the
same sequence of random draws, give the same outcome, with identical stored tensors. -/
theorem C12_train_ignores_previous_parameters {α : Type} [LinearOrderedField α]
    (exp : α → α) (settings : NeuralNetworkSettings α)
    (wh1 bh1 wo1 bo1 wh2 bh2 wo2 bo2 : Option (Dense α)) (rnd : Nat → α)
    (features labels : Dense α) :
    NeuralNetwork.Train exp ⟨settings, wh1, bh1, wo1, bo1⟩ rnd features labels =
      NeuralNetwork.Train exp ⟨settings, wh2, bh2, wo2, bo2⟩ rnd features labels :=
  Train_congr_settings exp ⟨settings, wh1, bh1, wo1, bo1⟩ ⟨settings, wh2, bh2, wo2, bo2⟩ rnd
    features labels rfl

/-- C13: `Validate`, run on a program state in which matrices live on a heap and the network
and the variables of `config` hold pointers, writes nothing that existed before the call.
Whenever a call from a state without dangling pointers returns, the network struct (Settings
and the four tensor pointers) and the four `config` variables are as before, every matrix
that was on the heap is still there unchanged (the call only allocates), so the Settings and
the four parameter tensors read by value are the same; hence a second call, made from the
state the first one left with no `Train` in between, returns the same accuracy and the same
error value.  When the test matrices are non-nil, these returned values are those of the
by-value `Validate`. -/
theorem C13_validate_is_idempotent {α : Type} [LinearOrderedField α] (exp : α → α)
    (s s' : Mem.State α) (r : α × Option GoError) (hv : s.Valid)
    (h : Mem.Validate exp s = Except.ok (r, s')) :
    s'.network = s.network ∧
    (s'.Features = s.Features ∧ s'.Labels = s.Labels ∧
      s'.TestFeatures = s.TestFeatures ∧ s'.TestLabels = s.TestLabels) ∧
    (∀ (a : Nat) (m : Dense α), s.heap[a]? = some m → s'.heap[a]? = some m) ∧
    s'.view = s.view ∧
    s'.Valid ∧
    (∃ s'' : Mem.State α, Mem.Validate exp s' = Except.ok (r, s'')) ∧
    (∀ F TL : Dense α, s.deref s.TestFeatures = Except.ok F →
      s.deref s.TestLabels = Except.ok TL → s.view.Validate exp F TL = Except.ok r) := by
  obtain ⟨hnw, hf, hl, htf, htl, ⟨ext, hext⟩, hsecond⟩ := Mem.Validate_frame exp s s' r hv h
  obtain ⟨hp', nw', f', l', tf', tl'⟩ := s'
  obtain ⟨hp, nw, f, l, tf, tl⟩ := s
  simp only at hnw hf hl htf htl hext
  subst hnw hf hl htf htl hext
  have hva := Mem.State.Valid_append hp ext _ _ _ _ _ hv
  refine ⟨rfl, ⟨rfl, rfl, rfl, rfl⟩, ?_, hva.2, hva.1, hsecond, ?_⟩
  · intro a m ha
    exact lookup_append hp ext a m ha
  · intro F TL hF hTL
    have hfst := Mem.Validate_fst exp _ F TL hv hF hTL
    rw [h] at hfst
    exact hfst.symm

/-- C13 at a concrete state over the reals: a heap of six `1 × 1` matrices (test features,
test labels and the four tensors); the first call returns and appends the four matrices of
`test`, and the second call, from the state it left, returns the same values. -/
theorem C13_validate_is_idempotent_witness :
    Mem.Validate Real.exp
        ⟨[Dense.tabulate 1 1 (fun _ _ => (1 : ℝ)), Dense.tabulate 1 1 (fun _ _ => 1),
            Dense.tabulate 1 1 (fun _ _ => 2), Dense.tabulate 1 1 (fun _ _ => 3),
            Dense.tabulate 1 1 (fun _ _ => 4), Dense.tabulate 1 1 (fun _ _ => 5)],
          ⟨⟨1, 1, 1, 1, 1⟩, some 2, some 3, some 4, some 5⟩, none, none, some 0, some 1⟩ =
      Except.ok
        (((((Finset.range 1).filter
            (isHit 1 (outputAt Real.exp 1 1 (fun _ _ => (1 : ℝ)) (fun _ _ => 2) (fun _ _ => 3)
              (fun _ _ => 4) (fun _ _ => 5)) (fun _ => 0))).card : ℝ) / ((1 : Nat) : ℝ), none),
          ⟨[Dense.tabulate 1 1 (fun _ _ => (1 : ℝ)), Dense.tabulate 1 1 (fun _ _ => 1),
              Dense.tabulate 1 1 (fun _ _ => 2), Dense.tabulate 1 1 (fun _ _ => 3),
              Dense.tabulate 1 1 (fun _ _ => 4), Dense.tabulate 1 1 (fun _ _ => 5)] ++
            [Dense.tabulate 1 1 (fun i j => ∑ p in Finset.range 1,
                (fun _ _ => (1 : ℝ)) i p * (fun _ _ => (2 : ℝ)) p j + (fun _ _ => (3 : ℝ)) 0 j),
              Dense.tabulate 1 1 (hiddenAt Real.exp 1 (fun _ _ => (1 : ℝ)) (fun _ _ => 2)
                (fun _ _ => 3)),
              Dense.tabulate 1 1 (fun i k => ∑ j in Finset.range 1,
                hiddenAt Real.exp 1 (fun _ _ => (1 : ℝ)) (fun _ _ => 2) (fun _ _ => 3) i j *
                  (fun _ _ => (4 : ℝ)) j k + (fun _ _ => (5 : ℝ)) 0 k),
              Dense.tabulate 1 1 (outputAt Real.exp 1 1 (fun _ _ => (1 : ℝ)) (fun _ _ => 2)
                (fun _ _ => 3) (fun _ _ => 4) (fun _ _ => 5))],
            ⟨⟨1, 1, 1, 1, 1⟩, some 2, some 3, some 4, some 5⟩, none, none, some 0, some 1⟩) ∧
    ∃ s'' : Mem.State ℝ,
      Mem.Validate Real.exp
        ⟨[Dense.tabulate 1 1 (fun _ _ => (1 : ℝ)), Dense.tabulate 1 1 (fun _ _ => 1),
              Dense.tabulate 1 1 (fun _ _ => 2), Dense.tabulate 1 1 (fun _ _ => 3),
              Dense.tabulate 1 1 (fun _ _ => 4), Dense.tabulate 1 1 (fun _ _ => 5)] ++
            [Dense.tabulate 1 1 (fun i j => ∑ p in Finset.range 1,
                (fun _ _ => (1 : ℝ)) i p * (fun _ _ => (2 : ℝ)) p j + (fun _ _ => (3 : ℝ)) 0 j),
              Dense.tabulate 1 1 (hiddenAt Real.exp 1 (fun _ _ => (1 : ℝ)) (fun _ _ => 2)
                (fun _ _ => 3)),
              Dense.tabulate 1 1 (fun i k => ∑ j in Finset.range 1,
                hiddenAt Real.exp 1 (fun _ _ => (1 : ℝ)) (fun _ _ => 2) (fun _ _ => 3) i j *
                  (fun _ _ => (4 : ℝ)) j k + (fun _ _ => (5 : ℝ)) 0 k),
              Dense.tabulate 1 1 (outputAt Real.exp 1 1 (fun _ _ => (1 : ℝ)) (fun _ _ => 2)
                (fun _ _ => 3) (fun _ _ => 4) (fun _ _ => 5))],
            ⟨⟨1, 1, 1, 1, 1⟩, some 2, some 3, some 4, some 5⟩, none, none, some 0, some 1⟩ =
        Except.ok
          (((((Finset.range 1).filter
            (isHit 1 (outputAt Real.exp 1 1 (fun _ _ => (1 : ℝ)) (fun _ _ => 2) (fun _ _ => 3)
              (fun _ _ => 4) (fun _ _ => 5)) (fun _ => 0))).card : ℝ) / ((1 : Nat) : ℝ), none),
            s'') :=
  have hfirst := Mem.Validate_by_value Real.exp
    ⟨[Dense.tabulate 1 1 (fun _ _ => (1 : ℝ)), Dense.tabulate 1 1 (fun _ _ => 1),
        Dense.tabulate 1 1 (fun _ _ => 2), Dense.tabulate 1 1 (fun _ _ => 3),
        Dense.tabulate 1 1 (fun _ _ => 4), Dense.tabulate 1 1 (fun _ _ => 5)],
      ⟨⟨1, 1, 1, 1, 1⟩, some 2, some 3, some 4, some 5⟩, none, none, some 0, some 1⟩
    0 1 2 3 4 5 _ _ _ _ _ _ rfl rfl rfl rfl rfl rfl rfl rfl rfl rfl rfl rfl _ _
    (forwardTrace_tabulate Real.exp (fun _ _ => 1) (fun _ _ => 2) (fun _ _ => 3)
      (fun _ _ => 4) (fun _ _ => 5) Nat.one_pos Nat.one_pos Nat.one_pos)
    (Validate_tabulate Real.exp ⟨1, 1, 1, 1, 1⟩ (fun _ _ => 1) (fun _ _ => 1) (fun _ _ => 2)
      (fun _ _ => 3) (fun _ _ => 4) (fun _ _ => 5) (fun _ => 0) Nat.one_pos Nat.one_pos
      Nat.one_pos (fun _ _ => ⟨Nat.one_pos, rfl, fun j hj => absurd hj (Nat.not_lt_zero j)⟩))
  ⟨hfirst, (C13_validate_is_idempotent Real.exp _ _ _
    (by exact ⟨rfl, rfl, rfl, rfl, rfl, rfl, rfl, rfl⟩) hfirst).2.2.2.2.2.1⟩

/-- C16: the forward pass written inline in the epoch loop of `Train` and the inference
forward pass `test` are the same computation: for every features matrix and parameter
tensors, `test` on a network holding the loop's parameters returns exactly the output
matrix the loop computes (the loop's reused `output` receiver being empty or of the output
shape, as it always is inside `Train`); in particular, whenever an epoch completes, the
`output` it leaves is what `test` returns for the parameters the epoch started from. -/
theorem C16_train_forward_pass_equals_test {α : Type} [LinearOrderedField α] (exp : α → α)
    (network : NeuralNetwork α) (features : Dense α) (st : TrainState α)
    (hrecv : st.output.cols = 0 ∨
      (st.output.rows = features.rows ∧ st.output.cols = st.weightsOut.cols)) :
    NeuralNetwork.test exp ⟨network.Settings, some st.weightsHidden, some st.biasesHidden,
        some st.weightsOut, some st.biasesOut⟩ features =
      (network.epochForward exp features st >>= fun r => pure (some r.2, none)) ∧
    ∀ (labels : Dense α) (st2 : TrainState α),
      network.epoch exp features labels st = Except.ok (Except.ok st2) →
      (∃ A, network.epochForward exp features st = Except.ok (A, st2.output)) ∧
      NeuralNetwork.test exp ⟨network.Settings, some st.weightsHidden, some st.biasesHidden,
          some st.weightsOut, some st.biasesOut⟩ features =
        Except.ok (some st2.output, none) :=
  ⟨test_eq_epochForward exp network features st hrecv, fun labels st2 h =>
    ⟨epoch_ok_epochForward exp network features labels st st2 h,
      epoch_ok_test exp network features labels st st2 h⟩⟩

/-- C16 at a concrete state over the reals, in the first epoch (empty `output` receiver). -/
theorem C16_train_forward_pass_equals_test_witness :
    NeuralNetwork.test Real.exp ⟨⟨1, 1, 1, 1, 1⟩, some ⟨1, 1, [2]⟩, some ⟨1, 1, [3]⟩,
        some ⟨1, 1, [4]⟩, some ⟨1, 1, [5]⟩⟩ ⟨1, 1, [1]⟩ =
      (NeuralNetwork.epochForward Real.exp (NewNetwork ⟨1, 1, 1, 1, 1⟩) ⟨1, 1, [1]⟩
        ⟨⟨1, 1, [2]⟩, ⟨1, 1, [3]⟩, ⟨1, 1, [4]⟩, ⟨1, 1, [5]⟩, Dense.empty⟩ >>=
          fun r => pure (some r.2, none)) :=
  (C16_train_forward_pass_equals_test Real.exp (NewNetwork ⟨1, 1, 1, 1, 1⟩) ⟨1, 1, [1]⟩
    ⟨⟨1, 1, [2]⟩, ⟨1, 1, [3]⟩, ⟨1, 1, [4]⟩, ⟨1, 1, [5]⟩, Dense.empty⟩ (Or.inl rfl)).1

/-- C14: for CSV content made of a header record followed by `N` records of 7 numeric
fields (few enough for the `int32` indices), `loadDataFromCSV` skips the header and returns,
with a nil error, a features matrix with 4 columns and a labels matrix with 3 columns such
that, for every `k < N`, row `k` of the features is fields 0..3 of the `k`-th data record in
order and row `k` of the labels is its fields 4..6 in order. -/
theorem C14_loadDataFromCSV_rows_are_the_records {α : Type} [Zero α]
    (parseFloat : String → Except GoError α) (header : List String)
    (recs : List (List String)) (vals : List (List α))
    (hheader : header.length = 7) (hp : ParsedRecords parseFloat recs vals)
    (hsize : ((4 * (recs.length + 1) : Nat) : Int) < 2 ^ 31) :
    ∃ features labels : Dense α,
      loadDataFromCSV parseFloat (Except.ok (header :: recs)) =
        Except.ok (some features, some labels, none) ∧
      features.cols = 4 ∧ labels.cols = 3 ∧
      ∀ k (hk : k < vals.length),
        matRow k features.asMatrix = Except.ok ((vals[k]).take 4) ∧
        matRow k labels.asMatrix = Except.ok ((vals[k]).drop 4) := by
  obtain ⟨hlen, _, hvals⟩ := ParsedRecords.lengths hp
  exact ⟨_, _, loadDataFromCSV_parsed parseFloat header recs vals hheader hp hsize, rfl, rfl,
    (loaded_rows vals hvals recs.length hlen.symm).1⟩

/-- C14 at a concrete file over the reals: a header and the records `1,0,1,0,0,1,0` and
`0,0,1,1,1,0,0`. -/
theorem C14_loadDataFromCSV_rows_are_the_records_witness :
    ∃ features labels : Dense ℝ,
      loadDataFromCSV
          (fun s => if s = "1" then Except.ok (1 : ℝ) else if s = "0" then Except.ok 0
            else Except.error (GoError.errorf "invalid syntax"))
          (Except.ok [["a", "b", "c", "d", "x", "y", "z"],
            ["1", "0", "1", "0", "0", "1", "0"], ["0", "0", "1", "1", "1", "0", "0"]]) =
        Except.ok (some features, some labels, none) ∧
      matRow 0 features.asMatrix = Except.ok [1, 0, 1, 0] ∧
      matRow 0 labels.asMatrix = Except.ok [0, 1, 0] ∧
      matRow 1 features.asMatrix = Except.ok [0, 0, 1, 1] ∧
      matRow 1 labels.asMatrix = Except.ok [1, 0, 0] := by
  obtain ⟨features, labels, h, _, _, hrows⟩ := C14_loadDataFromCSV_rows_are_the_records
    (fun s => if s = "1" then Except.ok (1 : ℝ) else if s = "0" then Except.ok 0
      else Except.error (GoError.errorf "invalid syntax"))
    ["a", "b", "c", "d", "x", "y", "z"]
    [["1", "0", "1", "0", "0", "1", "0"], ["0", "0", "1", "1", "1", "0", "0"]]
    [[1, 0, 1, 0, 0, 1, 0], [0, 0, 1, 1, 1, 0, 0]] rfl
    (by
      unfold ParsedRecords
      simp)
    (by norm_num)
  exact ⟨features, labels, h, (hrows 0 (by decide)).1, (hrows 0 (by decide)).2,
    (hrows 1 (by decide)).1, (hrows 1 (by decide)).2⟩

/-- C15: for Settings with positive layer sizes, features of shape `N × InputNeurons` and
labels of shape `N × OutputNeurons`, every epoch step run on parameters of shapes
`InputNeurons × HiddenNeurons`, `1 × HiddenNeurons`, `HiddenNeurons × OutputNeurons`,
`1 × OutputNeurons` completes without a shape panic (every product and elementwise
operation is dimension-compatible) and yields parameters of the same shapes; hence `Train`,
for any epoch count, stores four tensors of exactly these shapes. -/
theorem C15_training_preserves_shapes {α : Type} [LinearOrderedField α] (exp : α → α)
    (network : NeuralNetwork α) (rnd : Nat → α) (features labels : Dense α) (N I H O : Nat)
    (hsI : network.Settings.InputNeurons = I) (hsH : network.Settings.HiddenNeurons = H)
    (hsO : network.Settings.OutputNeurons = O)
    (hX : features.HasShape N I) (hY : labels.HasShape N O)
    (hN : 0 < N) (hI : 0 < I) (hH : 0 < H) (hO : 0 < O)
    (hIH : ((I * H : Nat) : Int) < 2 ^ 63) (hHO : ((H * O : Nat) : Int) < 2 ^ 63) :
    (∀ st : TrainState α,
      st.weightsHidden.HasShape I H → st.biasesHidden.HasShape 1 H →
      st.weightsOut.HasShape H O → st.biasesOut.HasShape 1 O →
      (st.output.cols = 0 ∨ (st.output.rows = N ∧ st.output.cols = O)) →
      ∃ st2 : TrainState α,
        network.epoch exp features labels st = Except.ok (Except.ok st2) ∧
        st2.weightsHidden.HasShape I H ∧ st2.biasesHidden.HasShape 1 H ∧
        st2.weightsOut.HasShape H O ∧ st2.biasesOut.HasShape 1 O ∧
        st2.output.HasShape N O) ∧
    ∃ WH BH WO BO : Dense α,
      network.Train exp rnd features labels =
        Except.ok (⟨network.Settings, some WH, some BH, some WO, some BO⟩, none) ∧
      WH.HasShape I H ∧ BH.HasShape 1 H ∧ WO.HasShape H O ∧ BO.HasShape 1 O := by
  have hH63 : (H : Int) < 2 ^ 63 := by
    have : H ≤ I * H := Nat.le_mul_of_pos_left H hI
    omega
  have hO63 : (O : Int) < 2 ^ 63 := by
    have : O ≤ H * O := Nat.le_mul_of_pos_left O hH
    omega
  constructor
  · intro st h1 h2 h3 h4 h5
    exact ⟨_, epoch_WF exp network features labels st N I H O hX hY h1 h2 h3 h4 h5 hN hI hH hO
      hH63 hO63, Dense.tabulate_HasShape _ _ _, Dense.tabulate_HasShape _ _ _,
      Dense.tabulate_HasShape _ _ _, Dense.tabulate_HasShape _ _ _,
      Dense.tabulate_HasShape _ _ _⟩
  · have e := Train_tabulate exp network rnd (N := N) (I := I) (H := H) (O := O)
      features.entry labels.entry hsI hsH hsO hN hI hH hO hIH hHO
    rw [← Dense.eq_tabulate_of hX.1 hX.2.1 hX.2.2, ← Dense.eq_tabulate_of hY.1 hY.2.1 hY.2.2] at e
    exact ⟨_, _, _, _, e, Dense.tabulate_HasShape _ _ _, Dense.tabulate_HasShape _ _ _,
      Dense.tabulate_HasShape _ _ _, Dense.tabulate_HasShape _ _ _⟩

/-- C15 at a concrete run over the reals: three epochs on one example with 2 inputs,
2 hidden units and 1 output. -/
theorem C15_training_preserves_shapes_witness :
    ∃ WH BH WO BO : Dense ℝ,
      NeuralNetwork.Train Real.exp (NewNetwork ⟨2, 1, 2, 3, 1⟩) (fun _ => 0)
        ⟨1, 2, [1, 1]⟩ ⟨1, 1, [1]⟩ =
        Except.ok (⟨⟨2, 1, 2, 3, 1⟩, some WH, some BH, some WO, some BO⟩, none) ∧
      WH.HasShape 2 2 ∧ BH.HasShape 1 2 ∧ WO.HasShape 2 1 ∧ BO.HasShape 1 1 :=
  (C15_training_preserves_shapes Real.exp (NewNetwork ⟨2, 1, 2, 3, 1⟩) (fun _ => 0)
    ⟨1, 2, [1, 1]⟩ ⟨1, 1, [1]⟩ 1 2 2 1 rfl rfl rfl ⟨rfl, rfl, rfl⟩ ⟨rfl, rfl, rfl⟩
    (by decide) (by decide) (by decide) (by decide) (by norm_num) (by norm_num)).2

/-- C17: `Validate` does not reset the true-class index between rows: with `c i` the first
column of label row `i` holding `1.0` when there is one, and otherwise the index carried
over from the preceding row (`0` before the first row), `Validate` returns `hits / N` where
row `i` is a hit exactly when the output at column `c i` equals the row maximum; so a row
without any `1.0` is tested against the carried index and can be counted as a hit. -/
theorem C17_validate_carries_class_index {α : Type} [LinearOrderedField α] (exp : α → α)
    (network : NeuralNetwork α) (TestFeatures TestLabels wh bh wo bo : Dense α)
    (N I H O : Nat) (c : Nat → Nat)
    (hwh : network.WeightsHidden = some wh) (hbh : network.BiasesHidden = some bh)
    (hwo : network.WeightsOut = some wo) (hbo : network.BiasesOut = some bo)
    (hX : TestFeatures.HasShape N I) (hL : TestLabels.HasShape N O)
    (hWH : wh.HasShape I H) (hBH : bh.HasShape 1 H)
    (hWO : wo.HasShape H O) (hBO : bo.HasShape 1 O)
    (hN : 0 < N) (hH0 : 0 < H) (hO0 : 0 < O)
    (hc : ∀ i, i < N →
      (c i < O ∧ TestLabels.entry i (c i) = 1 ∧ ∀ j, j < c i → TestLabels.entry i j ≠ 1) ∨
      ((∀ j, j < O → TestLabels.entry i j ≠ 1) ∧ c i = if i = 0 then 0 else c (i - 1))) :
    ∃ out : Dense α, network.test exp TestFeatures = Except.ok (some out, none) ∧
      network.Validate exp TestFeatures TestLabels = Except.ok
        ((((Finset.range N).filter
          (fun i => ∀ k, k < O → out.entry i k ≤ out.entry i (c i))).card : α) / (N : α),
          none) := by
  have hcO : ∀ i, i < N → c i < O := CarriedClass.lt hc hO0
  have e := test_tabulate exp network.Settings (N := N) (I := I) (H := H) (O := O)
    TestFeatures.entry wh.entry bh.entry wo.entry bo.entry hN hH0 hO0
  have v := Validate_carried exp network.Settings (N := N) (I := I) (H := H) (O := O)
    TestFeatures.entry TestLabels.entry wh.entry bh.entry wo.entry bo.entry c hN hH0 hO0 hc
  rw [← Dense.eq_tabulate_of hX.1 hX.2.1 hX.2.2, ← Dense.eq_tabulate_of hWH.1 hWH.2.1 hWH.2.2,
    ← Dense.eq_tabulate_of hBH.1 hBH.2.1 hBH.2.2, ← Dense.eq_tabulate_of hWO.1 hWO.2.1 hWO.2.2,
    ← Dense.eq_tabulate_of hBO.1 hBO.2.1 hBO.2.2] at e v
  rw [← Dense.eq_tabulate_of hL.1 hL.2.1 hL.2.2] at v
  obtain ⟨settings, WH, BH, WO, BO⟩ := network
  simp only at hwh hbh hwo hbo
  subst hwh hbh hwo hbo
  refine ⟨_, e, ?_⟩
  rw [v]
  refine congrArg
    (fun S : Finset Nat => (Except.ok (((S.card : α) / (N : α)), none) : Go (α × Option GoError)))
    ?_
  apply Finset.filter_congr
  intro i hi
  have hiN : i < N := Finset.mem_range.mp hi
  unfold isHit
  constructor
  · intro h k hk
    rw [Dense.tabulate_entry N O _ hiN hk, Dense.tabulate_entry N O _ hiN (hcO i hiN)]
    exact h k hk
  · intro h k hk
    have := h k hk
    rwa [Dense.tabulate_entry N O _ hiN hk, Dense.tabulate_entry N O _ hiN (hcO i hiN)] at this

/-- C17 at a concrete input over the reals: label rows `[0, 1]` and `[0, 0]`; the second row
holds no `1.0`, keeps class 1 from the first row, and both rows are counted as hits (the two
outputs of a row tie), so the accuracy is `2 / 2`. -/
theorem C17_validate_carries_class_index_witness :
    NeuralNetwork.Validate Real.exp
      ⟨⟨1, 2, 1, 1, 1⟩, some ⟨1, 1, [2]⟩, some ⟨1, 1, [3]⟩, some ⟨1, 2, [4, 4]⟩,
        some ⟨1, 2, [5, 5]⟩⟩ ⟨2, 1, [1, 6]⟩ ⟨2, 2, [0, 1, 0, 0]⟩ =
      Except.ok (((2 : Nat) : ℝ) / ((2 : Nat) : ℝ), none) := by
  obtain ⟨out, ht, hv⟩ := C17_validate_carries_class_index Real.exp
    ⟨⟨1, 2, 1, 1, 1⟩, some ⟨1, 1, [2]⟩, some ⟨1, 1, [3]⟩, some ⟨1, 2, [4, 4]⟩,
      some ⟨1, 2, [5, 5]⟩⟩ ⟨2, 1, [1, 6]⟩ ⟨2, 2, [0, 1, 0, 0]⟩
    ⟨1, 1, [2]⟩ ⟨1, 1, [3]⟩ ⟨1, 2, [4, 4]⟩ ⟨1, 2, [5, 5]⟩ 2 1 1 2 (fun _ => 1)
    rfl rfl rfl rfl ⟨rfl, rfl, rfl⟩ ⟨rfl, rfl, rfl⟩ ⟨rfl, rfl, rfl⟩
    ⟨rfl, rfl, rfl⟩ ⟨rfl, rfl, rfl⟩ ⟨rfl, rfl, rfl⟩ (by decide) Nat.one_pos (by decide)
    (by
      intro i hi
      interval_cases i
      · left
        refine ⟨by decide, by simp [Dense.entry], ?_⟩
        intro j hj
        have hj0 : j = 0 := by simpa using hj
        subst hj0
        simp [Dense.entry]
      · right
        refine ⟨?_, by simp⟩
        intro j hj
        interval_cases j <;> simp [Dense.entry])
  rw [hv]
  have hout := test_tabulate Real.exp (⟨1, 2, 1, 1, 1⟩ : NeuralNetworkSettings ℝ)
    (N := 2) (I := 1) (H := 1) (O := 2) (⟨2, 1, [1, 6]⟩ : Dense ℝ).entry
    (⟨1, 1, [2]⟩ : Dense ℝ).entry (⟨1, 1, [3]⟩ : Dense ℝ).entry
    (⟨1, 2, [4, 4]⟩ : Dense ℝ).entry (⟨1, 2, [5, 5]⟩ : Dense ℝ).entry
    (by decide) Nat.one_pos (by decide)
  rw [← Dense.eq_tabulate_of (m := (⟨2, 1, [1, 6]⟩ : Dense ℝ)) rfl rfl rfl,
    ← Dense.eq_tabulate_of (m := (⟨1, 1, [2]⟩ : Dense ℝ)) rfl rfl rfl,
    ← Dense.eq_tabulate_of (m := (⟨1, 1, [3]⟩ : Dense ℝ)) rfl rfl rfl,
    ← Dense.eq_tabulate_of (m := (⟨1, 2, [4, 4]⟩ : Dense ℝ)) rfl rfl rfl,
    ← Dense.eq_tabulate_of (m := (⟨1, 2, [5, 5]⟩ : Dense ℝ)) rfl rfl rfl] at hout
  rw [hout] at ht
  simp only [Except.ok.injEq, Prod.mk.injEq, Option.some.injEq, and_true] at ht
  subst ht
  have hfilter : (Finset.range 2).filter (fun i : Nat => ∀ k : Nat, k < 2 →
      (Dense.tabulate 2 2 (outputAt Real.exp 1 1 (⟨2, 1, [1, 6]⟩ : Dense ℝ).entry
        (⟨1, 1, [2]⟩ : Dense ℝ).entry (⟨1, 1, [3]⟩ : Dense ℝ).entry
        (⟨1, 2, [4, 4]⟩ : Dense ℝ).entry (⟨1, 2, [5, 5]⟩ : Dense ℝ).entry)).entry i k ≤
      (Dense.tabulate 2 2 (outputAt Real.exp 1 1 (⟨2, 1, [1, 6]⟩ : Dense ℝ).entry
        (⟨1, 1, [2]⟩ : Dense ℝ).entry (⟨1, 1, [3]⟩ : Dense ℝ).entry
        (⟨1, 2, [4, 4]⟩ : Dense ℝ).entry (⟨1, 2, [5, 5]⟩ : Dense ℝ).entry)).entry i 1) =
      Finset.range 2 := by
    apply Finset.filter_true_of_mem
    intro i hi k hk
    have hi2 : i < 2 := Finset.mem_range.mp hi
    rw [Dense.tabulate_entry 2 2 _ hi2 hk, Dense.tabulate_entry 2 2 _ hi2 (by decide)]
    interval_cases k
    · unfold outputAt
      simp [Dense.entry]
    · exact le_refl _
  rw [hfilter, Finset.card_range]

/-- C18: for CSV content with a header record and `N` data records (7 numeric fields each),
both matrices returned by `loadDataFromCSV` have `N + 1` rows, the header being counted in
the row dimension, and the last row of the features matrix and of the labels matrix is
entirely zero. -/
theorem C18_loadDataFromCSV_extra_zero_row {α : Type} [Zero α]
    (parseFloat : String → Except GoError α) (header : List String)
    (recs : List (List String)) (vals : List (List α))
    (hheader : header.length = 7) (hp : ParsedRecords parseFloat recs vals)
    (hsize : ((4 * (recs.length + 1) : Nat) : Int) < 2 ^ 31) :
    ∃ features labels : Dense α,
      loadDataFromCSV parseFloat (Except.ok (header :: recs)) =
        Except.ok (some features, some labels, none) ∧
      features.rows = recs.length + 1 ∧ labels.rows = recs.length + 1 ∧
      matRow recs.length features.asMatrix = Except.ok [0, 0, 0, 0] ∧
      matRow recs.length labels.asMatrix = Except.ok [0, 0, 0] := by
  obtain ⟨hlen, _, hvals⟩ := ParsedRecords.lengths hp
  exact ⟨_, _, loadDataFromCSV_parsed parseFloat header recs vals hheader hp hsize, rfl, rfl,
    (loaded_rows vals hvals recs.length hlen.symm).2⟩

/-- C18 at a concrete file over the reals: a header and one record give two rows, the
second one zero. -/
theorem C18_loadDataFromCSV_extra_zero_row_witness :
    ∃ features labels : Dense ℝ,
      loadDataFromCSV
          (fun s => if s = "1" then Except.ok (1 : ℝ) else if s = "0" then Except.ok 0
            else Except.error (GoError.errorf "invalid syntax"))
          (Except.ok [["a", "b", "c", "d", "x", "y", "z"],
            ["1", "0", "1", "0", "0", "1", "0"]]) =
        Except.ok (some features, some labels, none) ∧
      features.rows = 2 ∧ labels.rows = 2 ∧
      matRow 1 features.asMatrix = Except.ok [0, 0, 0, 0] ∧
      matRow 1 labels.asMatrix = Except.ok [0, 0, 0] :=
  C18_loadDataFromCSV_extra_zero_row
    (fun s => if s = "1" then Except.ok (1 : ℝ) else if s = "0" then Except.ok 0
      else Except.error (GoError.errorf "invalid syntax"))
    ["a", "b", "c", "d", "x", "y", "z"] [["1", "0", "1", "0", "0", "1", "0"]]
    [[1, 0, 1, 0, 0, 1, 0]] rfl
    (by
      unfold ParsedRecords
      simp)
    (by norm_num)

/-- C19: `sumCols` never returns a non-nil error; for a matrix `m` with at least one
column it returns the `1 × c` matrix whose entry `j` is the sum of column `j` of `m` (`m` is
only read); hence the error branches of `Train` are unreachable: whenever `Train` returns,
the returned error is nil. -/
theorem C19_sumCols_and_train_return_nil_error {α : Type} [LinearOrderedField α]
    (exp : α → α) :
    (∀ (m d : Dense α) (e : Option GoError), sumCols m = Except.ok (d, e) → e = none) ∧
    (∀ m : Dense α, m.WF → 0 < m.cols → (m.cols : Int) < 2 ^ 63 →
      sumCols m = Except.ok
        (Dense.tabulate 1 m.cols (fun _ j => ∑ i in Finset.range m.rows, m.entry i j),
          none)) ∧
    (∀ (network : NeuralNetwork α) (features labels : Dense α) (st : TrainState α)
      (r : Except GoError (TrainState α)),
      network.epoch exp features labels st = Except.ok r → ∃ st2, r = Except.ok st2) ∧
    (∀ (network : NeuralNetwork α) (rnd : Nat → α) (features labels : Dense α)
      (net : NeuralNetwork α) (e : Option GoError),
      network.Train exp rnd features labels = Except.ok (net, e) → e = none) :=
  ⟨sumCols_nil_error, sumCols_WF, epoch_not_error exp, Train_nil_error exp⟩

end NeuralNet
